import Mathlib

/-! PlayStation 2 master disc patcher: a shallow embedding of `ps2master-patcher.c`.

Bytes, characters and machine words are natural numbers; every store into a
narrower C type is written with an explicit `% 2 ^ w`.  Signed `int` arguments
are integers.  Memory buffers are lists of bytes read with `List.getD` and
written with `List.set`; C `for` loops are `forLoop`.

A `char` is represented by its byte value `0..255`.  The only comparisons the
program performs on characters are `c < 'A' || c > 'Z'`, whose outcome is the
same whether `char` is signed (bytes above 127 are negative, hence `< 'A'`) or
unsigned (hence `> 'Z'`).
-/

namespace PS2Patcher

/-! ## Loops and buffers -/

/-- Runs `body i` for `i = start, start + 1, ..., start + count - 1`, threading
the state: the C loop `for (i = start; i < start + count; ++i) body`. -/
def forLoop {σ : Type} (start : Nat) : Nat → (Nat → σ → σ) → σ → σ
  | 0, _, s => s
  | count + 1, body, s => forLoop (start + 1) count body (body start s)

/-- Stores the bytes `src` into `buf` starting at offset `off` (`memcpy`). -/
def memcpy (buf : List Nat) (off : Nat) (src : List Nat) : List Nat :=
  forLoop 0 src.length (fun i b => b.set (off + i) (src.getD i 0)) buf

/-- Stores `count` copies of the byte `c` into `buf` from offset `off` (`memset`). -/
def memset (buf : List Nat) (off : Nat) (c : Nat) (count : Nat) : List Nat :=
  forLoop 0 count (fun i b => b.set (off + i) (c % 256)) buf

/-! ## Magic numbers -/

/-- The three result slots `*magic1`, `*magic2`, `*magic3` of `calcMagicNums`. -/
structure MagicSlots where
  magic1 : Nat
  magic2 : Nat
  magic3 : Nat
deriving DecidableEq

/-- Embedding of `calcMagicNums`.  `discNameLetters` holds the characters the
pointer refers to (a character past the end of the list reads as the string
terminator 0), `out` is the content of the three result slots before the call;
the result is the returned flag and the content of the slots afterwards. -/
def calcMagicNums (discNameLetters : List Nat) (discNameNumbers : Int)
    (out : MagicSlots) : Bool × MagicSlots :=
  -- check discname letters to make sure they are valid
  if (List.range 4).any
      (fun i => decide (discNameLetters.getD i 0 < 65) || decide (discNameLetters.getD i 0 > 90)) then
    (false, out)
  -- check discname numbers to make sure they are valid
  else if discNameNumbers < 0 ∨ discNameNumbers > 99999 then
    (false, out)
  else
    -- make letters fit into a single u_int
    let letters : Nat :=
      ((discNameLetters.getD 3 0 <<< 0) ||| (discNameLetters.getD 2 0 <<< 7) |||
        (discNameLetters.getD 1 0 <<< 14) ||| (discNameLetters.getD 0 0 <<< 21)) % 4294967296
    -- number already fits into a u_int
    let numbers : Nat := discNameNumbers.toNat % 4294967296
    -- calculate magic numbers
    let magic1 := (((numbers &&& 0x1F) <<< 3) ||| ((0x0FFFFFFF &&& letters) >>> 25)) % 256
    let magic2 := ((numbers >>> 10) ||| (((0x0FFFFFFF &&& letters) <<< 7) % 4294967296)) % 4294967296
    let magic3 := (((numbers &&& 0x3E0) >>> 2) ||| 0x04) % 256
    (true, ⟨magic1, magic2, magic3⟩)

/-! ## Logo cipher -/

/-- Number of bytes of the raw logo, `12*2048`. -/
def LOGO_SIZE : Nat := 12 * 2048

/-- Embedding of `EncryptLogo`: the returned flag and the logo buffer afterwards. -/
def EncryptLogo (logo : List Nat) (discNameLetters : List Nat) (discNameNumbers : Int) :
    Bool × List Nat :=
  -- calculate the magic number needed for XORing
  let r := calcMagicNums discNameLetters discNameNumbers ⟨0, 0, 0⟩
  if !r.1 then (false, logo)
  else
    let magicNum := r.2.magic1
    -- individually encrypt each pixel in the logo
    (true, forLoop 0 LOGO_SIZE
      (fun i logo =>
        logo.set i ((((logo.getD i 0 <<< 5) ||| (logo.getD i 0 >>> 3)) ^^^ magicNum) % 256))
      logo)

/-- Embedding of `DecryptLogo`: the returned flag and the logo buffer afterwards. -/
def DecryptLogo (logo : List Nat) (discNameLetters : List Nat) (discNameNumbers : Int) :
    Bool × List Nat :=
  -- calculate the magic number needed for XORing
  let r := calcMagicNums discNameLetters discNameNumbers ⟨0, 0, 0⟩
  if !r.1 then (false, logo)
  else
    let magicNum := r.2.magic1
    -- individually decrypt each pixel in the logo
    (true, forLoop 0 LOGO_SIZE
      (fun i logo =>
        logo.set i ((((logo.getD i 0 ^^^ magicNum) >>> 5) ||| ((logo.getD i 0 ^^^ magicNum) <<< 3)) % 256))
      logo)

/-- A product code accepted by the program: four letters `'A'..'Z'` and an id
in `0..99999`. -/
def ValidCode (letters : List Nat) (id : Int) : Prop :=
  letters.length = 4 ∧ (∀ c ∈ letters, 65 ≤ c ∧ c ≤ 90) ∧ 0 ≤ id ∧ id ≤ 99999

instance (letters : List Nat) (id : Int) : Decidable (ValidCode letters id) := by
  unfold ValidCode
  infer_instance

/-! ## Backing storage -/

/-- An open stream over the disc image: the bytes of the file, the current
position, and whether the stream accepts writes. -/
structure FILE where
  data : List Nat
  pos : Nat
  writable : Bool
deriving DecidableEq

/-- The `whence` argument of `fseek`, as far as the program uses it here. -/
inductive Whence where
  | SEEK_SET
  | SEEK_CUR
deriving DecidableEq

/-- Moves the position to `offset` counted from the start (`SEEK_SET`) or from
the current position (`SEEK_CUR`); a seek to a negative position fails and
leaves the stream where it was.  Seeking past the end is allowed. -/
def fseek (f : FILE) (offset : Int) (whence : Whence) : FILE :=
  let base : Int := match whence with
    | Whence.SEEK_SET => 0
    | Whence.SEEK_CUR => (f.pos : Int)
  if base + offset < 0 then f else { f with pos := (base + offset).toNat }

/-- Reads up to `count` bytes at the current position: the bytes obtained (fewer
than `count` at end of file) and the stream advanced past them. -/
def fread (f : FILE) (count : Nat) : List Nat × FILE :=
  let bytes := (f.data.drop f.pos).take count
  (bytes, { f with pos := f.pos + bytes.length })

/-- Writes `bytes` at the current position, overwriting what is there and
extending the file when needed (a gap past the old end reads as zero bytes).
Returns the number of bytes written: all of them, or none on a stream that
does not accept writes. -/
def fwrite (f : FILE) (bytes : List Nat) : Nat × FILE :=
  if !f.writable then (0, f)
  else
    let padded := f.data ++ List.replicate (f.pos - f.data.length) 0
    (bytes.length,
      { f with
        data := padded.take f.pos ++ bytes ++ padded.drop (f.pos + bytes.length)
        pos := f.pos + bytes.length })

/-! ## Sector layout (`cdrom.h`) -/

/-- Modelled from the spec: `cdrom.h` is not part of the sources; a raw CD-XA
sector is 2352 bytes. -/
def SECTOR_SIZE : Nat := 2352
/-- Modelled from the spec: the sync field is the first 12 bytes. -/
def SYNC_SIZE : Nat := 12
/-- Modelled from the spec: the 4-byte header follows the sync field. -/
def HEADER_OFFSET : Nat := 12
/-- Modelled from the spec: the header is 4 bytes (minute, second, block, mode). -/
def HEADER_SIZE : Nat := 4
/-- Modelled from the spec: the 8-byte subheader follows the header. -/
def CDROMXA_SUBHEADER_OFFSET : Nat := 16
/-- Modelled from the spec: the subheader is 8 bytes (two 4-byte copies). -/
def CDROMXA_SUBHEADER_SIZE : Nat := 8
/-- Modelled from the spec: 2048 bytes of user data. -/
def CDROMXA_FORM1_USER_DATA_SIZE : Nat := 2048
/-- Modelled from the spec: the 4-byte checksum field follows the user data. -/
def CDROMXA_FORM1_EDC_OFFSET : Nat := 2072
/-- Modelled from the spec: the checksum field is 4 bytes. -/
def EDC_SIZE : Nat := 4
/-- Modelled from the spec: the 172-byte P parity field follows the checksum. -/
def CDROMXA_FORM1_PARITY_P_OFFSET : Nat := 2076
/-- Modelled from the spec: the P parity field is 172 bytes. -/
def CDROMXA_FORM1_PARITY_P_SIZE : Nat := 172
/-- Modelled from the spec: the 104-byte Q parity field ends the sector. -/
def CDROMXA_FORM1_PARITY_Q_OFFSET : Nat := 2248
/-- Modelled from the spec: the accepted mode byte. -/
def MODE_2 : Nat := 2

/-- The sync pattern `00 FF×10 00`. -/
def sync : List Nat :=
  [0x00, 0xFF, 0xFF, 0xFF, 0xFF, 0xFF, 0xFF, 0xFF, 0xFF, 0xFF, 0xFF, 0x00]

/-! ## Sector ECC codec

The two lookup tables of `cdrom.h` are parameters: `EDCTable i` is the entry
`EDCTable[i]` and `RSPCTable j b` the entry `RSPCTable[j][b]`.  The accumulators
are `unsigned int` and `unsigned short`, so every assignment to them is taken
modulo `2 ^ 32` and `2 ^ 16`. Pointers into the sector are byte offsets from
its start. -/

/-- The checksum loop of `fixMode2Form1Sector` ("Compute form 1 EDC"). -/
def computeEDC (EDCTable : Nat → Nat) (sector : List Nat) : Nat :=
  forLoop CDROMXA_SUBHEADER_OFFSET (CDROMXA_FORM1_EDC_OFFSET - CDROMXA_SUBHEADER_OFFSET)
    (fun i EDC =>
      let EDC := (EDC ^^^ sector.getD i 0) % 4294967296
      ((EDC >>> 8) ^^^ EDCTable (EDC &&& 0x000000FF)) % 4294967296)
    0x00000000

/-- The four stores of "Write EDC". -/
def writeEDC (sector : List Nat) (EDC : Nat) : List Nat :=
  let sector := sector.set (CDROMXA_FORM1_EDC_OFFSET + 0) (((EDC &&& 0x000000FF) >>> 0) % 256)
  let sector := sector.set (CDROMXA_FORM1_EDC_OFFSET + 1) (((EDC &&& 0x0000FF00) >>> 8) % 256)
  let sector := sector.set (CDROMXA_FORM1_EDC_OFFSET + 2) (((EDC &&& 0x00FF0000) >>> 16) % 256)
  sector.set (CDROMXA_FORM1_EDC_OFFSET + 3) (((EDC &&& 0xFF000000) >>> 24) % 256)

/-- The inner loop of "Calculate P parity": the state is `(x, y, src)`. -/
def parityPInner (RSPCTable : Nat → Nat → Nat) (sector : List Nat) (src : Nat) :
    Nat × Nat × Nat :=
  forLoop 19 (43 - 19)
    (fun j (acc : Nat × Nat × Nat) =>
      let x := (acc.1 ^^^ RSPCTable j (sector.getD (acc.2.2 + 0) 0)) % 65536
      let y := (acc.2.1 ^^^ RSPCTable j (sector.getD (acc.2.2 + 1) 0)) % 65536
      (x, y, acc.2.2 + 2 * 43))
    (0x0000, 0x0000, src)

/-- One iteration of the outer loop of "Calculate P parity": the state is
`(sector, src, dst)`. -/
def parityPStep (RSPCTable : Nat → Nat → Nat) (st : List Nat × Nat × Nat) :
    List Nat × Nat × Nat :=
  let inner := parityPInner RSPCTable st.1 st.2.1
  let x := inner.1
  let y := inner.2.1
  let src := inner.2.2
  let dst := st.2.2
  let sector := st.1.set (dst + 0) ((x >>> 8) % 256)
  let sector := sector.set (dst + (2 * 43 + 0)) ((x &&& 0xFF) % 256)
  let sector := sector.set (dst + 1) ((y >>> 8) % 256)
  let sector := sector.set (dst + (2 * 43 + 1)) ((y &&& 0xFF) % 256)
  let dst := dst + 2
  let src := src - (43 - 19) * 2 * 43
  let src := src + 2
  (sector, src, dst)

/-- "Calculate P parity". -/
def parityP (RSPCTable : Nat → Nat → Nat) (sector : List Nat) : List Nat :=
  (forLoop 0 43 (fun _ st => parityPStep RSPCTable st)
    (sector, HEADER_OFFSET, CDROMXA_FORM1_PARITY_P_OFFSET)).1

/-- The inner loop of "Calculate Q parity": the state is `(x, y, src)`. -/
def parityQInner (RSPCTable : Nat → Nat → Nat) (sector : List Nat) (src src_end : Nat) :
    Nat × Nat × Nat :=
  forLoop 0 43
    (fun j (acc : Nat × Nat × Nat) =>
      let x := (acc.1 ^^^ RSPCTable j (sector.getD (acc.2.2 + 0) 0)) % 65536
      let y := (acc.2.1 ^^^ RSPCTable j (sector.getD (acc.2.2 + 1) 0)) % 65536
      let src := acc.2.2 + 2 * 44
      let src :=
        if src ≥ src_end then
          src - (HEADER_SIZE + CDROMXA_SUBHEADER_SIZE + CDROMXA_FORM1_USER_DATA_SIZE + EDC_SIZE +
            CDROMXA_FORM1_PARITY_P_SIZE)
        else src
      (x, y, src))
    (0x0000, 0x0000, src)

/-- One iteration of the outer loop of "Calculate Q parity": the state is
`(sector, src, dst)`. -/
def parityQStep (RSPCTable : Nat → Nat → Nat) (src_end : Nat) (st : List Nat × Nat × Nat) :
    List Nat × Nat × Nat :=
  let src_backup := st.2.1
  let inner := parityQInner RSPCTable st.1 st.2.1 src_end
  let x := inner.1
  let y := inner.2.1
  let dst := st.2.2
  let sector := st.1.set (dst + 0) ((x >>> 8) % 256)
  let sector := sector.set (dst + (2 * 26 + 0)) ((x &&& 0xFF) % 256)
  let sector := sector.set (dst + 1) ((y >>> 8) % 256)
  let sector := sector.set (dst + (2 * 26 + 1)) ((y &&& 0xFF) % 256)
  let dst := dst + 2
  let src := src_backup
  let src := src + 2 * 43
  (sector, src, dst)

/-- "Calculate Q parity". -/
def parityQ (RSPCTable : Nat → Nat → Nat) (sector : List Nat) : List Nat :=
  (forLoop 0 26 (fun _ st => parityQStep RSPCTable CDROMXA_FORM1_PARITY_Q_OFFSET st)
    (sector, HEADER_OFFSET, CDROMXA_FORM1_PARITY_Q_OFFSET)).1

/-- The in-memory part of `fixMode2Form1Sector` on an accepted sector, from
"Compute and write EDC" to "Restore header"; `sector` already carries the
sync pattern. -/
def recomputeSector (EDCTable : Nat → Nat) (RSPCTable : Nat → Nat → Nat)
    (sector : List Nat) (minutes seconds blocks mode : Nat) : List Nat :=
  -- Compute and write EDC
  let EDC := computeEDC EDCTable sector
  let sector := writeEDC sector EDC
  -- Temporarily clear header
  let sector := memset sector HEADER_OFFSET 0 4
  let sector := parityP RSPCTable sector
  let sector := parityQ RSPCTable sector
  -- Restore header
  let sector := sector.set (HEADER_OFFSET + 0) minutes
  let sector := sector.set (HEADER_OFFSET + 1) seconds
  let sector := sector.set (HEADER_OFFSET + 2) blocks
  sector.set (HEADER_OFFSET + 3) mode

/-- Embedding of `fixMode2Form1Sector`: the returned flag and the stream
afterwards.  The diagnostic messages (including the subheader-mismatch
warning, which changes nothing) are not part of the state. -/
def fixMode2Form1Sector (EDCTable : Nat → Nat) (RSPCTable : Nat → Nat → Nat)
    (inputfile : FILE) (sector_index : Int) : Bool × FILE :=
  -- Read sector
  let inputfile := fseek inputfile (sector_index * (SECTOR_SIZE : Int)) Whence.SEEK_SET
  let rd := fread inputfile SECTOR_SIZE
  let sector := rd.1
  let inputfile := rd.2
  if sector.length ≠ SECTOR_SIZE then (false, inputfile)
  else
    -- Find mode
    let minutes := sector.getD (HEADER_OFFSET + 0) 0
    let seconds := sector.getD (HEADER_OFFSET + 1) 0
    let blocks := sector.getD (HEADER_OFFSET + 2) 0
    let mode := sector.getD (HEADER_OFFSET + 3) 0
    if mode ≠ MODE_2 then (false, inputfile)
    else
      -- Write sync field
      let sector := memcpy sector 0 sync
      -- Read subheader
      let submode := sector.getD (CDROMXA_SUBHEADER_OFFSET + 2) 0
      -- Determine CD ROM XA Mode 2 form
      if submode &&& 0x20 = 0x20 then (false, inputfile)
      else
        let sector := recomputeSector EDCTable RSPCTable sector minutes seconds blocks mode
        let inputfile := fseek inputfile (-(SECTOR_SIZE : Int)) Whence.SEEK_CUR
        -- Write fixed sector to output file
        let wr := fwrite inputfile (sector.take SECTOR_SIZE)
        if wr.1 ≠ SECTOR_SIZE then (false, wr.2)
        else (true, wr.2)

/-- Two buffers hold the same bytes at every offset in `[lo, hi)`. -/
def AgreeOn (lo hi : Nat) (s t : List Nat) : Prop :=
  ∀ k, lo ≤ k → k < hi → s.getD k 0 = t.getD k 0

/-- A one-sector image holding a zero-filled Mode 2 Form 1 sector. -/
def sampleSectorFile : FILE :=
  ⟨List.replicate 15 0 ++ 2 :: List.replicate 2336 0, 0, true⟩

/-! ## Record layouts

Both structures are declared under `#pragma pack(push, 1)`: a field starts
where the previous one ends.  A layout lists the fields with their sizes in
bytes, in declaration order; the union `media_specific` counts with the size
of its members (124 bytes each). -/

/-- Byte offset of the field `name` in a packed layout. -/
def fieldOffset : List (String × Nat) → String → Nat
  | [], _ => 0
  | (n, sz) :: rest, name => if n = name then 0 else sz + fieldOffset rest name

/-- Total size of a packed layout. -/
def layoutSize (layout : List (String × Nat)) : Nat :=
  (layout.map (fun p => p.2)).sum

/-- The fields of `MasterDiscSector`. -/
def MasterDiscSector_layout : List (String × Nat) :=
  [("disc_name", 32), ("producer_name", 32), ("copyright_holder", 32), ("year_bcd", 4),
   ("month_bcd", 2), ("day_bcd", 2), ("master_disc_text", 24), ("playstation_version", 1),
   ("region", 1), ("reserved1", 1), ("disc_type", 1), ("media_specific", 124),
   ("common_byte1", 1), ("common_ff", 8), ("magic2_first", 4), ("magic1_first", 1),
   ("reserved2", 2), ("section1_byte1", 1), ("section1_value1", 4), ("section1_value2", 4),
   ("magic2_second", 4), ("magic1_second", 1), ("reserved3", 2), ("section2_byte1", 1),
   ("section2_value1", 4), ("section2_value2", 4), ("zeros1", 4), ("magic3", 1),
   ("reserved4", 2), ("zeros2", 4), ("zeros3", 4), ("zeros4", 4), ("zeros5", 4),
   ("zeros_large", 448), ("spaces1", 48), ("cdvdgen_text", 16), ("spaces2", 1216)]

/-- The member `cd` of the union `media_specific`. -/
def media_cd_layout : List (String × Nat) :=
  [("cd_filler", 124)]

/-- The member `dvd` of the union `media_specific`. -/
def media_dvd_layout : List (String × Nat) :=
  [("dvd_byte1", 1), ("dvd_byte2", 1), ("sector_count_adjusted", 4), ("dvd_reserved", 4),
   ("dvd_filler", 114)]

/-- The fields of `JapanMasterDiscSector`. -/
def JapanMasterDiscSector_layout : List (String × Nat) :=
  [("disc_name", 32), ("producer_name", 32), ("copyright_holder", 32), ("year_bcd", 4),
   ("month_bcd", 2), ("day_bcd", 2), ("master_disc", 24), ("playstation_version", 1),
   ("region", 1), ("reserved1", 1), ("disc_type", 1), ("media_specific", 124),
   ("common_byte1", 1), ("common_ff1", 8), ("magic2_first", 4), ("magic1_first", 1),
   ("field_270", 2), ("field_272", 1), ("common_ff2", 8), ("field_281", 4), ("field_285", 1),
   ("field_286", 2), ("field_288", 1), ("field_289", 4), ("field_293", 4),
   ("magic2_second", 4), ("magic1_second", 1), ("field_302", 2), ("field_304", 1),
   ("field_305", 4), ("field_309", 4), ("field_313", 4), ("magic3", 1), ("field_318", 1),
   ("field_319", 1), ("zeros_large", 448), ("spaces1", 48), ("cdvdgen_version", 16),
   ("spaces2", 1216)]

/-- Offset of a field of `MasterDiscSector`. -/
def mds (name : String) : Nat := fieldOffset MasterDiscSector_layout name

/-- Offset of a field of the `dvd` member of `media_specific` in `MasterDiscSector`. -/
def mdsDvd (name : String) : Nat := mds "media_specific" + fieldOffset media_dvd_layout name

/-- Offset of a field of the `cd` member of `media_specific` in `MasterDiscSector`. -/
def mdsCd (name : String) : Nat := mds "media_specific" + fieldOffset media_cd_layout name

/-- Offset of a field of `JapanMasterDiscSector`. -/
def jmds (name : String) : Nat := fieldOffset JapanMasterDiscSector_layout name

/-! ## Typed access to a record buffer (little-endian host) -/

/-- The `width` low-order bytes of `v`, least significant first. -/
def leBytes (width v : Nat) : List Nat :=
  (List.range width).map (fun i => (v >>> (8 * i)) % 256)

/-- Assignment to an integer field of `width` bytes at offset `off`. -/
def storeLE (buf : List Nat) (off width v : Nat) : List Nat :=
  memcpy buf off (leBytes width v)

/-- Value of an integer field of `width` bytes at offset `off`. -/
def loadLE (buf : List Nat) (off width : Nat) : Nat :=
  forLoop 0 width (fun i acc => acc + buf.getD (off + i) 0 * 256 ^ i) 0

/-! ## Strings

A C string is given by the list of the bytes its pointer refers to; the string
ends before the first zero byte, or at the end of the list (where the
terminator stands). -/

/-- The characters of the string, without the terminator. -/
def cstr (s : List Nat) : List Nat := s.takeWhile (fun c => c != 0)

/-- Length of the string (`strlen`). -/
def strlen (s : List Nat) : Nat := (cstr s).length

/-- Copies at most `n` characters of `src` to `buf` at `dest`, padding with zero bytes
up to `n` when `src` is shorter (`strncpy`). -/
def strncpy (buf : List Nat) (dest : Nat) (src : List Nat) (n : Nat) : List Nat :=
  forLoop 0 n (fun i b => b.set (dest + i) (if i < strlen src then src.getD i 0 else 0)) buf

/-- Embedding of `pad_string`; `dest` is the offset of the destination in `buf`. -/
def pad_string (buf : List Nat) (dest : Nat) (src : List Nat) (length : Nat) : List Nat :=
  let buf := strncpy buf dest src length
  forLoop (strlen src) (length - strlen src) (fun i b => b.set (dest + i) 32) buf

/-- Decimal digits of `n` as characters. -/
def decimal (n : Nat) : List Nat := (Nat.toDigits 10 n).map Char.toNat

/-- The conversion `%05d`: at least five characters, padded with `'0'` after the sign. -/
def fmt05d (v : Int) : List Nat :=
  if v < 0 then
    45 :: (List.replicate (4 - (decimal v.natAbs).length) 48 ++ decimal v.natAbs)
  else
    List.replicate (5 - (decimal v.toNat).length) 48 ++ decimal v.toNat

/-- The string `snprintf(_, size, ...)` leaves in its destination, given the
complete formatted text: at most `size - 1` characters. -/
def snprintf (size : Nat) (text : List Nat) : List Nat :=
  text.take (size - 1)

/-- The text `"PlayStation Master Disc "`. -/
def masterDiscText : List Nat :=
  [80, 108, 97, 121, 83, 116, 97, 116, 105, 111, 110, 32, 77, 97, 115, 116, 101, 114, 32,
   68, 105, 115, 99, 32]

/-- The text `"CDVDGEN "`. -/
def cdvdgenText : List Nat := [67, 68, 86, 68, 71, 69, 78, 32]

/-! ## Master sector builder -/

/-- Embedding of `int_to_bcd`: the shift by 8 of the `int` is a multiplication
by 256, the result is truncated to `uint16_t`. -/
def int_to_bcd (value : Int) : Nat :=
  (Int.lor ((Int.tmod value 10 + 0x30) * 256) (Int.tdiv value 10 + 0x30) % 65536).toNat

/-- The enumerator `DISC_CD`. -/
def DISC_CD : Nat := 1

/-- The enumerator `DISC_DVD`. -/
def DISC_DVD : Nat := 2

/-- "Magic numbers": the stores that follow a successful `calcMagicNums`, whose
results `m` went to `magic1_first`, `magic2_first` and `magic3`. -/
def fillMagic (sector : List Nat) (m : MagicSlots) : List Nat :=
  let sector := storeLE sector (mds "magic1_first") 1 m.magic1
  let sector := storeLE sector (mds "magic2_first") 4 m.magic2
  let sector := storeLE sector (mds "magic3") 1 m.magic3
  let sector := storeLE sector (mds "magic1_second") 1 (loadLE sector (mds "magic1_first") 1)
  storeLE sector (mds "magic2_second") 4 (loadLE sector (mds "magic2_first") 4)

/-- "Fill basic information", up to `sector.disc_type = disc_type`. -/
def fillBasic (sector : List Nat) (disc_name : List Nat) (disc_id : Int)
    (producer_name copyright_holder : List Nat) (year month day : Int)
    (region disc_type : Nat) : List Nat :=
  let tmp_formatted := snprintf 16 (cstr disc_name ++ [45] ++ fmt05d disc_id)
  let sector := pad_string sector (mds "disc_name") tmp_formatted 32
  let sector := pad_string sector (mds "producer_name") producer_name 32
  let sector := pad_string sector (mds "copyright_holder") copyright_holder 32
  let sector := storeLE sector (mds "year_bcd") 4
    (((int_to_bcd (Int.tmod year 100) <<< 16) ||| int_to_bcd (Int.tdiv year 100)) % 4294967296)
  let sector := storeLE sector (mds "month_bcd") 2 (int_to_bcd month)
  let sector := storeLE sector (mds "day_bcd") 2 (int_to_bcd day)
  let sector := memcpy sector (mds "master_disc_text") masterDiscText
  let sector := storeLE sector (mds "playstation_version") 1 0x32
  let sector := storeLE sector (mds "region") 1 region
  let sector := storeLE sector (mds "reserved1") 1 0x00
  storeLE sector (mds "disc_type") 1 disc_type

/-- "Handle media-specific section". -/
def fillMedia (sector : List Nat) (disc_type num_image_sectors : Nat) : List Nat :=
  if disc_type = DISC_CD then
    memset sector (mdsCd "cd_filler") 32 124
  else if disc_type = DISC_DVD then
    let sector := storeLE sector (mdsDvd "dvd_byte1") 1 0x01
    let sector := storeLE sector (mdsDvd "dvd_byte2") 1 0x00
    let sector := storeLE sector (mdsDvd "sector_count_adjusted") 4
      (((((num_image_sectors + 15) % 4294967296) / 16) * 16 % 4294967296 + 4294967296 - 1)
        % 4294967296)
    let sector := storeLE sector (mdsDvd "dvd_reserved") 4 0x00000000
    memset sector (mdsDvd "dvd_filler") 32 114
  else sector

/-- "Common section", up to `memset(sector.spaces2, ...)`. -/
def fillCommon (sector : List Nat) (cdvdgen_version : List Nat) : List Nat :=
  let sector := storeLE sector (mds "common_byte1") 1 0x01
  let sector := storeLE sector (mds "common_ff") 8 0xFFFFFFFFFFFFFFFF
  let sector := storeLE sector (mds "reserved2") 2 0x0000
  let sector := storeLE sector (mds "section1_byte1") 1 0x01
  let sector := storeLE sector (mds "section1_value1") 4 0x0000004B
  let sector := storeLE sector (mds "section1_value2") 4 0x0000104A
  let sector := storeLE sector (mds "reserved3") 2 0x0000
  let sector := storeLE sector (mds "section2_byte1") 1 0x03
  let sector := storeLE sector (mds "section2_value1") 4 0x0000004B
  let sector := storeLE sector (mds "section2_value2") 4 0x0000104A
  let sector := storeLE sector (mds "zeros1") 4 0x00000000
  let sector := storeLE sector (mds "reserved4") 2 0x0000
  let sector := storeLE sector (mds "zeros2") 4 0x00000000
  let sector := storeLE sector (mds "zeros3") 4 0x00000000
  let sector := storeLE sector (mds "zeros4") 4 0x00000000
  let sector := storeLE sector (mds "zeros5") 4 0x00000000
  let sector := memset sector (mds "zeros_large") 0x00 448
  let sector := memset sector (mds "spaces1") 32 48
  -- Format CDVDGEN text
  let tmp_formatted := snprintf 16 (cdvdgenText ++ cstr cdvdgen_version)
  let sector := pad_string sector (mds "cdvdgen_text") tmp_formatted 16
  memset sector (mds "spaces2") 32 1216

/-- The block `if (region == 1)`: the same bytes accessed through
`JapanMasterDiscSector *header`. -/
def fillJapan (sector : List Nat) : List Nat :=
  let sector := storeLE sector (jmds "magic3") 1 (loadLE sector (mds "magic3") 1)
  let sector := storeLE sector (jmds "magic2_second") 4 (loadLE sector (mds "magic2_first") 4)
  let sector := storeLE sector (jmds "magic1_second") 1 (loadLE sector (mds "magic1_first") 1)
  let sector := storeLE sector (jmds "reserved1") 1 0x30
  let sector := storeLE sector (jmds "field_270") 2 0x0000
  let sector := storeLE sector (jmds "field_272") 1 0x02
  let sector := storeLE sector (jmds "common_ff2") 8 0xFFFFFFFFFFFFFFFF
  let sector := storeLE sector (jmds "field_281") 4 0x00000000
  let sector := storeLE sector (jmds "field_285") 1 0x80
  let sector := storeLE sector (jmds "field_286") 2 0x0000
  let sector := storeLE sector (jmds "field_288") 1 0x01
  let sector := storeLE sector (jmds "field_289") 4 0x0000004B
  let sector := storeLE sector (jmds "field_293") 4 0x0000104A
  let sector := storeLE sector (jmds "field_302") 2 0x0000
  let sector := storeLE sector (jmds "field_304") 1 0x03
  let sector := storeLE sector (jmds "field_305") 4 0x0000004B
  let sector := storeLE sector (jmds "field_309") 4 0x0000104A
  let sector := storeLE sector (jmds "field_313") 4 0x00000000
  let sector := storeLE sector (jmds "field_318") 1 0x00
  storeLE sector (jmds "field_319") 1 0x80

/-- The part of `write_master_disc_sector` that fills the record in memory, from
`memset(&sector, 0, sizeof(sector))` to the end of the region-1 block: `none`
when `calcMagicNums` fails, else the bytes of `sector`.  `region`,
`disc_type` (`uint8_t`) and `num_image_sectors` (`uint32_t`) are the values
of the parameters. -/
def buildMasterDiscSector (disc_name : List Nat) (disc_id : Int)
    (producer_name copyright_holder : List Nat) (year month day : Int)
    (region disc_type num_image_sectors : Nat) (cdvdgen_version : List Nat) :
    Option (List Nat) :=
  let sector := List.replicate (layoutSize MasterDiscSector_layout) 0
  -- Magic numbers
  let r := calcMagicNums disc_name disc_id
    ⟨loadLE sector (mds "magic1_first") 1, loadLE sector (mds "magic2_first") 4,
      loadLE sector (mds "magic3") 1⟩
  if !r.1 then none
  else
    let sector := fillMagic sector r.2
    let sector := fillBasic sector disc_name disc_id producer_name copyright_holder
      year month day region disc_type
    let sector := fillMedia sector disc_type num_image_sectors
    let sector := fillCommon sector cdvdgen_version
    if region = 1 then some (fillJapan sector) else some sector

/-- The body of the loop "Write the sector twice": the state is the value
returned from inside the loop, if any, and the stream. -/
def writeCopy (EDCTable : Nat → Nat) (RSPCTable : Nat → Nat → Nat) (disc_type : Nat)
    (sector : List Nat) (i : Nat) (st : Option Int × FILE) : Option Int × FILE :=
  match st.1 with
  | some _ => st
  | none =>
    let file := st.2
    -- CD-XA Mode 2
    let file := if disc_type = DISC_CD then fseek file 0x18 Whence.SEEK_CUR else file
    let wr := fwrite file (sector.take (layoutSize MasterDiscSector_layout))
    if wr.1 / layoutSize MasterDiscSector_layout ≠ 1 then (some (-1), wr.2)
    else
      -- Update CD sector EDC/ECC data
      let file :=
        if disc_type = DISC_CD then
          (fixMode2Form1Sector EDCTable RSPCTable wr.2 (14 + (i : Int))).2
        else wr.2
      (none, file)

/-- Embedding of `write_master_disc_sector`.  The stream is `none` for a null
pointer.  The result is the returned value and the stream afterwards (closing
the stream on a failure is not tracked).  `EDCTable` and `RSPCTable` are the
tables `fixMode2Form1Sector` uses. -/
def write_master_disc_sector (EDCTable : Nat → Nat) (RSPCTable : Nat → Nat → Nat)
    (file : Option FILE) (disc_name : List Nat) (disc_id : Int)
    (producer_name copyright_holder : List Nat) (year month day : Int)
    (region disc_type num_image_sectors : Nat) (cdvdgen_version : List Nat) :
    Int × Option FILE :=
  match file with
  | none => (-1, none)
  | some file =>
    let region := region % 256
    let disc_type := disc_type % 256
    let num_image_sectors := num_image_sectors % 4294967296
    match buildMasterDiscSector disc_name disc_id producer_name copyright_holder year month day
        region disc_type num_image_sectors cdvdgen_version with
    | none => (-1, some file)
    | some sector =>
      -- Write the sector twice as specified
      let st := forLoop 0 2 (writeCopy EDCTable RSPCTable disc_type sector) (none, file)
      match st.1 with
      | some r => (r, some st.2)
      | none => (0, some st.2)

/-- A field of width `n` holding `src` left-justified and space-padded: the
first `min (strlen src) n` characters of `src`, then ASCII spaces up to `n`. -/
def spacePadded (src : List Nat) (n : Nat) : List Nat :=
  (cstr src).take (min (strlen src) n) ++ List.replicate (n - min (strlen src) n) 32

/-! ## Reference functions of the specification -/

/-- An 8-bit left rotation by 5 bit positions: the low three bits move to the
top, the high five bits to the bottom. -/
def ROL5 (b : Nat) : Nat := (b * 32) % 256 + (b % 256) / 8

/-- An 8-bit right rotation by 5 bit positions: the high three bits move to the
bottom, the low five bits to the top. -/
def ROR5 (b : Nat) : Nat := (b % 256) / 32 + (b * 8) % 256

/-- One step of the reflected CRC-32: shift right by one, then XOR `0xEDB88320`
if the bit shifted out was 1. -/
def crcStep (c : Nat) : Nat :=
  if c % 2 = 1 then (c / 2) ^^^ 0xEDB88320 else c / 2

/-- The standard reflected CRC-32: start from `0xFFFFFFFF`, for each byte XOR it
into the low 8 bits and perform 8 steps, return the bitwise complement. -/
def crc32 (data : List Nat) : Nat :=
  (data.foldl (fun c b => crcStep^[8] (c ^^^ b)) 0xFFFFFFFF) ^^^ 0xFFFFFFFF

/-! ## Checksum verifier -/

/-- Embedding of `crc32b`: `data` holds the bytes the pointer refers to, `size`
is the number of bytes to process.  `crc` is a `uint32_t`: the negation
`-(crc & 1)` and the complement `~crc` are taken on 32 bits. -/
def crc32b (data : List Nat) (size : Nat) : Nat :=
  let crc := forLoop 0 size
    (fun i crc =>
      -- XOR with next byte.
      let crc := (crc ^^^ data.getD i 0) % 4294967296
      -- Do eight times.
      forLoop 0 8
        (fun _ crc =>
          ((crc >>> 1) ^^^ (0xEDB88320 &&& ((4294967296 - (crc &&& 1)) % 4294967296)))
            % 4294967296)
        crc)
    0xFFFFFFFF
  (crc ^^^ 0xFFFFFFFF) % 4294967296

/-- The 32-bit accumulator obtained from 0 by folding
`acc = (acc >> 8) XOR T[(acc XOR byte) & 0xFF]` over `bytes`, in order. -/
def edcFold (T : Nat → Nat) (bytes : List Nat) : Nat :=
  bytes.foldl (fun acc b => ((acc >>> 8) ^^^ T ((acc ^^^ b) &&& 0xFF)) % 4294967296) 0


/-! ## The parity loops, iteration by iteration

The loop bodies under their own names, and the states the loops of
`fixMode2Form1Sector` are in when an iteration starts. -/

/-- The body of the inner loop of "Calculate P parity": it reads
`src[0]` and `src[1]` at the pointer `acc.2.2` and advances the pointer. -/
def parityPInnerStep (RSPCTable : Nat → Nat → Nat) (sector : List Nat) (j : Nat)
    (acc : Nat × Nat × Nat) : Nat × Nat × Nat :=
  let x := (acc.1 ^^^ RSPCTable j (sector.getD (acc.2.2 + 0) 0)) % 65536
  let y := (acc.2.1 ^^^ RSPCTable j (sector.getD (acc.2.2 + 1) 0)) % 65536
  (x, y, acc.2.2 + 2 * 43)

/-- The body of the inner loop of "Calculate Q parity": it reads
`src[0]` and `src[1]` at the pointer `acc.2.2`, advances the pointer and wraps it. -/
def parityQInnerStep (RSPCTable : Nat → Nat → Nat) (sector : List Nat) (src_end : Nat) (j : Nat)
    (acc : Nat × Nat × Nat) : Nat × Nat × Nat :=
  let x := (acc.1 ^^^ RSPCTable j (sector.getD (acc.2.2 + 0) 0)) % 65536
  let y := (acc.2.1 ^^^ RSPCTable j (sector.getD (acc.2.2 + 1) 0)) % 65536
  let src := acc.2.2 + 2 * 44
  let src :=
    if src ≥ src_end then
      src - (HEADER_SIZE + CDROMXA_SUBHEADER_SIZE + CDROMXA_FORM1_USER_DATA_SIZE + EDC_SIZE +
        CDROMXA_FORM1_PARITY_P_SIZE)
    else src
  (x, y, src)

/-- The state `(sector, src, dst)` of the outer P loop when iteration `i` starts. -/
def parityPState (RSPCTable : Nat → Nat → Nat) (sector : List Nat) (i : Nat) :
    List Nat × Nat × Nat :=
  forLoop 0 i (fun _ st => parityPStep RSPCTable st)
    (sector, HEADER_OFFSET, CDROMXA_FORM1_PARITY_P_OFFSET)

/-- The state `(x, y, src)` of the inner P loop of column `i` when iteration `j`
(`19 ≤ j`) starts. -/
def parityPInnerState (RSPCTable : Nat → Nat → Nat) (sector : List Nat) (i j : Nat) :
    Nat × Nat × Nat :=
  forLoop 19 (j - 19) (parityPInnerStep RSPCTable (parityPState RSPCTable sector i).1)
    (0x0000, 0x0000, (parityPState RSPCTable sector i).2.1)

/-- The state `(sector, src, dst)` of the outer Q loop when iteration `i` starts. -/
def parityQState (RSPCTable : Nat → Nat → Nat) (sector : List Nat) (i : Nat) :
    List Nat × Nat × Nat :=
  forLoop 0 i (fun _ st => parityQStep RSPCTable CDROMXA_FORM1_PARITY_Q_OFFSET st)
    (sector, HEADER_OFFSET, CDROMXA_FORM1_PARITY_Q_OFFSET)

/-- The state `(x, y, src)` of the inner Q loop of diagonal `i` when iteration
`j` starts. -/
def parityQInnerState (RSPCTable : Nat → Nat → Nat) (sector : List Nat) (i j : Nat) :
    Nat × Nat × Nat :=
  forLoop 0 j
    (parityQInnerStep RSPCTable (parityQState RSPCTable sector i).1 CDROMXA_FORM1_PARITY_Q_OFFSET)
    (0x0000, 0x0000, (parityQState RSPCTable sector i).2.1)

/-- A one-sector image holding a Mode 2 Form 1 sector with the same subheader
and user data as `sampleSectorFile`, another sync field, another address in the
header and other bytes in the checksum and parity fields. -/
def sampleSectorFile2 : FILE :=
  ⟨List.replicate 12 7 ++ ([1, 2, 3, 2] ++ (List.replicate 2056 0 ++ List.replicate 280 9)), 0, true⟩

/-- The signature `main` compares `crc32b` of the 12 boot sectors with to decide
that the boot sector is empty. -/
def EMPTY_BOOT_SECTOR_CRC : Nat := 0x6EBED2EE

/-! ## Linear maps on bit vectors

`crcStep` is linear over XOR, so a long run of steps can be evaluated by
repeated squaring of the map, held as the list of its values on the powers of
two. -/

/-- The XOR of the entries of `cols` selected by the bits of `c`, lowest bit
first. -/
def xorSpan : List Nat → Nat → Nat
  | [], _ => 0
  | v :: rest, c => (if c % 2 = 1 then v else 0) ^^^ xorSpan rest (c / 2)

/-- The values of `g` on the first `n` powers of two. -/
def linCols (g : Nat → Nat) (n : Nat) : List Nat := (List.range n).map (fun i => g (2 ^ i))

/-- The columns of the square of the map with columns `m`. -/
def matSq (m : List Nat) : List Nat := m.map (xorSpan m)

/-- The byte offsets the comments of `JapanMasterDiscSector` state for its
fields, in declaration order. -/
def JapanMasterDiscSector_comments : List (String × Nat) :=
  [("disc_name", 0), ("producer_name", 32), ("copyright_holder", 64), ("year_bcd", 96),
   ("month_bcd", 100), ("day_bcd", 102), ("master_disc", 104), ("playstation_version", 128),
   ("region", 129), ("reserved1", 130), ("disc_type", 131), ("common_byte1", 256),
   ("common_ff1", 257), ("magic2_first", 265), ("magic1_first", 269), ("field_270", 270),
   ("field_272", 272), ("common_ff2", 273), ("field_281", 281), ("field_285", 285),
   ("field_286", 286), ("field_288", 288), ("field_289", 289), ("field_293", 293),
   ("magic2_second", 297), ("magic1_second", 301), ("field_302", 302), ("field_304", 304),
   ("field_305", 305), ("field_309", 309), ("field_313", 313), ("magic3", 317),
   ("field_318", 318), ("field_319", 319), ("zeros_large", 320), ("spaces1", 768),
   ("cdvdgen_version", 816), ("spaces2", 828)]

/-- The byte offsets the comments state for the members `cd` and `dvd` of the
union `media_specific` of `JapanMasterDiscSector`. -/
def JapanMedia_comments : List (String × Nat) × List (String × Nat) :=
  ([("cd_filler", 132)],
   [("dvd_byte1", 132), ("dvd_byte2", 133), ("sector_count_adjusted", 134),
    ("dvd_reserved", 138), ("dvd_filler", 142)])

/-- Offset of a field of the `cd` member of `media_specific` in `JapanMasterDiscSector`. -/
def jmdsCd (name : String) : Nat := jmds "media_specific" + fieldOffset media_cd_layout name

/-- Offset of a field of the `dvd` member of `media_specific` in `JapanMasterDiscSector`. -/
def jmdsDvd (name : String) : Nat := jmds "media_specific" + fieldOffset media_dvd_layout name

/-! ## General lemmas on buffers and loops -/

theorem getD_set (l : List Nat) (i k v d : Nat) :
    (l.set i v).getD k d = if i = k ∧ i < l.length then v else l.getD k d := by
  simp only [List.getD_eq_getElem?_getD, List.getElem?_set]
  by_cases h : i = k
  · subst h
    by_cases h2 : i < l.length
    · simp [h2]
    · have h3 : l[i]? = none := List.getElem?_eq_none (by omega)
      simp [h2, h3]
  · simp [h]

theorem ext_getD {l l' : List Nat} (hl : l.length = l'.length)
    (h : ∀ k, k < l.length → l.getD k 0 = l'.getD k 0) : l = l' := by
  apply List.ext_getElem hl
  intro n h1 h2
  have := h n h1
  simpa [List.getD_eq_getElem?_getD, List.getElem?_eq_getElem h1, List.getElem?_eq_getElem h2]
    using this

/-- Indexed invariant rule for `forLoop`. -/
theorem forLoop_inv {σ : Type} (P : Nat → σ → Prop) (body : Nat → σ → σ) :
    ∀ (count start : Nat) (s : σ), P start s →
      (∀ i a, start ≤ i → i < start + count → P i a → P (i + 1) (body i a)) →
      P (start + count) (forLoop start count body s)
  | 0, start, s, h0, _ => by simpa [forLoop] using h0
  | count + 1, start, s, h0, hstep => by
    have h1 : P (start + 1) (body start s) := hstep start s (le_refl _) (by omega) h0
    have := forLoop_inv P body count (start + 1) (body start s) h1
      (fun i a hi hlt hp => hstep i a (by omega) (by omega) hp)
    simpa [forLoop, Nat.add_assoc, Nat.add_comm 1 count] using this

/-- Indexed relational rule for two runs of `forLoop` over the same range. -/
theorem forLoop_rel {σ τ : Type} (R : Nat → σ → τ → Prop) (f : Nat → σ → σ) (g : Nat → τ → τ) :
    ∀ (count start : Nat) (s : σ) (t : τ), R start s t →
      (∀ i a b, start ≤ i → i < start + count → R i a b → R (i + 1) (f i a) (g i b)) →
      R (start + count) (forLoop start count f s) (forLoop start count g t)
  | 0, start, s, t, h0, _ => by simpa [forLoop] using h0
  | count + 1, start, s, t, h0, hstep => by
    have h1 : R (start + 1) (f start s) (g start t) := hstep start s t (le_refl _) (by omega) h0
    have := forLoop_rel R f g count (start + 1) (f start s) (g start t) h1
      (fun i a b hi hlt hp => hstep i a b (by omega) (by omega) hp)
    simpa [forLoop, Nat.add_assoc, Nat.add_comm 1 count] using this

/-- A loop that rewrites byte `i` as a function of its old value is a map over
the range it visits. -/
theorem forLoop_set_getD (f : Nat → Nat) (count start : Nat) (l : List Nat) :
    (forLoop start count (fun i b => b.set i (f (b.getD i 0))) l).length = l.length ∧
    ∀ k, (forLoop start count (fun i b => b.set i (f (b.getD i 0))) l).getD k 0 =
      if start ≤ k ∧ k < start + count ∧ k < l.length then f (l.getD k 0) else l.getD k 0 := by
  have := forLoop_inv
    (fun i (b : List Nat) => b.length = l.length ∧
      ∀ k, b.getD k 0 = if start ≤ k ∧ k < i ∧ k < l.length then f (l.getD k 0) else l.getD k 0)
    (fun i b => b.set i (f (b.getD i 0))) count start l
    ⟨rfl, fun k => by
      have : ¬ (start ≤ k ∧ k < start ∧ k < l.length) := by omega
      simp [this]⟩
    (fun i a hi _ hp => by
      obtain ⟨hlen, hget⟩ := hp
      refine ⟨by simp [hlen], fun k => ?_⟩
      rw [getD_set, hlen]
      by_cases hk : i = k
      · subst hk
        by_cases hl : i < l.length
        · have h1 : (start ≤ i ∧ i < i + 1 ∧ i < l.length) := ⟨hi, by omega, hl⟩
          have h2 : ¬ (start ≤ i ∧ i < i ∧ i < l.length) := by omega
          have := hget i
          rw [if_neg h2] at this
          rw [if_pos ⟨rfl, hl⟩, if_pos h1, this]
        · have h1 : ¬ (start ≤ i ∧ i < i + 1 ∧ i < l.length) := by omega
          have h2 : ¬ (start ≤ i ∧ i < i ∧ i < l.length) := by omega
          have := hget i
          rw [if_neg h2] at this
          rw [if_neg (by omega), if_neg h1, this]
      · have h1 : ¬ (i = k ∧ i < l.length) := by omega
        rw [if_neg h1, hget k]
        have : (start ≤ k ∧ k < i ∧ k < l.length) ↔ (start ≤ k ∧ k < i + 1 ∧ k < l.length) := by
          omega
        simp only [this])
  exact this


/-! ## Magic numbers and the logo cipher -/

theorem or_mod_two_pow (a b n : Nat) : (a ||| b) % 2 ^ n = (a % 2 ^ n) ||| (b % 2 ^ n) := by
  apply Nat.eq_of_testBit_eq
  intro i
  simp only [Nat.testBit_mod_two_pow, Nat.testBit_or]
  cases decide (i < n) <;> simp

theorem xor_mod_two_pow (a b n : Nat) : (a ^^^ b) % 2 ^ n = (a % 2 ^ n) ^^^ (b % 2 ^ n) := by
  apply Nat.eq_of_testBit_eq
  intro i
  simp only [Nat.testBit_mod_two_pow, Nat.testBit_xor]
  cases decide (i < n) <;> simp

theorem validCode_any_false {letters : List Nat} {id : Int} (h : ValidCode letters id) :
    (List.range 4).any
      (fun i => decide (letters.getD i 0 < 65) || decide (letters.getD i 0 > 90)) = false := by
  obtain ⟨hlen, hl, -, -⟩ := h
  match letters, hlen with
  | [a, b, c, d], _ =>
    have ha := hl a (by simp)
    have hb := hl b (by simp)
    have hc := hl c (by simp)
    have hd := hl d (by simp)
    simp only [List.range, List.range.loop, List.any, List.getD_cons_zero, List.getD_cons_succ,
      Bool.or_false, Bool.or_eq_false_iff, decide_eq_false_iff_not]
    omega

/-- The value `calcMagicNums` stores for a valid code, in the form the code computes it. -/
theorem calcMagicNums_valid {letters : List Nat} {id : Int} (h : ValidCode letters id)
    (out : MagicSlots) :
    calcMagicNums letters id out =
      (true,
        ⟨(((id.toNat % 4294967296 &&& 0x1F) <<< 3) |||
            ((0x0FFFFFFF &&& (((letters.getD 3 0 <<< 0) ||| (letters.getD 2 0 <<< 7) |||
              (letters.getD 1 0 <<< 14) ||| (letters.getD 0 0 <<< 21)) % 4294967296)) >>> 25)) % 256,
         (((id.toNat % 4294967296) >>> 10) |||
            (((0x0FFFFFFF &&& (((letters.getD 3 0 <<< 0) ||| (letters.getD 2 0 <<< 7) |||
              (letters.getD 1 0 <<< 14) ||| (letters.getD 0 0 <<< 21)) % 4294967296)) <<< 7)
                % 4294967296)) % 4294967296,
         (((id.toNat % 4294967296 &&& 0x3E0) >>> 2) ||| 0x04) % 256⟩) := by
  have h1 := validCode_any_false h
  obtain ⟨-, -, h3, h4⟩ := h
  have h2 : ¬ (id < 0 ∨ id > 99999) := by omega
  unfold calcMagicNums
  rw [h1]
  simp only [Bool.false_eq_true, if_false, if_neg h2]

theorem letters_lt (a b c d : Nat) (ha : a ≤ 90) (hb : b ≤ 90) (hc : c ≤ 90) (hd : d ≤ 90) :
    ((d <<< 0) ||| (c <<< 7) ||| (b <<< 14) ||| (a <<< 21)) < 2 ^ 28 := by
  have e0 : d <<< 0 < 2 ^ 28 := by rw [Nat.shiftLeft_eq]; norm_num; omega
  have e1 : c <<< 7 < 2 ^ 28 := by rw [Nat.shiftLeft_eq]; norm_num; omega
  have e2 : b <<< 14 < 2 ^ 28 := by rw [Nat.shiftLeft_eq]; norm_num; omega
  have e3 : a <<< 21 < 2 ^ 28 := by rw [Nat.shiftLeft_eq]; norm_num; omega
  exact Nat.or_lt_two_pow (Nat.or_lt_two_pow (Nat.or_lt_two_pow e0 e1) e2) e3

/-- C2: for every valid product code `calcMagicNums` succeeds and stores the
closed-form triple over `letters = l[3] | l[2]<<7 | l[1]<<14 | l[0]<<21`;
for `AAAA` and id 0 the triple is `(0x04, 0x18306080, 0x04)`. -/
theorem calcMagicNums_closed_form (letters : List Nat) (id : Nat) (out : MagicSlots)
    (h : ValidCode letters (id : Int)) :
    calcMagicNums letters (id : Int) out =
      (true,
        ⟨(((id &&& 0x1F) <<< 3) |||
            (((letters.getD 3 0 ||| letters.getD 2 0 <<< 7 ||| letters.getD 1 0 <<< 14 |||
              letters.getD 0 0 <<< 21) &&& 0x0FFFFFFF) >>> 25)) % 2 ^ 8,
         ((id >>> 10) |||
            (((letters.getD 3 0 ||| letters.getD 2 0 <<< 7 ||| letters.getD 1 0 <<< 14 |||
              letters.getD 0 0 <<< 21) &&& 0x0FFFFFFF) <<< 7)) % 2 ^ 32,
         ((id &&& 0x3E0) >>> 2) ||| 0x04⟩) ∧
    calcMagicNums [65, 65, 65, 65] 0 out = (true, ⟨0x04, 0x18306080, 0x04⟩) := by
  refine ⟨?_, by rw [calcMagicNums_valid (by decide)]; decide⟩
  rw [calcMagicNums_valid h]
  obtain ⟨hlen, hl, -, hid⟩ := h
  have hid2 : id ≤ 99999 := by exact_mod_cast hid
  have hidm : (id : Int).toNat % 4294967296 = id := by
    rw [Int.toNat_ofNat]; omega
  match letters, hlen with
  | [a, b, c, d], _ =>
    have ha := hl a (by simp)
    have hb := hl b (by simp)
    have hc := hl c (by simp)
    have hd := hl d (by simp)
    simp only [List.getD_cons_zero, List.getD_cons_succ]
    have hL := letters_lt a b c d ha.2 hb.2 hc.2 hd.2
    have hLm : ((d <<< 0) ||| (c <<< 7) ||| (b <<< 14) ||| (a <<< 21)) % 4294967296 =
        (d ||| c <<< 7 ||| b <<< 14 ||| a <<< 21) := by
      rw [Nat.mod_eq_of_lt (lt_trans hL (by norm_num))]; simp
    simp only [hidm, hLm, Nat.and_comm 0x0FFFFFFF]
    have h3 : (((id &&& 0x3E0) >>> 2) ||| 0x04) < 2 ^ 8 := by
      apply Nat.or_lt_two_pow _ (by norm_num)
      have : id &&& 0x3E0 ≤ 0x3E0 := Nat.and_le_right
      rw [Nat.shiftRight_eq_div_pow]
      have : (id &&& 0x3E0) / 2 ^ 2 ≤ 0x3E0 / 2 ^ 2 := Nat.div_le_div_right this
      norm_num at this ⊢
      omega
    have h2 : ∀ x y : Nat, (x ||| (y % 4294967296)) % 4294967296 = (x ||| y) % 2 ^ 32 := by
      intro x y
      have e : (4294967296 : Nat) = 2 ^ 32 := by norm_num
      rw [e, or_mod_two_pow, or_mod_two_pow x y, Nat.mod_mod]
    rw [h2, Nat.mod_eq_of_lt (a := _ ||| 4) (by simpa using h3)]
    have e8 : (256 : Nat) = 2 ^ 8 := by norm_num
    rw [e8]

/-- C3: `calcMagicNums` returns false exactly when one of the four letters is
outside `'A'..'Z'` or the id is outside `0..99999`, and then the three result
slots keep the values they had before the call. -/
theorem calcMagicNums_fails_iff (letters : List Nat) (id : Int) (out : MagicSlots) :
    ((calcMagicNums letters id out).1 = false ↔
      ((∃ i, i < 4 ∧ (letters.getD i 0 < 65 ∨ letters.getD i 0 > 90)) ∨ id < 0 ∨ id > 99999)) ∧
    ((calcMagicNums letters id out).1 = false → (calcMagicNums letters id out).2 = out) := by
  unfold calcMagicNums
  by_cases h1 : (List.range 4).any
      (fun i => decide (letters.getD i 0 < 65) || decide (letters.getD i 0 > 90)) = true
  · rw [if_pos h1]
    refine ⟨⟨fun _ => Or.inl ?_, fun _ => rfl⟩, fun _ => rfl⟩
    rw [List.any_eq_true] at h1
    obtain ⟨i, hi, hb⟩ := h1
    refine ⟨i, List.mem_range.mp hi, ?_⟩
    simpa using hb
  · rw [if_neg h1]
    have h1' : ¬ ∃ i, i < 4 ∧ (letters.getD i 0 < 65 ∨ letters.getD i 0 > 90) := by
      rintro ⟨i, hi, hb⟩
      apply h1
      rw [List.any_eq_true]
      exact ⟨i, List.mem_range.mpr hi, by simpa using hb⟩
    by_cases h2 : id < 0 ∨ id > 99999
    · rw [if_pos h2]
      exact ⟨⟨fun _ => Or.inr h2, fun _ => rfl⟩, fun _ => rfl⟩
    · rw [if_neg h2]
      refine ⟨⟨fun h => by simp at h, fun h => ?_⟩, fun h => by simp at h⟩
      rcases h with h | h
      · exact absurd h h1'
      · exact absurd h h2

theorem xor_mod_cancel (r m : Nat) (hm : m < 256) : ((r ^^^ m) % 256) ^^^ m = r % 256 := by
  have e : (256 : Nat) = 2 ^ 8 := by norm_num
  rw [e, xor_mod_two_pow, Nat.mod_eq_of_lt (a := m) (by omega), Nat.xor_assoc, Nat.xor_self,
    Nat.xor_zero]

theorem rol5_ror5 : ∀ b, b < 256 →
    (((((b <<< 5) ||| (b >>> 3)) % 256) >>> 5) ||| ((((b <<< 5) ||| (b >>> 3)) % 256) <<< 3)) % 256
      = b := by
  set_option maxRecDepth 100000 in decide

/-- Decrypting an encrypted byte with the same 8-bit key gives the byte back. -/
theorem decrypt_encrypt_byte (b m : Nat) (hb : b < 256) (hm : m < 256) :
    ((((((b <<< 5) ||| (b >>> 3)) ^^^ m) % 256 ^^^ m) >>> 5) |||
      (((((b <<< 5) ||| (b >>> 3)) ^^^ m) % 256 ^^^ m) <<< 3)) % 256 = b := by
  rw [xor_mod_cancel _ m hm]
  exact rol5_ror5 b hb

/-- The decryption loop undoes the encryption loop over any number of bytes. -/
theorem cipher_loops_roundtrip (n m : Nat) (b : List Nat) (hm : m < 256)
    (hbytes : ∀ x ∈ b, x < 256) :
    forLoop 0 n
      (fun i logo => logo.set i ((((logo.getD i 0 ^^^ m) >>> 5) |||
        ((logo.getD i 0 ^^^ m) <<< 3)) % 256))
      (forLoop 0 n (fun i logo =>
        logo.set i ((((logo.getD i 0 <<< 5) ||| (logo.getD i 0 >>> 3)) ^^^ m) % 256)) b) = b := by
  obtain ⟨l1, g1⟩ := forLoop_set_getD
    (fun v => (((v <<< 5) ||| (v >>> 3)) ^^^ m) % 256) n 0 b
  obtain ⟨l2, g2⟩ := forLoop_set_getD
    (fun v => (((v ^^^ m) >>> 5) ||| ((v ^^^ m) <<< 3)) % 256) n 0
    (forLoop 0 n (fun i logo =>
      logo.set i ((((logo.getD i 0 <<< 5) ||| (logo.getD i 0 >>> 3)) ^^^ m) % 256)) b)
  apply ext_getD (by rw [l2, l1])
  intro k hk
  rw [l2, l1] at hk
  rw [g2, g1, l1]
  have hb : b.getD k 0 < 256 := by
    apply hbytes
    rw [List.getD_eq_getElem?_getD, List.getElem?_eq_getElem hk]
    exact List.getElem_mem hk
  by_cases hk2 : 0 ≤ k ∧ k < 0 + n ∧ k < b.length
  · rw [if_pos hk2, if_pos hk2]
    exact decrypt_encrypt_byte _ m hb hm
  · rw [if_neg hk2, if_neg hk2]

/-- C1: for every valid product code and every 24576-byte buffer, `EncryptLogo`
and then `DecryptLogo` with the same code both return true and restore the
buffer exactly. -/
theorem decrypt_encrypt_roundtrip (letters : List Nat) (id : Int) (b : List Nat)
    (hcode : ValidCode letters id) (_hlen : b.length = 24576) (hbytes : ∀ x ∈ b, x < 256) :
    (EncryptLogo b letters id).1 = true ∧
    DecryptLogo (EncryptLogo b letters id).2 letters id = (true, b) := by
  have hE : EncryptLogo b letters id = (true, forLoop 0 LOGO_SIZE
      (fun i logo => logo.set i ((((logo.getD i 0 <<< 5) ||| (logo.getD i 0 >>> 3)) ^^^
        (calcMagicNums letters id ⟨0, 0, 0⟩).2.magic1) % 256)) b) := by
    unfold EncryptLogo
    simp [calcMagicNums_valid hcode]
  have hD : ∀ c, DecryptLogo c letters id = (true, forLoop 0 LOGO_SIZE
      (fun i logo => logo.set i ((((logo.getD i 0 ^^^ (calcMagicNums letters id ⟨0, 0, 0⟩).2.magic1)
        >>> 5) ||| ((logo.getD i 0 ^^^ (calcMagicNums letters id ⟨0, 0, 0⟩).2.magic1) <<< 3)) % 256))
      c) := by
    intro c
    unfold DecryptLogo
    simp [calcMagicNums_valid hcode]
  have hm : (calcMagicNums letters id ⟨0, 0, 0⟩).2.magic1 < 256 := by
    rw [calcMagicNums_valid hcode]
    exact Nat.mod_lt _ (by norm_num)
  generalize (calcMagicNums letters id ⟨0, 0, 0⟩).2.magic1 = m at hE hD hm
  rw [hE]
  dsimp only
  refine ⟨Eq.refl true, ?_⟩
  rw [hD, cipher_loops_roundtrip LOGO_SIZE m b hm hbytes]

theorem decrypt_encrypt_roundtrip_witness :
    (EncryptLogo (List.replicate 24576 0) [83, 76, 69, 83] 12345).1 = true ∧
    DecryptLogo (EncryptLogo (List.replicate 24576 0) [83, 76, 69, 83] 12345).2
      [83, 76, 69, 83] 12345 = (true, List.replicate 24576 0) :=
  decrypt_encrypt_roundtrip [83, 76, 69, 83] 12345 (List.replicate 24576 0) (by decide)
    (List.length_replicate _ _) (by intro x hx; rw [List.eq_of_mem_replicate hx]; decide)

theorem calcMagicNums_closed_form_witness :
    calcMagicNums [83, 76, 69, 83] ((12345 : Nat) : Int) ⟨0, 0, 0⟩ = (true, ⟨205, 965831052, 12⟩) := by
  have h := (calcMagicNums_closed_form [83, 76, 69, 83] 12345 ⟨0, 0, 0⟩ (by decide)).1
  rw [h]
  decide

/-! ## The sector codec in memory -/

theorem memcpy_spec (buf : List Nat) (off : Nat) (src : List Nat) :
    (memcpy buf off src).length = buf.length ∧
    ∀ k, (memcpy buf off src).getD k 0 =
      if off ≤ k ∧ k < off + src.length ∧ k < buf.length then src.getD (k - off) 0
      else buf.getD k 0 := by
  unfold memcpy
  have := forLoop_inv
    (fun i (b : List Nat) => b.length = buf.length ∧
      ∀ k, b.getD k 0 = if off ≤ k ∧ k < off + i ∧ k < buf.length then src.getD (k - off) 0
        else buf.getD k 0)
    (fun i b => b.set (off + i) (src.getD i 0)) src.length 0 buf
    ⟨rfl, fun k => by rw [if_neg (by omega)]⟩
    (fun i a _ _ hp => by
      obtain ⟨hlen, hget⟩ := hp
      refine ⟨by simp [hlen], fun k => ?_⟩
      rw [getD_set, hlen, hget k]
      by_cases hk : off + i = k
      · subst hk
        by_cases hl : off + i < buf.length
        · rw [if_pos ⟨rfl, hl⟩, if_pos ⟨by omega, by omega, hl⟩]
          congr 1; omega
        · rw [if_neg (by omega), if_neg (by omega), if_neg (by omega)]
      · rw [if_neg (by omega)]
        by_cases hk2 : off ≤ k ∧ k < off + i ∧ k < buf.length
        · rw [if_pos hk2, if_pos ⟨hk2.1, by omega, hk2.2.2⟩]
        · rw [if_neg hk2, if_neg (by omega)])
  simpa using this

theorem memset_spec (buf : List Nat) (off c count : Nat) :
    (memset buf off c count).length = buf.length ∧
    ∀ k, (memset buf off c count).getD k 0 =
      if off ≤ k ∧ k < off + count ∧ k < buf.length then c % 256 else buf.getD k 0 := by
  unfold memset
  have := forLoop_inv
    (fun i (b : List Nat) => b.length = buf.length ∧
      ∀ k, b.getD k 0 = if off ≤ k ∧ k < off + i ∧ k < buf.length then c % 256
        else buf.getD k 0)
    (fun i b => b.set (off + i) (c % 256)) count 0 buf
    ⟨rfl, fun k => by rw [if_neg (by omega)]⟩
    (fun i a _ _ hp => by
      obtain ⟨hlen, hget⟩ := hp
      refine ⟨by simp [hlen], fun k => ?_⟩
      rw [getD_set, hlen, hget k]
      by_cases hk : off + i = k
      · subst hk
        by_cases hl : off + i < buf.length
        · rw [if_pos ⟨rfl, hl⟩, if_pos ⟨by omega, by omega, hl⟩]
        · rw [if_neg (by omega), if_neg (by omega), if_neg (by omega)]
      · rw [if_neg (by omega)]
        by_cases hk2 : off ≤ k ∧ k < off + i ∧ k < buf.length
        · rw [if_pos hk2, if_pos ⟨hk2.1, by omega, hk2.2.2⟩]
        · rw [if_neg hk2, if_neg (by omega)])
  simpa using this

/-- The checksum depends only on the bytes at offsets 16..2071. -/
theorem computeEDC_agree (EDCTable : Nat → Nat) (s t : List Nat) (h : AgreeOn 16 2072 s t) :
    computeEDC EDCTable s = computeEDC EDCTable t := by
  unfold computeEDC
  exact forLoop_rel (fun _ (a b : Nat) => a = b) _ _ _ _ _ _ rfl
    (fun i a b hi hlt hab => by
      subst hab
      simp only [CDROMXA_SUBHEADER_OFFSET, CDROMXA_FORM1_EDC_OFFSET] at hi hlt
      rw [h i hi (by omega)])

theorem writeEDC_spec (s : List Nat) (EDC : Nat) :
    (writeEDC s EDC).length = s.length ∧
    (∀ k, k < 2072 ∨ 2076 ≤ k → (writeEDC s EDC).getD k 0 = s.getD k 0) ∧
    (∀ t : List Nat, t.length = s.length → AgreeOn 2072 2076 (writeEDC s EDC) (writeEDC t EDC)) := by
  unfold writeEDC
  simp only [CDROMXA_FORM1_EDC_OFFSET]
  refine ⟨by simp, fun k hk => ?_, fun t ht k h1 h2 => ?_⟩
  · simp only [getD_set, List.length_set]
    rw [if_neg (by omega), if_neg (by omega), if_neg (by omega), if_neg (by omega)]
  · simp only [getD_set, List.length_set, ht]
    have : k = 2072 ∨ k = 2073 ∨ k = 2074 ∨ k = 2075 := by omega
    by_cases hl : k < s.length
    · rcases this with e | e | e | e <;> subst e <;> simp [hl]
    · have e1 : s.getD k 0 = 0 := by
        rw [List.getD_eq_getElem?_getD, List.getElem?_eq_none (by omega)]; rfl
      have e2 : t.getD k 0 = 0 := by
        rw [List.getD_eq_getElem?_getD, List.getElem?_eq_none (by omega)]; rfl
      rcases this with e | e | e | e <;> subst e <;>
        simp only [hl, and_false, if_false, e1, e2]

theorem getD_of_length_le (l : List Nat) (k : Nat) (h : l.length ≤ k) : l.getD k 0 = 0 := by
  rw [List.getD_eq_getElem?_getD, List.getElem?_eq_none h]; rfl

/-- Storing the same value at the same offset of two buffers of equal length
keeps them equal at every offset where they were equal. -/
theorem set_getD_congr {a b : List Nat} (hl : a.length = b.length) (i v k : Nat)
    (h : k ≠ i → a.getD k 0 = b.getD k 0) : (a.set i v).getD k 0 = (b.set i v).getD k 0 := by
  rw [getD_set, getD_set, hl]
  by_cases e : i = k
  · by_cases e2 : i < b.length
    · rw [if_pos ⟨e, e2⟩, if_pos ⟨e, e2⟩]
    · rw [if_neg (by omega), if_neg (by omega), getD_of_length_le a k (by omega),
        getD_of_length_le b k (by omega)]
  · rw [if_neg (by omega), if_neg (by omega)]
    exact h (fun h' => e h'.symm)

theorem parityPInner_src (T : Nat → Nat → Nat) (s : List Nat) (src : Nat) :
    (parityPInner T s src).2.2 = src + 2064 := by
  have key : (parityPInner T s src).2.2 + 86 * 19 = src + 86 * (19 + (43 - 19)) :=
    forLoop_inv (fun j (acc : Nat × Nat × Nat) => acc.2.2 + 86 * 19 = src + 86 * j)
      _ (43 - 19) 19 (0x0000, 0x0000, src) rfl
      (fun j a _ _ hp => by
        show a.2.2 + 2 * 43 + 86 * 19 = src + 86 * (j + 1)
        omega)
  omega

/-- The P totals of a column depend only on the bytes the column reads. -/
theorem parityPInner_agree (T : Nat → Nat → Nat) (s t : List Nat) (src lo hi : Nat)
    (hlo : lo ≤ src) (hhi : src + 86 * 23 + 1 < hi) (h : AgreeOn lo hi s t) :
    parityPInner T s src = parityPInner T t src := by
  unfold parityPInner
  have := forLoop_rel
    (fun j (a b : Nat × Nat × Nat) => a = b ∧ a.2.2 + 86 * 19 = src + 86 * j)
    (fun j (acc : Nat × Nat × Nat) =>
      ((acc.1 ^^^ T j (s.getD (acc.2.2 + 0) 0)) % 65536,
        (acc.2.1 ^^^ T j (s.getD (acc.2.2 + 1) 0)) % 65536, acc.2.2 + 2 * 43))
    (fun j (acc : Nat × Nat × Nat) =>
      ((acc.1 ^^^ T j (t.getD (acc.2.2 + 0) 0)) % 65536,
        (acc.2.1 ^^^ T j (t.getD (acc.2.2 + 1) 0)) % 65536, acc.2.2 + 2 * 43))
    (43 - 19) 19 (0x0000, 0x0000, src) (0x0000, 0x0000, src) ⟨rfl, rfl⟩
    (fun j a b hj hlt hp => by
      obtain ⟨hab, hsrc⟩ := hp
      subst hab
      have h0 : s.getD (a.2.2 + 0) 0 = t.getD (a.2.2 + 0) 0 := h _ (by omega) (by omega)
      have h1 : s.getD (a.2.2 + 1) 0 = t.getD (a.2.2 + 1) 0 := h _ (by omega) (by omega)
      refine ⟨?_, ?_⟩
      · show (_, _, _) = (_, _, _)
        rw [h0, h1]
      · show a.2.2 + 2 * 43 + 86 * 19 = src + 86 * (j + 1)
        omega)
  exact this.1

theorem parityPStep_eq (T : Nat → Nat → Nat) (st : List Nat × Nat × Nat) :
    parityPStep T st =
      ((((st.1.set (st.2.2 + 0) (((parityPInner T st.1 st.2.1).1 >>> 8) % 256)).set
            (st.2.2 + 86) (((parityPInner T st.1 st.2.1).1 &&& 0xFF) % 256)).set
            (st.2.2 + 1) (((parityPInner T st.1 st.2.1).2.1 >>> 8) % 256)).set
            (st.2.2 + 87) (((parityPInner T st.1 st.2.1).2.1 &&& 0xFF) % 256),
        st.2.1 + 2, st.2.2 + 2) := by
  have e : ∀ n, n + 2064 - (43 - 19) * 2 * 43 + 2 = n + 2 := by intro n; omega
  unfold parityPStep
  simp only [parityPInner_src, e, Nat.reduceMul, Nat.reduceAdd]

/-- The P loop keeps the length and changes no byte outside the P field. -/
theorem parityP_frame (T : Nat → Nat → Nat) (s : List Nat) :
    (parityP T s).length = s.length ∧
    ∀ k, k < 2076 ∨ 2248 ≤ k → (parityP T s).getD k 0 = s.getD k 0 := by
  unfold parityP
  have := forLoop_inv
    (fun i (a : List Nat × Nat × Nat) => a.2.2 = 2076 + 2 * i ∧ a.1.length = s.length ∧
      ∀ k, k < 2076 ∨ 2248 ≤ k → a.1.getD k 0 = s.getD k 0)
    (fun _ st => parityPStep T st) 43 0
    (s, HEADER_OFFSET, CDROMXA_FORM1_PARITY_P_OFFSET) ⟨rfl, rfl, fun _ _ => rfl⟩
    (fun i a _ hlt hp => by
      obtain ⟨hdst, hlen, hfr⟩ := hp
      dsimp only
      rw [parityPStep_eq]
      refine ⟨by show a.2.2 + 2 = _; omega, by simp [hlen], fun k hk => ?_⟩
      simp only [getD_set, List.length_set]
      rw [if_neg (by omega), if_neg (by omega), if_neg (by omega), if_neg (by omega)]
      exact hfr k hk)
  exact ⟨this.2.1, this.2.2⟩

/-- Two sectors of equal length that agree below the P field get the same P field. -/
theorem parityP_agree (T : Nat → Nat → Nat) (s t : List Nat) (hlen : s.length = t.length)
    (h : AgreeOn 0 2076 s t) : AgreeOn 0 2248 (parityP T s) (parityP T t) := by
  unfold parityP
  have := forLoop_rel
    (fun i (a b : List Nat × Nat × Nat) =>
      a.2.1 = 12 + 2 * i ∧ a.2.2 = 2076 + 2 * i ∧ b.2.1 = 12 + 2 * i ∧ b.2.2 = 2076 + 2 * i ∧
      a.1.length = b.1.length ∧
      ∀ k, (k < 2076 + 2 * i ∨ (2162 ≤ k ∧ k < 2162 + 2 * i)) → a.1.getD k 0 = b.1.getD k 0)
    (fun _ st => parityPStep T st) (fun _ st => parityPStep T st) 43 0
    (s, HEADER_OFFSET, CDROMXA_FORM1_PARITY_P_OFFSET)
    (t, HEADER_OFFSET, CDROMXA_FORM1_PARITY_P_OFFSET)
    ⟨rfl, rfl, rfl, rfl, hlen, fun k hk => h k (Nat.zero_le _) (by omega)⟩
    (fun i a b _ hlt hp => by
      obtain ⟨ha1, ha2, hb1, hb2, hl, hag⟩ := hp
      have hin : parityPInner T a.1 a.2.1 = parityPInner T b.1 b.2.1 := by
        rw [hb1, ← ha1]
        exact parityPInner_agree T a.1 b.1 a.2.1 12 2076 (by omega) (by omega)
          (fun k _ hk2 => hag k (by omega))
      dsimp only
      rw [parityPStep_eq, parityPStep_eq, ← hin, hb2, ← ha2]
      refine ⟨by show a.2.1 + 2 = _; omega, by show a.2.2 + 2 = _; omega,
        by show b.2.1 + 2 = _; omega, by show a.2.2 + 2 = _; omega, by simp [hl], fun k hk => ?_⟩
      refine set_getD_congr (by simp [hl]) _ _ _ (fun e1 => ?_)
      refine set_getD_congr (by simp [hl]) _ _ _ (fun e2 => ?_)
      refine set_getD_congr (by simp [hl]) _ _ _ (fun e3 => ?_)
      refine set_getD_congr hl _ _ _ (fun e4 => ?_)
      exact hag k (by omega))
  intro k _ hk
  exact this.2.2.2.2.2 k (by omega)

/-- The Q totals of a diagonal depend only on bytes at offsets 12..2247: the
walking pointer stays even and inside `[12, 2248)`. -/
theorem parityQInner_agree (T : Nat → Nat → Nat) (s t : List Nat) (src : Nat)
    (hlo : 12 ≤ src) (hhi : src < 2248) (hev : src % 2 = 0) (h : AgreeOn 12 2248 s t) :
    parityQInner T s src CDROMXA_FORM1_PARITY_Q_OFFSET =
      parityQInner T t src CDROMXA_FORM1_PARITY_Q_OFFSET := by
  have key := forLoop_rel
    (fun _ (a b : Nat × Nat × Nat) => a = b ∧ 12 ≤ a.2.2 ∧ a.2.2 < 2248 ∧ a.2.2 % 2 = 0)
    (fun j (acc : Nat × Nat × Nat) =>
      ((acc.1 ^^^ T j (s.getD (acc.2.2 + 0) 0)) % 65536,
        (acc.2.1 ^^^ T j (s.getD (acc.2.2 + 1) 0)) % 65536,
        if acc.2.2 + 2 * 44 ≥ CDROMXA_FORM1_PARITY_Q_OFFSET then
          acc.2.2 + 2 * 44 - (HEADER_SIZE + CDROMXA_SUBHEADER_SIZE + CDROMXA_FORM1_USER_DATA_SIZE +
            EDC_SIZE + CDROMXA_FORM1_PARITY_P_SIZE)
        else acc.2.2 + 2 * 44))
    (fun j (acc : Nat × Nat × Nat) =>
      ((acc.1 ^^^ T j (t.getD (acc.2.2 + 0) 0)) % 65536,
        (acc.2.1 ^^^ T j (t.getD (acc.2.2 + 1) 0)) % 65536,
        if acc.2.2 + 2 * 44 ≥ CDROMXA_FORM1_PARITY_Q_OFFSET then
          acc.2.2 + 2 * 44 - (HEADER_SIZE + CDROMXA_SUBHEADER_SIZE + CDROMXA_FORM1_USER_DATA_SIZE +
            EDC_SIZE + CDROMXA_FORM1_PARITY_P_SIZE)
        else acc.2.2 + 2 * 44))
    43 0 (0x0000, 0x0000, src) (0x0000, 0x0000, src) ⟨rfl, hlo, hhi, hev⟩
    (fun j a b _ _ hp => by
      obtain ⟨hab, h1, h2, h3⟩ := hp
      subst hab
      have r0 : s.getD (a.2.2 + 0) 0 = t.getD (a.2.2 + 0) 0 := h _ (by omega) (by omega)
      have r1 : s.getD (a.2.2 + 1) 0 = t.getD (a.2.2 + 1) 0 := h _ (by omega) (by omega)
      dsimp only
      rw [r0, r1]
      refine ⟨rfl, ?_⟩
      simp only [CDROMXA_FORM1_PARITY_Q_OFFSET, HEADER_SIZE, CDROMXA_SUBHEADER_SIZE,
        CDROMXA_FORM1_USER_DATA_SIZE, EDC_SIZE, CDROMXA_FORM1_PARITY_P_SIZE]
      split <;> omega)
  exact key.1

theorem parityQStep_eq (T : Nat → Nat → Nat) (e : Nat) (st : List Nat × Nat × Nat) :
    parityQStep T e st =
      ((((st.1.set (st.2.2 + 0) (((parityQInner T st.1 st.2.1 e).1 >>> 8) % 256)).set
            (st.2.2 + 52) (((parityQInner T st.1 st.2.1 e).1 &&& 0xFF) % 256)).set
            (st.2.2 + 1) (((parityQInner T st.1 st.2.1 e).2.1 >>> 8) % 256)).set
            (st.2.2 + 53) (((parityQInner T st.1 st.2.1 e).2.1 &&& 0xFF) % 256),
        st.2.1 + 86, st.2.2 + 2) := by
  unfold parityQStep
  simp only [Nat.reduceMul, Nat.reduceAdd]

/-- The Q loop keeps the length and changes no byte outside the Q field. -/
theorem parityQ_frame (T : Nat → Nat → Nat) (s : List Nat) :
    (parityQ T s).length = s.length ∧
    ∀ k, k < 2248 ∨ 2352 ≤ k → (parityQ T s).getD k 0 = s.getD k 0 := by
  unfold parityQ
  have := forLoop_inv
    (fun i (a : List Nat × Nat × Nat) => a.2.2 = 2248 + 2 * i ∧ a.1.length = s.length ∧
      ∀ k, k < 2248 ∨ 2352 ≤ k → a.1.getD k 0 = s.getD k 0)
    (fun _ st => parityQStep T CDROMXA_FORM1_PARITY_Q_OFFSET st) 26 0
    (s, HEADER_OFFSET, CDROMXA_FORM1_PARITY_Q_OFFSET) ⟨rfl, rfl, fun _ _ => rfl⟩
    (fun i a _ hlt hp => by
      obtain ⟨hdst, hlen, hfr⟩ := hp
      dsimp only
      rw [parityQStep_eq]
      refine ⟨by show a.2.2 + 2 = _; omega, by simp [hlen], fun k hk => ?_⟩
      simp only [getD_set, List.length_set]
      rw [if_neg (by omega), if_neg (by omega), if_neg (by omega), if_neg (by omega)]
      exact hfr k hk)
  exact ⟨this.2.1, this.2.2⟩

/-- Two sectors of equal length that agree below the Q field get the same Q field. -/
theorem parityQ_agree (T : Nat → Nat → Nat) (s t : List Nat) (hlen : s.length = t.length)
    (h : AgreeOn 0 2248 s t) : AgreeOn 0 2352 (parityQ T s) (parityQ T t) := by
  unfold parityQ
  have := forLoop_rel
    (fun i (a b : List Nat × Nat × Nat) =>
      a.2.1 = 12 + 86 * i ∧ a.2.2 = 2248 + 2 * i ∧ b.2.1 = 12 + 86 * i ∧ b.2.2 = 2248 + 2 * i ∧
      a.1.length = b.1.length ∧
      ∀ k, (k < 2248 + 2 * i ∨ (2300 ≤ k ∧ k < 2300 + 2 * i)) → a.1.getD k 0 = b.1.getD k 0)
    (fun _ st => parityQStep T CDROMXA_FORM1_PARITY_Q_OFFSET st)
    (fun _ st => parityQStep T CDROMXA_FORM1_PARITY_Q_OFFSET st) 26 0
    (s, HEADER_OFFSET, CDROMXA_FORM1_PARITY_Q_OFFSET)
    (t, HEADER_OFFSET, CDROMXA_FORM1_PARITY_Q_OFFSET)
    ⟨rfl, rfl, rfl, rfl, hlen, fun k hk => h k (Nat.zero_le _) (by omega)⟩
    (fun i a b _ hlt hp => by
      obtain ⟨ha1, ha2, hb1, hb2, hl, hag⟩ := hp
      have hin : parityQInner T a.1 a.2.1 CDROMXA_FORM1_PARITY_Q_OFFSET =
          parityQInner T b.1 b.2.1 CDROMXA_FORM1_PARITY_Q_OFFSET := by
        rw [hb1, ← ha1]
        exact parityQInner_agree T a.1 b.1 a.2.1 (by omega) (by omega) (by omega)
          (fun k _ hk2 => hag k (by omega))
      dsimp only
      rw [parityQStep_eq, parityQStep_eq, ← hin, hb2, ← ha2]
      refine ⟨by show a.2.1 + 86 = _; omega, by show a.2.2 + 2 = _; omega,
        by show b.2.1 + 86 = _; omega, by show a.2.2 + 2 = _; omega, by simp [hl], fun k hk => ?_⟩
      refine set_getD_congr (by simp [hl]) _ _ _ (fun e1 => ?_)
      refine set_getD_congr (by simp [hl]) _ _ _ (fun e2 => ?_)
      refine set_getD_congr (by simp [hl]) _ _ _ (fun e3 => ?_)
      refine set_getD_congr hl _ _ _ (fun e4 => ?_)
      exact hag k (by omega))
  intro k _ hk
  exact this.2.2.2.2.2 k (by omega)

theorem recomputeSector_length (E : Nat → Nat) (R : Nat → Nat → Nat) (s : List Nat)
    (m0 m1 m2 m3 : Nat) : (recomputeSector E R s m0 m1 m2 m3).length = s.length := by
  unfold recomputeSector
  simp only [List.length_set, (parityQ_frame _ _).1, (parityP_frame _ _).1, (memset_spec _ _ _ _).1,
    (writeEDC_spec _ _).1]

/-- The codec leaves the subheader, the user data and everything outside the
sector as they were, and stores the given header bytes. -/
theorem recomputeSector_frame (E : Nat → Nat) (R : Nat → Nat → Nat) (s : List Nat)
    (m0 m1 m2 m3 : Nat) (hlen : s.length = 2352) :
    (∀ k, k < 12 ∨ (16 ≤ k ∧ k < 2072) → (recomputeSector E R s m0 m1 m2 m3).getD k 0 = s.getD k 0) ∧
    (recomputeSector E R s m0 m1 m2 m3).getD 12 0 = m0 ∧
    (recomputeSector E R s m0 m1 m2 m3).getD 13 0 = m1 ∧
    (recomputeSector E R s m0 m1 m2 m3).getD 14 0 = m2 ∧
    (recomputeSector E R s m0 m1 m2 m3).getD 15 0 = m3 := by
  unfold recomputeSector
  simp only [HEADER_OFFSET, getD_set, List.length_set, (parityQ_frame _ _).1, (parityP_frame _ _).1,
    (memset_spec _ _ _ _).1, (writeEDC_spec _ _).1, hlen]
  refine ⟨fun k hk => ?_, by simp, by simp, by simp, by simp⟩
  rw [if_neg (by omega), if_neg (by omega), if_neg (by omega), if_neg (by omega),
    (parityQ_frame _ _).2 k (by omega), (parityP_frame _ _).2 k (by omega),
    (memset_spec _ _ _ _).2 k, if_neg (by omega), (writeEDC_spec _ _).2.1 k (by omega)]

/-- Everything the codec writes besides the header is a function of the sync
field, the subheader and the user data. -/
theorem recomputeSector_agree (E : Nat → Nat) (R : Nat → Nat → Nat) (s t : List Nat)
    (m0 m1 m2 m3 : Nat) (hs : s.length = 2352) (ht : t.length = 2352)
    (h1 : AgreeOn 0 12 s t) (h2 : AgreeOn 16 2072 s t) :
    recomputeSector E R s m0 m1 m2 m3 = recomputeSector E R t m0 m1 m2 m3 := by
  have hE : computeEDC E s = computeEDC E t := computeEDC_agree E s t h2
  have a1 : AgreeOn 0 2076 (memset (writeEDC s (computeEDC E s)) HEADER_OFFSET 0 4)
      (memset (writeEDC t (computeEDC E t)) HEADER_OFFSET 0 4) := by
    intro k _ hk
    rw [(memset_spec _ _ _ _).2 k, (memset_spec _ _ _ _).2 k, (writeEDC_spec _ _).1,
      (writeEDC_spec _ _).1, hs, ht]
    by_cases c : HEADER_OFFSET ≤ k ∧ k < HEADER_OFFSET + 4 ∧ k < 2352
    · rw [if_pos c, if_pos c]
    · rw [if_neg c, if_neg c]
      simp only [HEADER_OFFSET] at c
      by_cases c2 : k < 2072
      · rw [(writeEDC_spec _ _).2.1 k (Or.inl c2), (writeEDC_spec _ _).2.1 k (Or.inl c2)]
        by_cases c3 : k < 12
        · exact h1 k (Nat.zero_le _) c3
        · exact h2 k (by omega) c2
      · rw [hE]
        exact (writeEDC_spec s (computeEDC E t)).2.2 t (by rw [hs, ht]) k (by omega) hk
  have l1 : (memset (writeEDC s (computeEDC E s)) HEADER_OFFSET 0 4).length =
      (memset (writeEDC t (computeEDC E t)) HEADER_OFFSET 0 4).length := by
    rw [(memset_spec _ _ _ _).1, (memset_spec _ _ _ _).1, (writeEDC_spec _ _).1,
      (writeEDC_spec _ _).1, hs, ht]
  have a2 := parityP_agree R _ _ l1 a1
  have l2 : (parityP R (memset (writeEDC s (computeEDC E s)) HEADER_OFFSET 0 4)).length =
      (parityP R (memset (writeEDC t (computeEDC E t)) HEADER_OFFSET 0 4)).length := by
    rw [(parityP_frame _ _).1, (parityP_frame _ _).1, l1]
  have a3 := parityQ_agree R _ _ l2 a2
  have l3 : (parityQ R (parityP R (memset (writeEDC s (computeEDC E s)) HEADER_OFFSET 0 4))).length
      = 2352 := by
    rw [(parityQ_frame _ _).1, (parityP_frame _ _).1, (memset_spec _ _ _ _).1,
      (writeEDC_spec _ _).1, hs]
  have l3' : (parityQ R (parityP R (memset (writeEDC t (computeEDC E t)) HEADER_OFFSET 0 4))).length
      = 2352 := by
    rw [(parityQ_frame _ _).1, (parityP_frame _ _).1, (memset_spec _ _ _ _).1,
      (writeEDC_spec _ _).1, ht]
  have e : parityQ R (parityP R (memset (writeEDC s (computeEDC E s)) HEADER_OFFSET 0 4)) =
      parityQ R (parityP R (memset (writeEDC t (computeEDC E t)) HEADER_OFFSET 0 4)) :=
    ext_getD (by rw [l3, l3']) (fun k hk => a3 k (Nat.zero_le _) (by omega))
  unfold recomputeSector
  simp only [e]

/-! ## The sector codec on the backing storage -/

theorem fseek_data (f : FILE) (o : Int) (w : Whence) :
    (fseek f o w).data = f.data ∧ (fseek f o w).writable = f.writable := by
  unfold fseek
  dsimp only
  split_ifs <;> exact ⟨rfl, rfl⟩

theorem fseek_set_nat (f : FILE) (n : Nat) :
    fseek f (n : Int) Whence.SEEK_SET = { f with pos := n } := by
  unfold fseek
  simp only [zero_add]
  rw [if_neg (by omega), Int.toNat_ofNat]

theorem fseek_cur_back (f : FILE) (p n : Nat) (hp : f.pos = p + n) :
    fseek f (-(n : Int)) Whence.SEEK_CUR = { f with pos := p } := by
  unfold fseek
  simp only [hp]
  rw [if_neg (by omega)]
  congr 1
  omega

theorem fseek_cur_fwd (f : FILE) (n : Nat) :
    fseek f (n : Int) Whence.SEEK_CUR = { f with pos := f.pos + n } := by
  unfold fseek
  simp only
  rw [if_neg (by omega)]
  congr 1

/-- Writing inside the file replaces exactly the bytes under the written range. -/
theorem getD_take_drop (d : List Nat) (p n k : Nat) (hk : k < n) :
    ((d.drop p).take n).getD k 0 = d.getD (p + k) 0 := by
  simp only [List.getD_eq_getElem?_getD, List.getElem?_take, List.getElem?_drop, hk, if_true]

theorem fwrite_inside (f : FILE) (bytes : List Nat) (hw : f.writable = true)
    (hin : f.pos + bytes.length ≤ f.data.length) :
    fwrite f bytes = (bytes.length,
      { f with data := f.data.take f.pos ++ bytes ++ f.data.drop (f.pos + bytes.length)
               pos := f.pos + bytes.length }) := by
  unfold fwrite
  have h0 : f.pos - f.data.length = 0 := by omega
  simp [hw, h0]

/-- The normal form of a call of `fixMode2Form1Sector`: with `g` the stream after
the initial seek and `sector` the bytes read, the call fails on a short read, a
wrong mode, a form-2 submode or a stream that refuses the write, and otherwise
replaces the sector by the recomputed one. -/
theorem fixMode2Form1Sector_eq (E : Nat → Nat) (R : Nat → Nat → Nat) (f : FILE) (idx : Int) :
    fixMode2Form1Sector E R f idx =
      if ((f.data.drop (fseek f (idx * 2352) Whence.SEEK_SET).pos).take 2352).length ≠ 2352 then
        (false, { f with pos := (fseek f (idx * 2352) Whence.SEEK_SET).pos +
          ((f.data.drop (fseek f (idx * 2352) Whence.SEEK_SET).pos).take 2352).length })
      else if f.data.getD ((fseek f (idx * 2352) Whence.SEEK_SET).pos + 15) 0 ≠ 2 then
        (false, { f with pos := (fseek f (idx * 2352) Whence.SEEK_SET).pos + 2352 })
      else if f.data.getD ((fseek f (idx * 2352) Whence.SEEK_SET).pos + 18) 0 &&& 0x20 = 0x20 then
        (false, { f with pos := (fseek f (idx * 2352) Whence.SEEK_SET).pos + 2352 })
      else if f.writable = false then
        (false, { f with pos := (fseek f (idx * 2352) Whence.SEEK_SET).pos })
      else
        (true, { f with
          data := f.data.take (fseek f (idx * 2352) Whence.SEEK_SET).pos ++
            recomputeSector E R
              (memcpy ((f.data.drop (fseek f (idx * 2352) Whence.SEEK_SET).pos).take 2352) 0 sync)
              (f.data.getD ((fseek f (idx * 2352) Whence.SEEK_SET).pos + 12) 0)
              (f.data.getD ((fseek f (idx * 2352) Whence.SEEK_SET).pos + 13) 0)
              (f.data.getD ((fseek f (idx * 2352) Whence.SEEK_SET).pos + 14) 0)
              (f.data.getD ((fseek f (idx * 2352) Whence.SEEK_SET).pos + 15) 0) ++
            f.data.drop ((fseek f (idx * 2352) Whence.SEEK_SET).pos + 2352)
          pos := (fseek f (idx * 2352) Whence.SEEK_SET).pos + 2352 }) := by
  obtain ⟨fd, fp, fw⟩ := f
  have hd := (fseek_data ⟨fd, fp, fw⟩ (idx * 2352) Whence.SEEK_SET).1
  have hw := (fseek_data ⟨fd, fp, fw⟩ (idx * 2352) Whence.SEEK_SET).2
  unfold fixMode2Form1Sector
  simp only [SECTOR_SIZE, Nat.cast_ofNat, HEADER_OFFSET, MODE_2, CDROMXA_SUBHEADER_OFFSET]
  generalize fseek ⟨fd, fp, fw⟩ (idx * 2352) Whence.SEEK_SET = g at hd hw ⊢
  obtain ⟨gd, gp, gw⟩ := g
  simp only at hd hw
  rw [hd, hw]
  clear hd hw gd gw
  simp only [fread]
  by_cases c1 : ((fd.drop gp).take 2352).length ≠ 2352
  · rw [if_pos c1, if_pos c1]
  · rw [if_neg c1, if_neg c1]
    have hl : ((fd.drop gp).take 2352).length = 2352 := not_not.mp c1
    have hin : gp + 2352 ≤ fd.length := by
      simp only [List.length_take, List.length_drop] at hl
      omega
    simp only [hl, getD_take_drop fd gp 2352 _ (by norm_num : 12 + 0 < 2352),
      getD_take_drop fd gp 2352 _ (by norm_num : 12 + 1 < 2352),
      getD_take_drop fd gp 2352 _ (by norm_num : 12 + 2 < 2352),
      getD_take_drop fd gp 2352 _ (by norm_num : 12 + 3 < 2352)]
    by_cases c2 : fd.getD (gp + 15) 0 ≠ 2
    · rw [if_pos c2, if_pos c2]
    · rw [if_neg c2, if_neg c2]
      have hsub : (memcpy ((fd.drop gp).take 2352) 0 sync).getD (16 + 2) 0 = fd.getD (gp + 18) 0 := by
        rw [(memcpy_spec _ _ _).2, if_neg (by simp [sync]), getD_take_drop fd gp 2352 _ (by norm_num)]
      rw [hsub]
      by_cases c3 : fd.getD (gp + 18) 0 &&& 0x20 = 0x20
      · rw [if_pos c3, if_pos c3]
      · rw [if_neg c3, if_neg c3]
        have hrl : (recomputeSector E R (memcpy ((fd.drop gp).take 2352) 0 sync)
            (fd.getD (gp + (12 + 0)) 0) (fd.getD (gp + (12 + 1)) 0) (fd.getD (gp + (12 + 2)) 0)
            (fd.getD (gp + (12 + 3)) 0)).length = 2352 := by
          rw [recomputeSector_length, (memcpy_spec _ _ _).1, hl]
        have hs : fseek ⟨fd, gp + 2352, fw⟩ (-2352) Whence.SEEK_CUR = ⟨fd, gp, fw⟩ := by
          have := fseek_cur_back ⟨fd, gp + 2352, fw⟩ gp 2352 rfl
          simpa using this
        rw [hs, List.take_of_length_le (le_of_eq hrl)]
        simp only [Nat.reduceAdd, Nat.add_zero] at hrl ⊢
        by_cases c4 : fw = false
        · rw [if_pos c4]
          subst c4
          simp [fwrite]
        · rw [if_neg c4]
          have hfw : fw = true := by simpa using c4
          subst hfw
          rw [fwrite_inside _ _ rfl (by rw [hrl]; exact hin)]
          dsimp only
          rw [hrl, if_neg (fun h => h rfl)]

theorem getD_splice (d o : List Nat) (p k : Nat) (hin : p ≤ d.length) :
    (d.take p ++ o ++ d.drop (p + o.length)).getD k 0 =
      if k < p then d.getD k 0 else if k < p + o.length then o.getD (k - p) 0 else d.getD k 0 := by
  have hp : (d.take p).length = p := by rw [List.length_take]; omega
  simp only [List.getD_eq_getElem?_getD]
  by_cases c1 : k < p
  · rw [if_pos c1, List.append_assoc, List.getElem?_append_left (by omega), List.getElem?_take,
      if_pos c1]
  · rw [if_neg c1]
    by_cases c2 : k < p + o.length
    · rw [if_pos c2, List.getElem?_append_left (by rw [List.length_append]; omega),
        List.getElem?_append_right (by omega), hp]
    · rw [if_neg c2, List.getElem?_append_right (by rw [List.length_append]; omega),
        List.length_append, hp, List.getElem?_drop]
      congr 2
      omega

theorem length_splice (d o : List Nat) (p : Nat) (hin : p + o.length ≤ d.length) :
    (d.take p ++ o ++ d.drop (p + o.length)).length = d.length := by
  simp only [List.length_append, List.length_take, List.length_drop]
  omega

theorem take_drop_splice (d o rest : List Nat) (p : Nat) (hp : p ≤ d.length) :
    ((d.take p ++ o ++ rest).drop p).take o.length = o := by
  have hl : (d.take p).length = p := by rw [List.length_take]; omega
  rw [List.append_assoc, List.drop_append_of_le_length (by omega), List.drop_of_length_le (by omega),
    List.nil_append, List.take_left']
  rfl

theorem take_splice (d o rest : List Nat) (p : Nat) (hp : p ≤ d.length) :
    (d.take p ++ o ++ rest).take p = d.take p := by
  have hl : (d.take p).length = p := by rw [List.length_take]; omega
  rw [List.append_assoc, List.take_left' hl]

theorem drop_splice (d o : List Nat) (p : Nat) (hp : p ≤ d.length) :
    (d.take p ++ o ++ d.drop (p + o.length)).drop (p + o.length) = d.drop (p + o.length) := by
  have hl : (d.take p ++ o).length = p + o.length := by
    rw [List.length_append, List.length_take]; omega
  rw [List.drop_left' hl]

/-- C4: a sector whose mode byte (offset 15) is not 2, or whose submode byte
(offset 18) has bit 0x20 set, is rejected: `fixMode2Form1Sector` returns false
and the stored bytes are exactly what they were. -/
theorem fixMode2Form1Sector_rejects (E : Nat → Nat) (R : Nat → Nat → Nat) (f : FILE) (idx : Int)
    (h : f.data.getD ((fseek f (idx * 2352) Whence.SEEK_SET).pos + 15) 0 ≠ 2 ∨
      (f.data.getD ((fseek f (idx * 2352) Whence.SEEK_SET).pos + 15) 0 = 2 ∧
        f.data.getD ((fseek f (idx * 2352) Whence.SEEK_SET).pos + 18) 0 &&& 0x20 = 0x20)) :
    (fixMode2Form1Sector E R f idx).1 = false ∧ (fixMode2Form1Sector E R f idx).2.data = f.data := by
  rw [fixMode2Form1Sector_eq]
  split_ifs with c1 c2 c3 c4
  · exact ⟨rfl, rfl⟩
  · exact ⟨rfl, rfl⟩
  · exact ⟨rfl, rfl⟩
  · exact ⟨rfl, rfl⟩
  · rcases h with h | h
    · exact absurd h c2
    · exact absurd h.2 c3

theorem fixMode2Form1Sector_rejects_witness :
    (fixMode2Form1Sector (fun _ => 0) (fun _ _ => 0) ⟨List.replicate 2352 0, 0, true⟩ 0).1 = false ∧
    (fixMode2Form1Sector (fun _ => 0) (fun _ _ => 0) ⟨List.replicate 2352 0, 0, true⟩ 0).2.data =
      List.replicate 2352 0 :=
  fixMode2Form1Sector_rejects (fun _ => 0) (fun _ _ => 0) ⟨List.replicate 2352 0, 0, true⟩ 0
    (Or.inl (by decide))

/-- A writable stream holding a complete Mode 2 Form 1 sector at the index is
accepted. -/
theorem fixMode2Form1Sector_success (E : Nat → Nat) (R : Nat → Nat → Nat) (f : FILE) (idx : Int)
    (hw : f.writable = true)
    (hlen : (fseek f (idx * 2352) Whence.SEEK_SET).pos + 2352 ≤ f.data.length)
    (hmode : f.data.getD ((fseek f (idx * 2352) Whence.SEEK_SET).pos + 15) 0 = 2)
    (hform : f.data.getD ((fseek f (idx * 2352) Whence.SEEK_SET).pos + 18) 0 &&& 0x20 ≠ 0x20) :
    (fixMode2Form1Sector E R f idx).1 = true := by
  rw [fixMode2Form1Sector_eq]
  have hl : ((f.data.drop (fseek f (idx * 2352) Whence.SEEK_SET).pos).take 2352).length = 2352 := by
    rw [List.length_take, List.length_drop]; omega
  rw [if_neg (not_not.mpr hl), if_neg (not_not.mpr hmode), if_neg hform, if_neg (by simp [hw])]

/-- The frame of a successful call: file length, bytes outside the sector, and the
bytes at sector offsets 12..2071 are unchanged. -/
theorem accepted_sector_frame (E : Nat → Nat) (R : Nat → Nat → Nat) (f : FILE) (idx : Int)
    (h : (fixMode2Form1Sector E R f idx).1 = true) :
    (fixMode2Form1Sector E R f idx).2.data.length = f.data.length ∧
    (∀ k, k < (fseek f (idx * 2352) Whence.SEEK_SET).pos ∨
        (fseek f (idx * 2352) Whence.SEEK_SET).pos + 2352 ≤ k →
      (fixMode2Form1Sector E R f idx).2.data.getD k 0 = f.data.getD k 0) ∧
    (∀ j, 12 ≤ j → j < 2072 →
      (fixMode2Form1Sector E R f idx).2.data.getD ((fseek f (idx * 2352) Whence.SEEK_SET).pos + j) 0 =
        f.data.getD ((fseek f (idx * 2352) Whence.SEEK_SET).pos + j) 0) := by
  rw [fixMode2Form1Sector_eq] at h ⊢
  generalize (fseek f (idx * 2352) Whence.SEEK_SET).pos = p at h ⊢
  split_ifs at h ⊢ with c1 c2 c3 c4
  have hl : ((f.data.drop p).take 2352).length = 2352 := not_not.mp c1
  have hin : p + 2352 ≤ f.data.length := by
    rw [List.length_take, List.length_drop] at hl; omega
  have hml : (memcpy ((f.data.drop p).take 2352) 0 sync).length = 2352 := by
    rw [(memcpy_spec _ _ _).1, hl]
  generalize ho : recomputeSector E R (memcpy ((f.data.drop p).take 2352) 0 sync)
    (f.data.getD (p + 12) 0) (f.data.getD (p + 13) 0) (f.data.getD (p + 14) 0)
    (f.data.getD (p + 15) 0) = o
  have hol : o.length = 2352 := by rw [← ho, recomputeSector_length, hml]
  have hfr := recomputeSector_frame E R (memcpy ((f.data.drop p).take 2352) 0 sync)
    (f.data.getD (p + 12) 0) (f.data.getD (p + 13) 0) (f.data.getD (p + 14) 0)
    (f.data.getD (p + 15) 0) hml
  rw [ho] at hfr
  have hsp : ∀ k, (f.data.take p ++ o ++ f.data.drop (p + 2352)).getD k 0 =
      if k < p then f.data.getD k 0 else if k < p + 2352 then o.getD (k - p) 0
      else f.data.getD k 0 := by
    intro k
    have := getD_splice f.data o p k (by omega)
    rw [hol] at this
    exact this
  dsimp only
  refine ⟨?_, fun k hk => ?_, fun j h1 h2 => ?_⟩
  · have := length_splice f.data o p (by omega)
    rw [hol] at this
    exact this
  · rw [hsp]
    rcases hk with hk | hk
    · rw [if_pos hk]
    · rw [if_neg (by omega), if_neg (by omega)]
  · rw [hsp, if_neg (by omega), if_pos (by omega), Nat.add_sub_cancel_left]
    by_cases c : 16 ≤ j
    · rw [hfr.1 j (Or.inr ⟨c, h2⟩), (memcpy_spec _ _ _).2, if_neg (by simp [sync]; omega),
        getD_take_drop _ _ _ _ (by omega)]
    · have : j = 12 ∨ j = 13 ∨ j = 14 ∨ j = 15 := by omega
      rcases this with e | e | e | e <;> subst e
      · exact hfr.2.1
      · exact hfr.2.2.1
      · exact hfr.2.2.2.1
      · exact hfr.2.2.2.2

/-- C6: on a successful call the header (12..15), the subheader (16..23) and the
user data (24..2071) of the sector keep their bytes, the file keeps its length,
and no byte outside the sector changes; only sync, checksum, P and Q can differ. -/
theorem fixMode2Form1Sector_frame (E : Nat → Nat) (R : Nat → Nat → Nat) (f : FILE) (idx : Int)
    (h : (fixMode2Form1Sector E R f idx).1 = true) :
    (fixMode2Form1Sector E R f idx).2.data.length = f.data.length ∧
    (∀ k, k < (fseek f (idx * 2352) Whence.SEEK_SET).pos ∨
        (fseek f (idx * 2352) Whence.SEEK_SET).pos + 2352 ≤ k →
      (fixMode2Form1Sector E R f idx).2.data.getD k 0 = f.data.getD k 0) ∧
    (∀ j, 12 ≤ j → j < 2072 →
      (fixMode2Form1Sector E R f idx).2.data.getD ((fseek f (idx * 2352) Whence.SEEK_SET).pos + j) 0 =
        f.data.getD ((fseek f (idx * 2352) Whence.SEEK_SET).pos + j) 0) :=
  accepted_sector_frame E R f idx h

theorem sampleSectorFile_length : sampleSectorFile.data.length = 2352 := by
  simp only [sampleSectorFile, List.length_append, List.length_cons, List.length_replicate]

theorem sampleSectorFile_accepted (E : Nat → Nat) (R : Nat → Nat → Nat) :
    (fixMode2Form1Sector E R sampleSectorFile 0).1 = true :=
  fixMode2Form1Sector_success E R sampleSectorFile 0 rfl
    (by rw [show (fseek sampleSectorFile (0 * 2352) Whence.SEEK_SET).pos = 0 from rfl,
      sampleSectorFile_length])
    (by decide) (by decide)

theorem fixMode2Form1Sector_frame_witness :
    (fixMode2Form1Sector (fun _ => 0) (fun _ _ => 0) sampleSectorFile 0).2.data.length =
      sampleSectorFile.data.length ∧
    (∀ k, k < (fseek sampleSectorFile (0 * 2352) Whence.SEEK_SET).pos ∨
        (fseek sampleSectorFile (0 * 2352) Whence.SEEK_SET).pos + 2352 ≤ k →
      (fixMode2Form1Sector (fun _ => 0) (fun _ _ => 0) sampleSectorFile 0).2.data.getD k 0 =
        sampleSectorFile.data.getD k 0) ∧
    (∀ j, 12 ≤ j → j < 2072 →
      (fixMode2Form1Sector (fun _ => 0) (fun _ _ => 0) sampleSectorFile 0).2.data.getD
          ((fseek sampleSectorFile (0 * 2352) Whence.SEEK_SET).pos + j) 0 =
        sampleSectorFile.data.getD ((fseek sampleSectorFile (0 * 2352) Whence.SEEK_SET).pos + j) 0) :=
  fixMode2Form1Sector_frame (fun _ => 0) (fun _ _ => 0) sampleSectorFile 0
    (sampleSectorFile_accepted _ _)

/-- C5: the codec is idempotent.  On a writable stream holding a complete Mode 2
Form 1 sector at index `idx`, the call succeeds, and a second call on its
output succeeds again and leaves every byte (and the stream position) as the
first call left it, for any lookup tables. -/
theorem fixMode2Form1Sector_idempotent (E : Nat → Nat) (R : Nat → Nat → Nat) (f : FILE)
    (idx : Nat) (hw : f.writable = true) (hlen : idx * 2352 + 2352 ≤ f.data.length)
    (hmode : f.data.getD (idx * 2352 + 15) 0 = 2)
    (hform : f.data.getD (idx * 2352 + 18) 0 &&& 0x20 ≠ 0x20) :
    (fixMode2Form1Sector E R f idx).1 = true ∧
    fixMode2Form1Sector E R (fixMode2Form1Sector E R f idx).2 idx =
      (true, (fixMode2Form1Sector E R f idx).2) := by
  have hseek : ∀ g : FILE, (fseek g ((idx : Int) * 2352) Whence.SEEK_SET).pos = idx * 2352 := by
    intro g
    have e : ((idx : Int) * 2352) = ((idx * 2352 : Nat) : Int) := by push_cast; rfl
    rw [e, fseek_set_nat]
  obtain ⟨d, fp, fw⟩ := f
  simp only at hw hlen hmode hform
  subst hw
  generalize hp : idx * 2352 = p at hlen hmode hform hseek
  have hl : ((d.drop p).take 2352).length = 2352 := by
    rw [List.length_take, List.length_drop]; omega
  have hml : (memcpy ((d.drop p).take 2352) 0 sync).length = 2352 := by
    rw [(memcpy_spec _ _ _).1, hl]
  -- the first call
  have h1 : fixMode2Form1Sector E R ⟨d, fp, true⟩ idx =
      (true, ⟨d.take p ++ recomputeSector E R (memcpy ((d.drop p).take 2352) 0 sync)
        (d.getD (p + 12) 0) (d.getD (p + 13) 0) (d.getD (p + 14) 0) (d.getD (p + 15) 0) ++
        d.drop (p + 2352), p + 2352, true⟩) := by
    rw [fixMode2Form1Sector_eq]
    simp only [hseek]
    rw [if_neg (not_not.mpr hl), if_neg (not_not.mpr hmode), if_neg hform, if_neg (by simp)]
  rw [h1]
  refine ⟨rfl, ?_⟩
  dsimp only
  generalize ho : recomputeSector E R (memcpy ((d.drop p).take 2352) 0 sync)
    (d.getD (p + 12) 0) (d.getD (p + 13) 0) (d.getD (p + 14) 0) (d.getD (p + 15) 0) = o
  have hol : o.length = 2352 := by rw [← ho, recomputeSector_length, hml]
  have hfr := recomputeSector_frame E R (memcpy ((d.drop p).take 2352) 0 sync)
    (d.getD (p + 12) 0) (d.getD (p + 13) 0) (d.getD (p + 14) 0) (d.getD (p + 15) 0) hml
  rw [ho] at hfr
  have hsp : ∀ j, j < 2352 → (d.take p ++ o ++ d.drop (p + 2352)).getD (p + j) 0 = o.getD j 0 := by
    intro j hj
    have := getD_splice d o p (p + j) (by omega)
    rw [hol] at this
    rw [this, if_neg (by omega), if_pos (by omega), Nat.add_sub_cancel_left]
  have hrd : ((d.take p ++ o ++ d.drop (p + 2352)).drop p).take 2352 = o := by
    have := take_drop_splice d o (d.drop (p + 2352)) p (by omega)
    rw [hol] at this
    exact this
  have hsub : o.getD 18 0 = d.getD (p + 18) 0 := by
    rw [hfr.1 18 (Or.inr ⟨by omega, by omega⟩), (memcpy_spec _ _ _).2, if_neg (by simp [sync]),
      getD_take_drop _ _ _ _ (by omega)]
  -- the second call
  rw [fixMode2Form1Sector_eq]
  simp only [hseek, hrd, hsp 12 (by omega), hsp 13 (by omega), hsp 14 (by omega),
    hsp 15 (by omega), hsp 18 (by omega), hfr.2.1, hfr.2.2.1, hfr.2.2.2.1, hfr.2.2.2.2, hsub]
  rw [if_neg (not_not.mpr hol), if_neg (not_not.mpr hmode), if_neg hform, if_neg (by simp)]
  have hsame : recomputeSector E R (memcpy o 0 sync) (d.getD (p + 12) 0) (d.getD (p + 13) 0)
      (d.getD (p + 14) 0) (d.getD (p + 15) 0) = o := by
    rw [← ho]
    apply recomputeSector_agree E R _ _ _ _ _ _ (by rw [(memcpy_spec _ _ _).1, ho, hol]) hml
    · intro k _ hk
      rw [(memcpy_spec _ _ _).2, (memcpy_spec _ _ _).2, ho, hol, hl]
      rw [if_pos ⟨Nat.zero_le _, by simp [sync]; omega, by omega⟩,
        if_pos ⟨Nat.zero_le _, by simp [sync]; omega, by omega⟩]
    · intro k hk1 hk2
      rw [(memcpy_spec _ _ _).2, if_neg (by simp [sync]; omega), ho, hfr.1 k (Or.inr ⟨hk1, hk2⟩)]
  rw [hsame]
  have ht : (d.take p ++ o ++ d.drop (p + 2352)).take p = d.take p :=
    take_splice d o _ p (by omega)
  have hdr : (d.take p ++ o ++ d.drop (p + 2352)).drop (p + 2352) = d.drop (p + 2352) := by
    have := drop_splice d o p (by omega)
    rw [hol] at this
    exact this
  rw [ht, hdr]

theorem fixMode2Form1Sector_idempotent_witness :
    (fixMode2Form1Sector (fun _ => 0) (fun _ _ => 0) sampleSectorFile ((0 : Nat) : Int)).1 = true ∧
    fixMode2Form1Sector (fun _ => 0) (fun _ _ => 0)
      (fixMode2Form1Sector (fun _ => 0) (fun _ _ => 0) sampleSectorFile ((0 : Nat) : Int)).2
        ((0 : Nat) : Int) =
      (true, (fixMode2Form1Sector (fun _ => 0) (fun _ _ => 0) sampleSectorFile ((0 : Nat) : Int)).2) :=
  fixMode2Form1Sector_idempotent (fun _ => 0) (fun _ _ => 0) sampleSectorFile 0 rfl
    (by rw [sampleSectorFile_length]) (by decide) (by decide)

/-! ## Stores into a record buffer -/

/-- A loop that stores `g i` at offset `off + i` for each index of its range. -/
theorem forLoop_store_spec (g : Nat → Nat) (off count start : Nat) (buf : List Nat) :
    (forLoop start count (fun i b => b.set (off + i) (g i)) buf).length = buf.length ∧
    ∀ k, (forLoop start count (fun i b => b.set (off + i) (g i)) buf).getD k 0 =
      if off + start ≤ k ∧ k < off + start + count ∧ k < buf.length then g (k - off)
      else buf.getD k 0 := by
  have := forLoop_inv
    (fun i (b : List Nat) => b.length = buf.length ∧
      ∀ k, b.getD k 0 = if off + start ≤ k ∧ k < off + i ∧ k < buf.length then g (k - off)
        else buf.getD k 0)
    (fun i b => b.set (off + i) (g i)) count start buf
    ⟨rfl, fun k => by rw [if_neg (by omega)]⟩
    (fun i a hi _ hp => by
      obtain ⟨hlen, hget⟩ := hp
      refine ⟨by simp [hlen], fun k => ?_⟩
      rw [getD_set, hlen, hget k]
      by_cases hk : off + i = k
      · subst hk
        by_cases hl : off + i < buf.length
        · rw [if_pos ⟨rfl, hl⟩, if_pos ⟨by omega, by omega, hl⟩]
          congr 1; omega
        · rw [if_neg (by omega), if_neg (by omega), if_neg (by omega)]
      · rw [if_neg (by omega)]
        by_cases hk2 : off + start ≤ k ∧ k < off + i ∧ k < buf.length
        · rw [if_pos hk2, if_pos ⟨hk2.1, by omega, hk2.2.2⟩]
        · rw [if_neg hk2, if_neg (by omega)])
  refine ⟨this.1, fun k => ?_⟩
  rw [this.2 k]
  by_cases c : off + start ≤ k ∧ k < off + (start + count) ∧ k < buf.length
  · rw [if_pos c, if_pos ⟨c.1, by omega, c.2.2⟩]
  · rw [if_neg c, if_neg (by omega)]

theorem memcpy_length (buf : List Nat) (off : Nat) (src : List Nat) :
    (memcpy buf off src).length = buf.length := (memcpy_spec buf off src).1

theorem memcpy_getD_out (buf : List Nat) (off : Nat) (src : List Nat) (k : Nat)
    (h : k < off ∨ off + src.length ≤ k) : (memcpy buf off src).getD k 0 = buf.getD k 0 := by
  rw [(memcpy_spec buf off src).2, if_neg (by omega)]

theorem memcpy_getD_in (buf : List Nat) (off : Nat) (src : List Nat) (k : Nat)
    (h1 : off ≤ k) (h2 : k < off + src.length) (h3 : k < buf.length) :
    (memcpy buf off src).getD k 0 = src.getD (k - off) 0 := by
  rw [(memcpy_spec buf off src).2, if_pos ⟨h1, h2, h3⟩]

theorem memset_length (buf : List Nat) (off c count : Nat) :
    (memset buf off c count).length = buf.length := (memset_spec buf off c count).1

theorem memset_getD_out (buf : List Nat) (off c count k : Nat)
    (h : k < off ∨ off + count ≤ k) : (memset buf off c count).getD k 0 = buf.getD k 0 := by
  rw [(memset_spec buf off c count).2, if_neg (by omega)]

theorem memset_getD_in (buf : List Nat) (off c count k : Nat)
    (h1 : off ≤ k) (h2 : k < off + count) (h3 : k < buf.length) :
    (memset buf off c count).getD k 0 = c % 256 := by
  rw [(memset_spec buf off c count).2, if_pos ⟨h1, h2, h3⟩]

theorem leBytes_length (width v : Nat) : (leBytes width v).length = width := by
  simp [leBytes]

theorem leBytes_getD (width v i : Nat) (h : i < width) :
    (leBytes width v).getD i 0 = (v >>> (8 * i)) % 256 := by
  simp [leBytes, List.getD_eq_getElem?_getD, List.getElem?_map, List.getElem?_range h]

theorem storeLE_length (buf : List Nat) (off width v : Nat) :
    (storeLE buf off width v).length = buf.length := memcpy_length _ _ _

theorem storeLE_getD_out (buf : List Nat) (off width v k : Nat)
    (h : k < off ∨ off + width ≤ k) : (storeLE buf off width v).getD k 0 = buf.getD k 0 := by
  unfold storeLE
  rw [memcpy_getD_out _ _ _ _ (by rw [leBytes_length]; exact h)]

theorem storeLE_getD_in (buf : List Nat) (off width v k : Nat)
    (h1 : off ≤ k) (h2 : k < off + width) (h3 : k < buf.length) :
    (storeLE buf off width v).getD k 0 = (v >>> (8 * (k - off))) % 256 := by
  unfold storeLE
  rw [memcpy_getD_in _ _ _ _ h1 (by rw [leBytes_length]; exact h2) h3,
    leBytes_getD _ _ _ (by omega)]

/-- The characters before the terminator are the bytes the pointer reads, and
none of them is zero. -/
theorem cstr_getD (src : List Nat) : ∀ i, i < strlen src →
    (cstr src).getD i 0 = src.getD i 0 ∧ src.getD i 0 ≠ 0 := by
  unfold strlen cstr
  induction src with
  | nil => intro i hi; simp at hi
  | cons a l ih =>
    intro i hi
    by_cases ha : a = 0
    · simp [List.takeWhile, ha] at hi
    · have e : List.takeWhile (fun c => c != 0) (a :: l) = a :: List.takeWhile (fun c => c != 0) l := by
        exact List.takeWhile_cons_of_pos (by simpa using ha)
      rw [e] at hi ⊢
      cases i with
      | zero => exact ⟨rfl, ha⟩
      | succ j =>
        simp only [List.getD_cons_succ]
        exact ih j (by simpa using hi)

theorem strlen_le (src : List Nat) : strlen src ≤ src.length := by
  unfold strlen cstr
  exact (List.takeWhile_sublist _).length_le

theorem pad_string_length (buf : List Nat) (dest : Nat) (src : List Nat) (n : Nat) :
    (pad_string buf dest src n).length = buf.length := by
  unfold pad_string strncpy
  rw [(forLoop_store_spec _ _ _ _ _).1, (forLoop_store_spec _ _ _ _ _).1]

theorem pad_string_getD_out (buf : List Nat) (dest : Nat) (src : List Nat) (n k : Nat)
    (h : k < dest ∨ dest + n ≤ k) : (pad_string buf dest src n).getD k 0 = buf.getD k 0 := by
  unfold pad_string strncpy
  rw [(forLoop_store_spec _ _ _ _ _).2, if_neg (by omega), (forLoop_store_spec _ _ _ _ _).2,
    if_neg (by omega)]

theorem pad_string_getD_in (buf : List Nat) (dest : Nat) (src : List Nat) (n k : Nat)
    (h1 : dest ≤ k) (h2 : k < dest + n) (h3 : k < buf.length) :
    (pad_string buf dest src n).getD k 0 =
      if k - dest < strlen src then src.getD (k - dest) 0 else 32 := by
  unfold pad_string strncpy
  rw [(forLoop_store_spec _ _ _ _ _).2, (forLoop_store_spec _ _ _ _ _).1]
  by_cases c : k - dest < strlen src
  · rw [if_neg (by omega), (forLoop_store_spec _ _ _ _ _).2, if_pos ⟨by omega, by omega, h3⟩,
      if_pos c, if_pos c]
  · rw [if_pos ⟨by omega, by omega, h3⟩, if_neg c]

/-- The field `pad_string` leaves: the first `min (strlen src) n` characters of
`src`, then spaces up to `n`. -/
theorem pad_string_field (buf : List Nat) (dest : Nat) (src : List Nat) (n : Nat)
    (h : dest + n ≤ buf.length) :
    ((pad_string buf dest src n).drop dest).take n = spacePadded src n := by
  unfold spacePadded
  have hsl : (cstr src).length = strlen src := rfl
  apply ext_getD
  · simp only [List.length_take, List.length_drop, pad_string_length, List.length_append,
      List.length_replicate, hsl]
    omega
  · intro k hk
    have hk' : k < n := by
      simp only [List.length_take, List.length_drop, pad_string_length] at hk
      omega
    rw [getD_take_drop _ _ _ _ hk', pad_string_getD_in _ _ _ _ _ (by omega) (by omega) (by omega),
      Nat.add_sub_cancel_left]
    simp only [List.getD_eq_getElem?_getD]
    by_cases c : k < strlen src
    · rw [if_pos c, List.getElem?_append_left (by rw [List.length_take, hsl]; omega),
        List.getElem?_take, if_pos (by omega)]
      have := (cstr_getD src k c).1
      simp only [List.getD_eq_getElem?_getD] at this
      exact this.symm
    · rw [if_neg c, List.getElem?_append_right (by rw [List.length_take, hsl]; omega),
        List.getElem?_replicate, if_pos (by rw [List.length_take, hsl]; omega)]
      rfl

/-! ## The stages of the master sector builder -/

theorem layoutSize_master : layoutSize MasterDiscSector_layout = 2048 := by decide

theorem fillMagic_length (s : List Nat) (m : MagicSlots) : (fillMagic s m).length = s.length := by
  simp only [fillMagic, storeLE_length]

theorem fillBasic_length (s dn : List Nat) (id : Int) (pn ch : List Nat) (y mo d : Int)
    (rg dt : Nat) : (fillBasic s dn id pn ch y mo d rg dt).length = s.length := by
  simp only [fillBasic, storeLE_length, memcpy_length, pad_string_length]

theorem fillMedia_length (s : List Nat) (dt n : Nat) : (fillMedia s dt n).length = s.length := by
  unfold fillMedia
  split_ifs <;> simp only [storeLE_length, memset_length]

theorem fillCommon_length (s v : List Nat) : (fillCommon s v).length = s.length := by
  simp only [fillCommon, storeLE_length, memset_length, pad_string_length]

theorem fillJapan_length (s : List Nat) : (fillJapan s).length = s.length := by
  simp only [fillJapan, storeLE_length]

theorem fillJapan_getD_out (s : List Nat) (k : Nat) (h : (k < 270 ∧ k ≠ 130) ∨ 320 ≤ k) :
    (fillJapan s).getD k 0 = s.getD k 0 := by
  unfold fillJapan
  simp only [jmds, fieldOffset, JapanMasterDiscSector_layout, String.reduceEq, reduceIte,
    Nat.reduceAdd]
  simp (disch := omega) only [storeLE_getD_out]

theorem fillCommon_getD_out (s v : List Nat) (k : Nat) (h : k < 256 ∨ (265 ≤ k ∧ k < 270) ∨
    (281 ≤ k ∧ k < 286) ∨ k = 301) :
    (fillCommon s v).getD k 0 = s.getD k 0 := by
  unfold fillCommon
  simp only [mds, fieldOffset, MasterDiscSector_layout, String.reduceEq, reduceIte,
    Nat.reduceAdd]
  simp (disch := omega) only [storeLE_getD_out, memset_getD_out, pad_string_getD_out]

theorem fillMedia_getD_out (s : List Nat) (dt n k : Nat) (h : k < 132 ∨ 256 ≤ k) :
    (fillMedia s dt n).getD k 0 = s.getD k 0 := by
  unfold fillMedia
  simp only [mds, mdsCd, mdsDvd, fieldOffset, MasterDiscSector_layout, media_cd_layout,
    media_dvd_layout, String.reduceEq, reduceIte, Nat.reduceAdd]
  split_ifs
  · simp (disch := omega) only [memset_getD_out]
  · simp (disch := omega) only [storeLE_getD_out, memset_getD_out]
  · rfl

theorem fillBasic_getD_out (s dn : List Nat) (id : Int) (pn ch : List Nat) (y mo d : Int)
    (rg dt k : Nat) (h : 132 ≤ k) :
    (fillBasic s dn id pn ch y mo d rg dt).getD k 0 = s.getD k 0 := by
  unfold fillBasic
  simp only [mds, fieldOffset, MasterDiscSector_layout, String.reduceEq, reduceIte,
    Nat.reduceAdd]
  simp (disch := (first | omega | (simp only [masterDiscText, List.length_cons, List.length_nil]; omega)))
    only [storeLE_getD_out, memcpy_getD_out, pad_string_getD_out]

/-! ## Integer fields -/

theorem loadLE_congr (a b : List Nat) (off width : Nat)
    (h : ∀ i, i < width → a.getD (off + i) 0 = b.getD (off + i) 0) :
    loadLE a off width = loadLE b off width := by
  unfold loadLE
  have := forLoop_rel (fun _ (x y : Nat) => x = y)
    (fun i acc => acc + a.getD (off + i) 0 * 256 ^ i)
    (fun i acc => acc + b.getD (off + i) 0 * 256 ^ i) width 0 0 0 rfl
    (fun i x y _ hi hxy => by
      dsimp only
      rw [hxy, h i (by omega)])
  exact this

theorem loadLE_four (a : List Nat) (off : Nat) :
    loadLE a off 4 = a.getD off 0 + a.getD (off + 1) 0 * 256 + a.getD (off + 2) 0 * 65536 +
      a.getD (off + 3) 0 * 16777216 := by
  simp [loadLE, forLoop]

theorem loadLE_one (a : List Nat) (off : Nat) : loadLE a off 1 = a.getD off 0 := by
  simp [loadLE, forLoop]

/-- Reading back a 32-bit field gives the stored value modulo `2 ^ 32`. -/
theorem loadLE_storeLE_four (s : List Nat) (off v : Nat) (h : off + 4 ≤ s.length) :
    loadLE (storeLE s off 4 v) off 4 = v % 4294967296 := by
  rw [loadLE_four, storeLE_getD_in _ _ _ _ _ (by omega) (by omega) (by omega),
    storeLE_getD_in _ _ _ _ _ (by omega) (by omega) (by omega),
    storeLE_getD_in _ _ _ _ _ (by omega) (by omega) (by omega),
    storeLE_getD_in _ _ _ _ _ (by omega) (by omega) (by omega)]
  simp only [Nat.sub_self, Nat.add_sub_cancel_left, Nat.shiftRight_eq_div_pow]
  norm_num
  omega

theorem loadLE_zero_buffer (n off width : Nat) : loadLE (List.replicate n 0) off width = 0 := by
  unfold loadLE
  have := forLoop_inv (fun _ (x : Nat) => x = 0)
    (fun i acc => acc + (List.replicate n 0).getD (off + i) 0 * 256 ^ i) width 0 0 rfl
    (fun i x _ _ hx => by
      dsimp only
      have : (List.replicate n 0).getD (off + i) 0 = 0 := by
        simp only [List.getD_eq_getElem?_getD, List.getElem?_replicate]
        split <;> rfl
      rw [hx, this]; simp)
  exact this

theorem calcMagicNums_fst (l : List Nat) (n : Int) (out out' : MagicSlots) :
    (calcMagicNums l n out).1 = (calcMagicNums l n out').1 ∧
    ((calcMagicNums l n out).1 = true → (calcMagicNums l n out).2 = (calcMagicNums l n out').2) := by
  unfold calcMagicNums
  split_ifs <;> simp

/-- The record of a successful build: the stages applied to a zeroed buffer. -/
theorem buildMasterDiscSector_ok (dn : List Nat) (id : Int) (pn ch : List Nat) (y mo d : Int)
    (rg dt n : Nat) (ver : List Nat) (hok : (calcMagicNums dn id ⟨0, 0, 0⟩).1 = true) :
    buildMasterDiscSector dn id pn ch y mo d rg dt n ver =
      some (if rg = 1 then
        fillJapan (fillCommon (fillMedia (fillBasic (fillMagic (List.replicate 2048 0)
          (calcMagicNums dn id ⟨0, 0, 0⟩).2) dn id pn ch y mo d rg dt) dt n) ver)
      else
        fillCommon (fillMedia (fillBasic (fillMagic (List.replicate 2048 0)
          (calcMagicNums dn id ⟨0, 0, 0⟩).2) dn id pn ch y mo d rg dt) dt n) ver) := by
  unfold buildMasterDiscSector
  simp only [loadLE_zero_buffer, layoutSize_master, hok, Bool.not_true, Bool.false_eq_true,
    if_false]
  split_ifs <;> rfl

/-- A failed derivation builds nothing. -/
theorem buildMasterDiscSector_fail (dn : List Nat) (id : Int) (pn ch : List Nat) (y mo d : Int)
    (rg dt n : Nat) (ver : List Nat) (hok : (calcMagicNums dn id ⟨0, 0, 0⟩).1 = false) :
    buildMasterDiscSector dn id pn ch y mo d rg dt n ver = none := by
  unfold buildMasterDiscSector
  simp only [loadLE_zero_buffer, layoutSize_master, hok, Bool.not_false, if_true]

theorem buildMasterDiscSector_length (dn : List Nat) (id : Int) (pn ch : List Nat) (y mo d : Int)
    (rg dt n : Nat) (ver rec : List Nat)
    (h : buildMasterDiscSector dn id pn ch y mo d rg dt n ver = some rec) : rec.length = 2048 := by
  by_cases hok : (calcMagicNums dn id ⟨0, 0, 0⟩).1 = true
  · rw [buildMasterDiscSector_ok _ _ _ _ _ _ _ _ _ _ _ hok] at h
    injection h with h
    subst h
    split_ifs <;>
      simp only [fillJapan_length, fillCommon_length, fillMedia_length, fillBasic_length,
        fillMagic_length, List.length_replicate]
  · rw [buildMasterDiscSector_fail _ _ _ _ _ _ _ _ _ _ _ (by simpa using hok)] at h
    exact absurd h (by simp)

/-! ## Fields of the record -/

theorem fillMedia_dvd_count (s : List Nat) (n : Nat) (hs : 138 ≤ s.length) :
    loadLE (fillMedia s DISC_DVD n) 134 4 =
      ((((n + 15) % 4294967296) / 16) * 16 % 4294967296 + 4294967296 - 1) % 4294967296 := by
  unfold fillMedia
  simp only [mds, mdsDvd, fieldOffset, MasterDiscSector_layout, media_dvd_layout, String.reduceEq,
    reduceIte, Nat.reduceAdd, DISC_DVD, DISC_CD, Nat.reduceEqDiff]
  rw [loadLE_congr _ (storeLE (storeLE (storeLE s 132 1 1) 133 1 0) 134 4
    (((((n + 15) % 4294967296) / 16) * 16 % 4294967296 + 4294967296 - 1) % 4294967296)) 134 4
    (fun i hi => by simp (disch := omega) only [storeLE_getD_out, memset_getD_out])]
  rw [loadLE_storeLE_four _ _ _ (by simp only [storeLE_length]; omega), Nat.mod_mod]

/-- The record of a successful build for DVD media holds the program's adjusted
sector count at offset 134. -/
theorem build_dvd_count (dn : List Nat) (id : Int) (pn ch : List Nat) (y mo d : Int)
    (rg n : Nat) (ver : List Nat) (hok : (calcMagicNums dn id ⟨0, 0, 0⟩).1 = true) :
    (buildMasterDiscSector dn id pn ch y mo d rg DISC_DVD n ver).map (fun rec => loadLE rec 134 4) =
      some (((((n + 15) % 4294967296) / 16) * 16 % 4294967296 + 4294967296 - 1) % 4294967296) := by
  rw [buildMasterDiscSector_ok _ _ _ _ _ _ _ _ _ _ _ hok, Option.map_some']
  refine congrArg some ?_
  rw [← fillMedia_dvd_count (fillBasic (fillMagic (List.replicate 2048 0)
    (calcMagicNums dn id ⟨0, 0, 0⟩).2) dn id pn ch y mo d rg DISC_DVD) n
    (by simp only [fillBasic_length, fillMagic_length, List.length_replicate]; omega)]
  split_ifs
  · apply loadLE_congr
    intro i hi
    rw [fillJapan_getD_out _ _ (by omega), fillCommon_getD_out _ _ _ (by omega)]
  · apply loadLE_congr
    intro i hi
    rw [fillCommon_getD_out _ _ _ (by omega)]

/-- C7: for DVD media and `1 ≤ n ≤ 2^32 - 16` total sectors, the 32-bit
little-endian field at record offset 134 (`sector_count_adjusted`) holds
`16 * ceil(n / 16) - 1`; the counts 1, 16, 17, 32 give 15, 15, 31, 31. -/
theorem dvd_sector_count_adjusted (dn : List Nat) (id : Int) (pn ch : List Nat) (y mo d : Int)
    (rg n : Nat) (ver : List Nat) (hok : (calcMagicNums dn id ⟨0, 0, 0⟩).1 = true)
    (h1 : 1 ≤ n) (h2 : n ≤ 2 ^ 32 - 16) :
    mdsDvd "sector_count_adjusted" = 134 ∧
    (buildMasterDiscSector dn id pn ch y mo d rg DISC_DVD n ver).map (fun rec => loadLE rec 134 4) =
      some (16 * ((n + 15) / 16) - 1) ∧
    (buildMasterDiscSector dn id pn ch y mo d rg DISC_DVD 1 ver).map (fun rec => loadLE rec 134 4) =
      some 15 ∧
    (buildMasterDiscSector dn id pn ch y mo d rg DISC_DVD 16 ver).map (fun rec => loadLE rec 134 4) =
      some 15 ∧
    (buildMasterDiscSector dn id pn ch y mo d rg DISC_DVD 17 ver).map (fun rec => loadLE rec 134 4) =
      some 31 ∧
    (buildMasterDiscSector dn id pn ch y mo d rg DISC_DVD 32 ver).map (fun rec => loadLE rec 134 4) =
      some 31 := by
  refine ⟨by decide, ?_, ?_, ?_, ?_, ?_⟩
  · refine (build_dvd_count _ _ _ _ _ _ _ _ _ _ hok).trans (congrArg some ?_)
    norm_num at h2
    omega
  all_goals exact (build_dvd_count _ _ _ _ _ _ _ _ _ _ hok).trans (congrArg some (by norm_num))

theorem dvd_sector_count_adjusted_witness :
    mdsDvd "sector_count_adjusted" = 134 ∧
    (buildMasterDiscSector [83, 76, 69, 83] 12345 [80, 83, 50] [83, 67, 69] 2009 10 3 2 DISC_DVD
      1000 [50, 46, 48, 48]).map (fun rec => loadLE rec 134 4) = some (16 * ((1000 + 15) / 16) - 1) ∧
    (buildMasterDiscSector [83, 76, 69, 83] 12345 [80, 83, 50] [83, 67, 69] 2009 10 3 2 DISC_DVD
      1 [50, 46, 48, 48]).map (fun rec => loadLE rec 134 4) = some 15 ∧
    (buildMasterDiscSector [83, 76, 69, 83] 12345 [80, 83, 50] [83, 67, 69] 2009 10 3 2 DISC_DVD
      16 [50, 46, 48, 48]).map (fun rec => loadLE rec 134 4) = some 15 ∧
    (buildMasterDiscSector [83, 76, 69, 83] 12345 [80, 83, 50] [83, 67, 69] 2009 10 3 2 DISC_DVD
      17 [50, 46, 48, 48]).map (fun rec => loadLE rec 134 4) = some 31 ∧
    (buildMasterDiscSector [83, 76, 69, 83] 12345 [80, 83, 50] [83, 67, 69] 2009 10 3 2 DISC_DVD
      32 [50, 46, 48, 48]).map (fun rec => loadLE rec 134 4) = some 31 :=
  dvd_sector_count_adjusted [83, 76, 69, 83] 12345 [80, 83, 50] [83, 67, 69] 2009 10 3 2 1000
    [50, 46, 48, 48] (by decide) (by decide) (by decide)

theorem int_to_bcd_digits : ∀ v, v < 100 →
    int_to_bcd ((v : Nat) : Int) = (v / 10 + 48) + (v % 10 + 48) * 256 := by
  set_option maxRecDepth 100000 in decide

theorem int_to_bcd_or : ∀ v, v < 100 →
    int_to_bcd ((v : Nat) : Int) = (v / 10 + 0x30) ||| ((v % 10 + 0x30) <<< 8) := by
  set_option maxRecDepth 100000 in decide

/-- The date fields as `fillBasic` leaves them. -/
theorem fillBasic_date_bytes (s dn : List Nat) (id : Int) (pn ch : List Nat) (y mo d : Int)
    (rg dt k : Nat) (hs : s.length = 2048) (hk1 : 96 ≤ k) (hk2 : k < 104) :
    (fillBasic s dn id pn ch y mo d rg dt).getD k 0 =
      if k < 100 then
        ((((int_to_bcd (Int.tmod y 100) <<< 16) ||| int_to_bcd (Int.tdiv y 100)) % 4294967296)
          >>> (8 * (k - 96))) % 256
      else if k < 102 then (int_to_bcd mo >>> (8 * (k - 100))) % 256
      else (int_to_bcd d >>> (8 * (k - 102))) % 256 := by
  unfold fillBasic
  simp only [mds, fieldOffset, MasterDiscSector_layout, String.reduceEq, reduceIte,
    Nat.reduceAdd]
  by_cases c1 : k < 100
  · rw [if_pos c1]
    simp (disch := (first | omega | (simp only [masterDiscText, List.length_cons, List.length_nil]; omega)))
      only [storeLE_getD_out, memcpy_getD_out]
    rw [storeLE_getD_in _ _ _ _ _ (by omega) (by omega)
      (by simp only [pad_string_length]; omega)]
  · rw [if_neg c1]
    by_cases c2 : k < 102
    · rw [if_pos c2]
      simp (disch := (first | omega | (simp only [masterDiscText, List.length_cons, List.length_nil]; omega)))
        only [storeLE_getD_out, memcpy_getD_out]
      rw [storeLE_getD_in _ _ _ _ _ (by omega) (by omega)
        (by simp only [storeLE_length, pad_string_length]; omega)]
    · rw [if_neg c2]
      simp (disch := (first | omega | (simp only [masterDiscText, List.length_cons, List.length_nil]; omega)))
        only [storeLE_getD_out, memcpy_getD_out]
      rw [storeLE_getD_in _ _ _ _ _ (by omega) (by omega)
        (by simp only [storeLE_length, pad_string_length]; omega)]

/-- A byte of the record below offset 132 (other than `reserved1`) is the byte
`fillBasic` left there. -/
theorem build_getD_basic (dn : List Nat) (id : Int) (pn ch : List Nat) (y mo d : Int)
    (rg dt n : Nat) (ver rec : List Nat) (k : Nat) (hk : k < 132) (hk2 : k ≠ 130)
    (h : buildMasterDiscSector dn id pn ch y mo d rg dt n ver = some rec) :
    rec.getD k 0 = (fillBasic (fillMagic (List.replicate 2048 0)
      (calcMagicNums dn id ⟨0, 0, 0⟩).2) dn id pn ch y mo d rg dt).getD k 0 := by
  by_cases hok : (calcMagicNums dn id ⟨0, 0, 0⟩).1 = true
  · rw [buildMasterDiscSector_ok _ _ _ _ _ _ _ _ _ _ _ hok] at h
    injection h with h
    subst h
    split_ifs
    · rw [fillJapan_getD_out _ _ (by omega), fillCommon_getD_out _ _ _ (by omega),
        fillMedia_getD_out _ _ _ _ (by omega)]
    · rw [fillCommon_getD_out _ _ _ (by omega), fillMedia_getD_out _ _ _ _ (by omega)]
  · rw [buildMasterDiscSector_fail _ _ _ _ _ _ _ _ _ _ _ (by simpa using hok)] at h
    exact absurd h (by simp)

theorem take_drop_eight (l : List Nat) (p a0 a1 a2 a3 a4 a5 a6 a7 : Nat) (hl : p + 8 ≤ l.length)
    (h0 : l.getD (p + 0) 0 = a0) (h1 : l.getD (p + 1) 0 = a1) (h2 : l.getD (p + 2) 0 = a2)
    (h3 : l.getD (p + 3) 0 = a3) (h4 : l.getD (p + 4) 0 = a4) (h5 : l.getD (p + 5) 0 = a5)
    (h6 : l.getD (p + 6) 0 = a6) (h7 : l.getD (p + 7) 0 = a7) :
    (l.drop p).take 8 = [a0, a1, a2, a3, a4, a5, a6, a7] := by
  apply ext_getD
  · simp only [List.length_take, List.length_drop, List.length_cons, List.length_nil]; omega
  · intro k hk
    have hk' : k < 8 := by
      simp only [List.length_take, List.length_drop] at hk; omega
    rw [getD_take_drop _ _ _ _ hk']
    interval_cases k
    · exact h0
    · exact h1
    · exact h2
    · exact h3
    · exact h4
    · exact h5
    · exact h6
    · exact h7

/-- C8: for a year in 0..9999 and month, day in 0..99 the record bytes 96..103
are the ASCII digits of century, year within the century, month and day, tens
digit first (2009-10-03 gives "20091003"), and `int_to_bcd v` for `v ≤ 99` is
`(v/10 + '0') | ((v%10 + '0') << 8)`. -/
theorem date_fields_ascii_digits (dn : List Nat) (id : Int) (pn ch : List Nat) (Y M D : Nat)
    (rg dt n : Nat) (ver : List Nat) (hok : (calcMagicNums dn id ⟨0, 0, 0⟩).1 = true)
    (hY : Y ≤ 9999) (hM : M ≤ 99) (hD : D ≤ 99) :
    (buildMasterDiscSector dn id pn ch (Y : Int) (M : Int) (D : Int) rg dt n ver).map
        (fun rec => (rec.drop 96).take 8) =
      some [(Y / 100) / 10 + 48, (Y / 100) % 10 + 48, (Y % 100) / 10 + 48, (Y % 100) % 10 + 48,
        M / 10 + 48, M % 10 + 48, D / 10 + 48, D % 10 + 48] ∧
    (buildMasterDiscSector dn id pn ch 2009 10 3 rg dt n ver).map
        (fun rec => (rec.drop 96).take 8) = some [50, 48, 48, 57, 49, 48, 48, 51] ∧
    (∀ v : Nat, v ≤ 99 → int_to_bcd (v : Int) = (v / 10 + 0x30) ||| ((v % 10 + 0x30) <<< 8)) := by
  have key : ∀ Y M D : Nat, Y ≤ 9999 → M ≤ 99 → D ≤ 99 →
      (buildMasterDiscSector dn id pn ch (Y : Int) (M : Int) (D : Int) rg dt n ver).map
        (fun rec => (rec.drop 96).take 8) =
      some [(Y / 100) / 10 + 48, (Y / 100) % 10 + 48, (Y % 100) / 10 + 48, (Y % 100) % 10 + 48,
        M / 10 + 48, M % 10 + 48, D / 10 + 48, D % 10 + 48] := by
    intro Y M D hY hM hD
    obtain ⟨rec, hrec⟩ : ∃ rec, buildMasterDiscSector dn id pn ch (Y : Int) (M : Int) (D : Int)
        rg dt n ver = some rec := ⟨_, buildMasterDiscSector_ok _ _ _ _ _ _ _ _ _ _ _ hok⟩
    have hlen := buildMasterDiscSector_length _ _ _ _ _ _ _ _ _ _ _ _ hrec
    have hb : ∀ k, 96 ≤ k → k < 104 → rec.getD k 0 = _ := fun k h1 h2 =>
      (build_getD_basic _ _ _ _ _ _ _ _ _ _ _ _ k (by omega) (by omega) hrec).trans
        (fillBasic_date_bytes _ _ _ _ _ _ _ _ _ _ k
          (by simp only [fillMagic_length, List.length_replicate]) h1 h2)
    have e1 : Int.tmod (Y : Int) 100 = ((Y % 100 : Nat) : Int) := rfl
    have e2 : Int.tdiv (Y : Int) 100 = ((Y / 100 : Nat) : Int) := rfl
    have b1 := int_to_bcd_digits (Y % 100) (by omega)
    have b2 := int_to_bcd_digits (Y / 100) (by omega)
    have b3 := int_to_bcd_digits M (by omega)
    have b4 := int_to_bcd_digits D (by omega)
    have hor : (int_to_bcd ((Y % 100 : Nat) : Int) <<< 16) ||| int_to_bcd ((Y / 100 : Nat) : Int) =
        2 ^ 16 * int_to_bcd ((Y % 100 : Nat) : Int) + int_to_bcd ((Y / 100 : Nat) : Int) := by
      rw [Nat.mul_add_lt_is_or (by rw [b2]; norm_num; omega), Nat.shiftLeft_eq, Nat.mul_comm]
    rw [b1, b2] at hor
    rw [hrec, Option.map_some']
    refine congrArg some (take_drop_eight rec 96 _ _ _ _ _ _ _ _ (by omega) ?_ ?_ ?_ ?_ ?_ ?_ ?_ ?_)
    all_goals
      rw [hb _ (by omega) (by omega)]
      simp only [e1, e2, b1, b2, b3, b4, hor, Nat.reduceAdd, Nat.reduceLT, Nat.reduceSub,
        Nat.reduceMul, if_true, if_false, Nat.shiftRight_eq_div_pow, Nat.reducePow]
      clear e1 e2 b1 b2 b3 b4 hor hb hlen hrec
      have hA : Y % 100 / 10 ≤ 9 := by omega
      have hB : Y % 100 % 10 ≤ 9 := by omega
      have hC : Y / 100 / 10 ≤ 9 := by omega
      have hE : Y / 100 % 10 ≤ 9 := by omega
      have hF : M / 10 ≤ 9 := by omega
      have hG : M % 10 ≤ 9 := by omega
      have hH : D / 10 ≤ 9 := by omega
      have hI : D % 10 ≤ 9 := by omega
      generalize Y % 100 / 10 = A at hA ⊢
      generalize Y % 100 % 10 = B at hB ⊢
      generalize Y / 100 / 10 = C at hC ⊢
      generalize Y / 100 % 10 = E at hE ⊢
      generalize M / 10 = F at hF ⊢
      generalize M % 10 = G at hG ⊢
      generalize D / 10 = H at hH ⊢
      generalize D % 10 = I at hI ⊢
      omega
  refine ⟨key Y M D hY hM hD, ?_, fun v hv => int_to_bcd_or v (by omega)⟩
  have := key 2009 10 3 (by norm_num) (by norm_num) (by norm_num)
  simpa using this

theorem date_fields_ascii_digits_witness :
    (buildMasterDiscSector [83, 76, 69, 83] 12345 [80, 83, 50] [83, 67, 69]
        ((1999 : Nat) : Int) ((12 : Nat) : Int) ((31 : Nat) : Int) 2 1 1000 [50, 46, 48, 48]).map
        (fun rec => (rec.drop 96).take 8) =
      some [(1999 / 100) / 10 + 48, (1999 / 100) % 10 + 48, (1999 % 100) / 10 + 48,
        (1999 % 100) % 10 + 48, 12 / 10 + 48, 12 % 10 + 48, 31 / 10 + 48, 31 % 10 + 48] ∧
    (buildMasterDiscSector [83, 76, 69, 83] 12345 [80, 83, 50] [83, 67, 69] 2009 10 3 2 1 1000
        [50, 46, 48, 48]).map
        (fun rec => (rec.drop 96).take 8) = some [50, 48, 48, 57, 49, 48, 48, 51] ∧
    (∀ v : Nat, v ≤ 99 → int_to_bcd (v : Int) = (v / 10 + 0x30) ||| ((v % 10 + 0x30) <<< 8)) :=
  date_fields_ascii_digits [83, 76, 69, 83] 12345 [80, 83, 50] [83, 67, 69] 1999 12 31 2 1 1000
    [50, 46, 48, 48] (by decide) (by decide) (by decide) (by decide)

theorem take_drop_congr (a b : List Nat) (p n : Nat) (ha : p + n ≤ a.length)
    (hb : p + n ≤ b.length) (h : ∀ i, i < n → a.getD (p + i) 0 = b.getD (p + i) 0) :
    (a.drop p).take n = (b.drop p).take n := by
  apply ext_getD
  · simp only [List.length_take, List.length_drop]; omega
  · intro k hk
    have hk' : k < n := by
      simp only [List.length_take, List.length_drop] at hk; omega
    rw [getD_take_drop _ _ _ _ hk', getD_take_drop _ _ _ _ hk', h k hk']

theorem spacePadded_ne_zero (src : List Nat) (n : Nat) : ∀ c ∈ spacePadded src n, c ≠ 0 := by
  intro c hc
  unfold spacePadded at hc
  rcases List.mem_append.mp hc with h | h
  · have h2 : c ∈ cstr src := List.mem_of_mem_take h
    unfold cstr at h2
    have := List.mem_takeWhile_imp h2
    simpa using this
  · rw [List.eq_of_mem_replicate h]
    decide

/-- The three name fields as `fillBasic` leaves them. -/
theorem fillBasic_names (s dn : List Nat) (id : Int) (pn ch : List Nat) (y mo d : Int)
    (rg dt : Nat) (hs : s.length = 2048) :
    ((fillBasic s dn id pn ch y mo d rg dt).drop 0).take 32 =
      spacePadded (snprintf 16 (cstr dn ++ [45] ++ fmt05d id)) 32 ∧
    ((fillBasic s dn id pn ch y mo d rg dt).drop 32).take 32 = spacePadded pn 32 ∧
    ((fillBasic s dn id pn ch y mo d rg dt).drop 64).take 32 = spacePadded ch 32 := by
  refine ⟨?_, ?_, ?_⟩
  · rw [← pad_string_field s 0 (snprintf 16 (cstr dn ++ [45] ++ fmt05d id)) 32 (by omega)]
    apply take_drop_congr _ _ _ _ (by rw [fillBasic_length]; omega)
      (by rw [pad_string_length]; omega)
    intro i hi
    unfold fillBasic
    simp only [mds, fieldOffset, MasterDiscSector_layout, String.reduceEq, reduceIte,
      Nat.reduceAdd]
    simp (disch := (first | omega | (simp only [masterDiscText, List.length_cons, List.length_nil]; omega)))
      only [storeLE_getD_out, memcpy_getD_out, pad_string_getD_out]
  · rw [← pad_string_field (pad_string s 0 (snprintf 16 (cstr dn ++ [45] ++ fmt05d id)) 32)
      32 pn 32 (by rw [pad_string_length]; omega)]
    apply take_drop_congr _ _ _ _ (by rw [fillBasic_length]; omega)
      (by simp only [pad_string_length]; omega)
    intro i hi
    unfold fillBasic
    simp only [mds, fieldOffset, MasterDiscSector_layout, String.reduceEq, reduceIte,
      Nat.reduceAdd]
    simp (disch := (first | omega | (simp only [masterDiscText, List.length_cons, List.length_nil]; omega)))
      only [storeLE_getD_out, memcpy_getD_out, pad_string_getD_out]
  · rw [← pad_string_field (pad_string (pad_string s 0
      (snprintf 16 (cstr dn ++ [45] ++ fmt05d id)) 32) 32 pn 32)
      64 ch 32 (by simp only [pad_string_length]; omega)]
    apply take_drop_congr _ _ _ _ (by rw [fillBasic_length]; omega)
      (by simp only [pad_string_length]; omega)
    intro i hi
    unfold fillBasic
    simp only [mds, fieldOffset, MasterDiscSector_layout, String.reduceEq, reduceIte,
      Nat.reduceAdd]
    simp (disch := (first | omega | (simp only [masterDiscText, List.length_cons, List.length_nil]; omega)))
      only [storeLE_getD_out, memcpy_getD_out, pad_string_getD_out]

/-- C9: `pad_string` fills the field `dest[0..n)` with the first
`min (strlen src) n` characters of `src` followed by spaces, no byte of the
field is NUL, and the disc-name, producer and copyright fields of a built
record (offsets 0, 32, 64, width 32) are such fields. -/
theorem pad_string_space_padded (buf : List Nat) (dest : Nat) (src : List Nat) (n : Nat)
    (dn : List Nat) (id : Int) (pn ch : List Nat) (y mo d : Int) (rg dt ns : Nat) (ver : List Nat)
    (h : dest + n ≤ buf.length) (hok : (calcMagicNums dn id ⟨0, 0, 0⟩).1 = true) :
    ((pad_string buf dest src n).drop dest).take n = spacePadded src n ∧
    (∀ c ∈ ((pad_string buf dest src n).drop dest).take n, c ≠ 0) ∧
    (buildMasterDiscSector dn id pn ch y mo d rg dt ns ver).map
      (fun rec => ((rec.drop 0).take 32, (rec.drop 32).take 32, (rec.drop 64).take 32)) =
      some (spacePadded (snprintf 16 (cstr dn ++ [45] ++ fmt05d id)) 32, spacePadded pn 32,
        spacePadded ch 32) := by
  have h1 : ((pad_string buf dest src n).drop dest).take n = spacePadded src n :=
    pad_string_field buf dest src n h
  refine ⟨h1, ?_, ?_⟩
  · rw [h1]
    exact spacePadded_ne_zero src n
  · obtain ⟨rec, hrec⟩ : ∃ rec, buildMasterDiscSector dn id pn ch y mo d rg dt ns ver = some rec :=
      ⟨_, buildMasterDiscSector_ok _ _ _ _ _ _ _ _ _ _ _ hok⟩
    have hlen := buildMasterDiscSector_length _ _ _ _ _ _ _ _ _ _ _ _ hrec
    have hb : ∀ k, k < 96 → rec.getD k 0 = _ := fun k h1 =>
      build_getD_basic _ _ _ _ _ _ _ _ _ _ _ _ k (by omega) (by omega) hrec
    have hf := fillBasic_names (fillMagic (List.replicate 2048 0)
      (calcMagicNums dn id ⟨0, 0, 0⟩).2) dn id pn ch y mo d rg dt
      (by simp only [fillMagic_length, List.length_replicate])
    have hfl : (fillBasic (fillMagic (List.replicate 2048 0)
      (calcMagicNums dn id ⟨0, 0, 0⟩).2) dn id pn ch y mo d rg dt).length = 2048 := by
      simp only [fillBasic_length, fillMagic_length, List.length_replicate]
    rw [hrec, Option.map_some', ← hf.1, ← hf.2.1, ← hf.2.2]
    refine congrArg some ?_
    rw [take_drop_congr rec _ 0 32 (by omega) (by omega) (fun i hi => hb _ (by omega)),
      take_drop_congr rec _ 32 32 (by omega) (by omega) (fun i hi => hb _ (by omega)),
      take_drop_congr rec _ 64 32 (by omega) (by omega) (fun i hi => hb _ (by omega))]

theorem pad_string_space_padded_witness :
    ((pad_string (List.replicate 40 0) 4 [80, 83, 50] 32).drop 4).take 32 =
      spacePadded [80, 83, 50] 32 ∧
    (∀ c ∈ ((pad_string (List.replicate 40 0) 4 [80, 83, 50] 32).drop 4).take 32, c ≠ 0) ∧
    (buildMasterDiscSector [83, 76, 69, 83] 12345 [80, 83, 50] [83, 67, 69] 2009 10 3 2 1 1000
        [50, 46, 48, 48]).map
      (fun rec => ((rec.drop 0).take 32, (rec.drop 32).take 32, (rec.drop 64).take 32)) =
      some (spacePadded (snprintf 16 (cstr [83, 76, 69, 83] ++ [45] ++ fmt05d 12345)) 32,
        spacePadded [80, 83, 50] 32, spacePadded [83, 67, 69] 32) :=
  pad_string_space_padded (List.replicate 40 0) 4 [80, 83, 50] 32 [83, 76, 69, 83] 12345
    [80, 83, 50] [83, 67, 69] 2009 10 3 2 1 1000 [50, 46, 48, 48] (by decide) (by decide)

/-! ## Writing the record to the image -/

theorem getD_append_zeros (d : List Nat) (m k : Nat) :
    (d ++ List.replicate m 0).getD k 0 = d.getD k 0 := by
  simp only [List.getD_eq_getElem?_getD]
  by_cases c : k < d.length
  · rw [List.getElem?_append_left c]
  · rw [List.getElem?_append_right (by omega), List.getElem?_eq_none (l := d) (by omega),
      List.getElem?_replicate]
    split <;> rfl

/-- The effect of a write on a stream that accepts writes. -/
theorem fwrite_ok (f : FILE) (bytes : List Nat) (hw : f.writable = true) :
    (fwrite f bytes).1 = bytes.length ∧ (fwrite f bytes).2.pos = f.pos + bytes.length ∧
    (fwrite f bytes).2.writable = true ∧
    (fwrite f bytes).2.data.length = max f.data.length (f.pos + bytes.length) ∧
    (∀ k, (fwrite f bytes).2.data.getD k 0 =
      if k < f.pos then f.data.getD k 0
      else if k < f.pos + bytes.length then bytes.getD (k - f.pos) 0 else f.data.getD k 0) := by
  unfold fwrite
  simp only [hw, Bool.not_true, Bool.false_eq_true, if_false]
  refine ⟨trivial, trivial, trivial, ?_, fun k => ?_⟩
  · simp only [List.length_append, List.length_take, List.length_drop, List.length_replicate]
    omega
  · rw [getD_splice _ _ _ _ (by simp only [List.length_append, List.length_replicate]; omega)]
    simp only [getD_append_zeros]

theorem fwrite_fail (f : FILE) (bytes : List Nat) (hw : f.writable = false) :
    fwrite f bytes = (0, f) := by
  unfold fwrite
  simp [hw]

theorem fix_start (f : FILE) (i : Nat) :
    (fseek f ((14 + (i : Int)) * 2352) Whence.SEEK_SET).pos = (14 + i) * 2352 := by
  have e : ((14 + (i : Int)) * 2352) = (((14 + i) * 2352 : Nat) : Int) := by push_cast; rfl
  rw [e, fseek_set_nat]

/-- Whatever its outcome, a call of `fixMode2Form1Sector` keeps the length of the
file and every byte outside the sync, checksum and parity fields of the sector
it was pointed at. -/
theorem fixMode2Form1Sector_preserves (E : Nat → Nat) (R : Nat → Nat → Nat) (f : FILE)
    (idx : Int) :
    (fixMode2Form1Sector E R f idx).2.writable = f.writable ∧
    (fixMode2Form1Sector E R f idx).2.data.length = f.data.length ∧
    ∀ k, (k < (fseek f (idx * 2352) Whence.SEEK_SET).pos ∨
        (fseek f (idx * 2352) Whence.SEEK_SET).pos + 2352 ≤ k ∨
        ((fseek f (idx * 2352) Whence.SEEK_SET).pos + 12 ≤ k ∧
          k < (fseek f (idx * 2352) Whence.SEEK_SET).pos + 2072)) →
      (fixMode2Form1Sector E R f idx).2.data.getD k 0 = f.data.getD k 0 := by
  by_cases h : (fixMode2Form1Sector E R f idx).1 = true
  · obtain ⟨h1, h2, h3⟩ := accepted_sector_frame E R f idx h
    refine ⟨?_, h1, fun k hk => ?_⟩
    · rw [fixMode2Form1Sector_eq]
      split_ifs <;> rfl
    · rcases hk with hk | hk | hk
      · exact h2 k (Or.inl hk)
      · exact h2 k (Or.inr hk)
      · have := h3 (k - (fseek f (idx * 2352) Whence.SEEK_SET).pos) (by omega) (by omega)
        rw [Nat.add_sub_cancel' (by omega)] at this
        exact this
  · have hd : (fixMode2Form1Sector E R f idx).2.data = f.data ∧
        (fixMode2Form1Sector E R f idx).2.writable = f.writable := by
      rw [fixMode2Form1Sector_eq] at h ⊢
      split_ifs at h ⊢ <;> first | exact ⟨rfl, rfl⟩ | exact absurd rfl h
    exact ⟨hd.2, by rw [hd.1], fun k _ => by rw [hd.1]⟩

/-- On a writable stream holding the whole sector, the call leaves the stream at
the start of the next sector, whether it accepts the sector or not. -/
theorem fixMode2Form1Sector_pos (E : Nat → Nat) (R : Nat → Nat → Nat) (f : FILE) (idx : Int)
    (hw : f.writable = true)
    (hfull : (fseek f (idx * 2352) Whence.SEEK_SET).pos + 2352 ≤ f.data.length) :
    (fixMode2Form1Sector E R f idx).2.pos = (fseek f (idx * 2352) Whence.SEEK_SET).pos + 2352 := by
  rw [fixMode2Form1Sector_eq]
  have hl : ((f.data.drop (fseek f (idx * 2352) Whence.SEEK_SET).pos).take 2352).length = 2352 := by
    rw [List.length_take, List.length_drop]; omega
  rw [if_neg (not_not.mpr hl)]
  split_ifs with c2 c3 c4
  · rfl
  · rfl
  · rw [hw] at c4; exact absurd c4 (by simp)
  · rfl

/-- On an image that ends inside the sector, the call fails and leaves the
stream at the end of the image. -/
theorem fixMode2Form1Sector_short (E : Nat → Nat) (R : Nat → Nat → Nat) (f : FILE) (idx : Int)
    (h1 : (fseek f (idx * 2352) Whence.SEEK_SET).pos ≤ f.data.length)
    (h2 : f.data.length < (fseek f (idx * 2352) Whence.SEEK_SET).pos + 2352) :
    fixMode2Form1Sector E R f idx = (false, { f with pos := f.data.length }) := by
  rw [fixMode2Form1Sector_eq]
  have hl : ((f.data.drop (fseek f (idx * 2352) Whence.SEEK_SET).pos).take 2352).length =
      f.data.length - (fseek f (idx * 2352) Whence.SEEK_SET).pos := by
    rw [List.length_take, List.length_drop]; omega
  rw [if_pos (by rw [hl]; omega), hl]
  congr 2
  omega

theorem writeCopy_returned (E : Nat → Nat) (R : Nat → Nat → Nat) (dt : Nat) (rec : List Nat)
    (i : Nat) (r : Int) (f : FILE) :
    writeCopy E R dt rec i (some r, f) = (some r, f) := rfl

theorem writeCopy_unwritable (E : Nat → Nat) (R : Nat → Nat → Nat) (dt : Nat) (rec : List Nat)
    (i : Nat) (f : FILE) (hw : f.writable = false) :
    (writeCopy E R dt rec i (none, f)).1 = some (-1) := by
  unfold writeCopy
  have hw' : (if dt = DISC_CD then fseek f 0x18 Whence.SEEK_CUR else f).writable = false := by
    split_ifs
    · rw [(fseek_data _ _ _).2, hw]
    · exact hw
  simp only [fwrite_fail _ _ hw', layoutSize_master]
  rfl

theorem writeCopy_cd (E : Nat → Nat) (R : Nat → Nat → Nat) (rec : List Nat) (i : Nat) (f : FILE)
    (hrec : rec.length = 2048) (hw : f.writable = true) :
    writeCopy E R DISC_CD rec i (none, f) =
      (none, (fixMode2Form1Sector E R
        (fwrite { f with pos := f.pos + 24 } rec).2 (14 + (i : Int))).2) := by
  unfold writeCopy
  have hs : fseek f 0x18 Whence.SEEK_CUR = { f with pos := f.pos + 24 } := fseek_cur_fwd f 24
  simp only [if_true, hs, layoutSize_master, List.take_of_length_le (le_of_eq hrec)]
  rw [(fwrite_ok { f with pos := f.pos + 24 } rec hw).1, hrec]
  rfl

theorem writeCopy_other (E : Nat → Nat) (R : Nat → Nat → Nat) (dt : Nat) (rec : List Nat)
    (i : Nat) (f : FILE) (hdt : dt ≠ DISC_CD) (hrec : rec.length = 2048)
    (hw : f.writable = true) :
    writeCopy E R dt rec i (none, f) = (none, (fwrite f rec).2) := by
  unfold writeCopy
  simp only [if_neg hdt, layoutSize_master, List.take_of_length_le (le_of_eq hrec)]
  rw [(fwrite_ok _ rec hw).1, hrec]
  rfl

/-- The result of `write_master_disc_sector` in terms of the record built. -/
theorem write_master_disc_sector_eq (E : Nat → Nat) (R : Nat → Nat → Nat) (f : FILE)
    (dn : List Nat) (id : Int) (pn ch : List Nat) (y mo d : Int) (rg dt n : Nat) (ver : List Nat) :
    write_master_disc_sector E R (some f) dn id pn ch y mo d rg dt n ver =
      match buildMasterDiscSector dn id pn ch y mo d (rg % 256) (dt % 256) (n % 4294967296) ver with
      | none => (-1, some f)
      | some rec =>
        match (writeCopy E R (dt % 256) rec 1 (writeCopy E R (dt % 256) rec 0 (none, f))).1 with
        | some r => (r, some (writeCopy E R (dt % 256) rec 1
            (writeCopy E R (dt % 256) rec 0 (none, f))).2)
        | none => (0, some (writeCopy E R (dt % 256) rec 1
            (writeCopy E R (dt % 256) rec 0 (none, f))).2) := rfl

/-- A return value 0 means the record was built and the stream accepts writes. -/
theorem write_master_zero (E : Nat → Nat) (R : Nat → Nat → Nat) (f : FILE)
    (dn : List Nat) (id : Int) (pn ch : List Nat) (y mo d : Int) (rg dt n : Nat) (ver : List Nat)
    (h : (write_master_disc_sector E R (some f) dn id pn ch y mo d rg dt n ver).1 = 0) :
    f.writable = true ∧
    ∃ rec, buildMasterDiscSector dn id pn ch y mo d (rg % 256) (dt % 256) (n % 4294967296) ver =
      some rec := by
  rw [write_master_disc_sector_eq] at h
  cases hb : buildMasterDiscSector dn id pn ch y mo d (rg % 256) (dt % 256) (n % 4294967296) ver with
  | none =>
    rw [hb] at h
    simp at h
  | some rec =>
    refine ⟨?_, rec, rfl⟩
    rw [hb] at h
    by_contra hw
    have hw' : f.writable = false := by simpa using hw
    have h0 := writeCopy_unwritable E R (dt % 256) rec 0 f hw'
    have h1 : (writeCopy E R (dt % 256) rec 1 (writeCopy E R (dt % 256) rec 0 (none, f))).1 =
        some (-1) := by
      have e : writeCopy E R (dt % 256) rec 0 (none, f) =
          (some (-1), (writeCopy E R (dt % 256) rec 0 (none, f)).2) := Prod.ext h0 rfl
      rw [e, writeCopy_returned]
    simp only [h1] at h
    simp at h

theorem take_drop_eq_of_getD (l rec : List Nat) (p : Nat) (hl : p + rec.length ≤ l.length)
    (h : ∀ i, i < rec.length → l.getD (p + i) 0 = rec.getD i 0) :
    (l.drop p).take rec.length = rec := by
  apply ext_getD
  · simp only [List.length_take, List.length_drop]; omega
  · intro k hk
    have hk' : k < rec.length := by
      simp only [List.length_take, List.length_drop] at hk; omega
    rw [getD_take_drop _ _ _ _ hk', h k hk']

/-- Without the CD framing the two copies are written back to back from the
position of the stream. -/
theorem written_twice_plain (E : Nat → Nat) (R : Nat → Nat → Nat) (f : FILE) (rec : List Nat)
    (dt : Nat) (hdt : dt ≠ DISC_CD) (hrec : rec.length = 2048) (hw : f.writable = true) :
    (writeCopy E R dt rec 1 (writeCopy E R dt rec 0 (none, f))).1 = none ∧
    ((writeCopy E R dt rec 1 (writeCopy E R dt rec 0 (none, f))).2.data.drop f.pos).take 2048 = rec ∧
    ((writeCopy E R dt rec 1 (writeCopy E R dt rec 0 (none, f))).2.data.drop
      (f.pos + 2048)).take 2048 = rec := by
  obtain ⟨-, p1, w1, l1, g1⟩ := fwrite_ok f rec hw
  obtain ⟨-, -, -, l2, g2⟩ := fwrite_ok (fwrite f rec).2 rec w1
  rw [writeCopy_other E R dt rec 0 f hdt hrec hw,
    writeCopy_other E R dt rec 1 (fwrite f rec).2 hdt hrec w1]
  rw [p1, hrec] at l2 g2
  rw [hrec] at l1 g1
  refine ⟨rfl, ?_, ?_⟩
  · have := take_drop_eq_of_getD (fwrite (fwrite f rec).2 rec).2.data rec f.pos
      (by rw [l2, l1, hrec]; omega)
      (fun i hi => by
        rw [hrec] at hi
        rw [g2, if_pos (by omega), g1, if_neg (by omega), if_pos (by omega),
          Nat.add_sub_cancel_left])
    rw [hrec] at this
    exact this
  · have := take_drop_eq_of_getD (fwrite (fwrite f rec).2 rec).2.data rec (f.pos + 2048)
      (by rw [l2, l1, hrec]; omega)
      (fun i hi => by
        rw [hrec] at hi
        rw [g2, if_neg (by omega), if_pos (by omega), Nat.add_sub_cancel_left])
    rw [hrec] at this
    exact this

/-- On a CD image that holds sector 14 completely, with the stream at the start of
sector 14, the two copies land in the user-data areas of sectors 14 and 15. -/
theorem written_twice_cd (E : Nat → Nat) (R : Nat → Nat → Nat) (f : FILE) (rec : List Nat)
    (hrec : rec.length = 2048) (hw : f.writable = true) (hp : f.pos = 14 * 2352)
    (hlen : 15 * 2352 ≤ f.data.length) :
    (writeCopy E R DISC_CD rec 1 (writeCopy E R DISC_CD rec 0 (none, f))).1 = none ∧
    ((writeCopy E R DISC_CD rec 1 (writeCopy E R DISC_CD rec 0 (none, f))).2.data.drop
      (14 * 2352 + 24)).take 2048 = rec ∧
    ((writeCopy E R DISC_CD rec 1 (writeCopy E R DISC_CD rec 0 (none, f))).2.data.drop
      (15 * 2352 + 24)).take 2048 = rec := by
  obtain ⟨d, p, w⟩ := f
  simp only at hw hp hlen
  subst hp hw
  -- first copy
  have e1 : writeCopy E R DISC_CD rec 0 (none, ⟨d, 14 * 2352, true⟩) =
      (none, (fixMode2Form1Sector E R (fwrite ⟨d, 14 * 2352 + 24, true⟩ rec).2
        (14 + ((0 : Nat) : Int))).2) := writeCopy_cd E R rec 0 _ hrec rfl
  obtain ⟨-, p1, w1, l1, g1⟩ := fwrite_ok ⟨d, 14 * 2352 + 24, true⟩ rec rfl
  simp only [hrec] at p1 l1 g1
  have s1 := fix_start (fwrite ⟨d, 14 * 2352 + 24, true⟩ rec).2 0
  obtain ⟨xw1, xl1, xg1⟩ := fixMode2Form1Sector_preserves E R
    (fwrite ⟨d, 14 * 2352 + 24, true⟩ rec).2 (14 + ((0 : Nat) : Int))
  have xp1 := fixMode2Form1Sector_pos E R (fwrite ⟨d, 14 * 2352 + 24, true⟩ rec).2
    (14 + ((0 : Nat) : Int)) w1 (by rw [s1, l1]; omega)
  rw [s1] at xp1 xg1
  rw [w1] at xw1
  rw [l1] at xl1
  rw [e1]
  -- second copy
  generalize (fixMode2Form1Sector E R (fwrite ⟨d, 14 * 2352 + 24, true⟩ rec).2
    (14 + ((0 : Nat) : Int))).2 = x1 at xw1 xl1 xg1 xp1 ⊢
  obtain ⟨xd, xp, xw⟩ := x1
  simp only at xw1 xl1 xg1 xp1
  subst xp1 xw1
  have e2 : writeCopy E R DISC_CD rec 1 (none, ⟨xd, (14 + 0) * 2352 + 2352, true⟩) =
      (none, (fixMode2Form1Sector E R (fwrite ⟨xd, (14 + 0) * 2352 + 2352 + 24, true⟩ rec).2
        (14 + ((1 : Nat) : Int))).2) := writeCopy_cd E R rec 1 _ hrec rfl
  obtain ⟨-, p2, w2, l2, g2⟩ := fwrite_ok ⟨xd, (14 + 0) * 2352 + 2352 + 24, true⟩ rec rfl
  simp only [hrec, xl1] at p2 l2 g2
  have s2 := fix_start (fwrite ⟨xd, (14 + 0) * 2352 + 2352 + 24, true⟩ rec).2 1
  obtain ⟨-, yl, yg⟩ := fixMode2Form1Sector_preserves E R
    (fwrite ⟨xd, (14 + 0) * 2352 + 2352 + 24, true⟩ rec).2 (14 + ((1 : Nat) : Int))
  rw [s2] at yg
  rw [l2] at yl
  rw [e2]
  refine ⟨rfl, ?_, ?_⟩
  · have := take_drop_eq_of_getD (fixMode2Form1Sector E R
      (fwrite ⟨xd, (14 + 0) * 2352 + 2352 + 24, true⟩ rec).2 (14 + ((1 : Nat) : Int))).2.data rec
      (14 * 2352 + 24) (by rw [yl, hrec]; omega)
      (fun i hi => by
        rw [hrec] at hi
        rw [yg _ (by omega), g2, if_pos (by omega), xg1 _ (by omega), g1, if_neg (by omega),
          if_pos (by omega), Nat.add_sub_cancel_left])
    rw [hrec] at this
    exact this
  · have := take_drop_eq_of_getD (fixMode2Form1Sector E R
      (fwrite ⟨xd, (14 + 0) * 2352 + 2352 + 24, true⟩ rec).2 (14 + ((1 : Nat) : Int))).2.data rec
      (15 * 2352 + 24) (by rw [yl, hrec]; omega)
      (fun i hi => by
        rw [hrec] at hi
        have e : 15 * 2352 + 24 + i - ((14 + 0) * 2352 + 2352 + 24) = i := by omega
        rw [yg _ (by omega), g2, if_neg (by omega), if_pos (by omega), e])
    rw [hrec] at this
    exact this

/-- On a stream that accepts writes, one pass of the loop does not return and
leaves a stream that accepts writes. -/
theorem writeCopy_ok (E : Nat → Nat) (R : Nat → Nat → Nat) (dt : Nat) (rec : List Nat) (i : Nat)
    (f : FILE) (hrec : rec.length = 2048) (hw : f.writable = true) :
    (writeCopy E R dt rec i (none, f)).1 = none ∧
    (writeCopy E R dt rec i (none, f)).2.writable = true := by
  by_cases hdt : dt = DISC_CD
  · subst hdt
    rw [writeCopy_cd E R rec i f hrec hw]
    refine ⟨rfl, ?_⟩
    rw [(fixMode2Form1Sector_preserves E R _ _).1]
    exact (fwrite_ok { f with pos := f.pos + 24 } rec hw).2.2.1
  · rw [writeCopy_other E R dt rec i f hdt hrec hw]
    exact ⟨rfl, (fwrite_ok f rec hw).2.2.1⟩

/-- With a valid product code and a stream that accepts writes the function returns 0. -/
theorem write_master_returns_zero (E : Nat → Nat) (R : Nat → Nat → Nat) (f : FILE)
    (dn : List Nat) (id : Int) (pn ch : List Nat) (y mo d : Int) (rg dt n : Nat) (ver : List Nat)
    (hok : (calcMagicNums dn id ⟨0, 0, 0⟩).1 = true) (hw : f.writable = true) :
    (write_master_disc_sector E R (some f) dn id pn ch y mo d rg dt n ver).1 = 0 := by
  rw [write_master_disc_sector_eq]
  obtain ⟨rec, hrec⟩ : ∃ rec, buildMasterDiscSector dn id pn ch y mo d (rg % 256) (dt % 256)
      (n % 4294967296) ver = some rec := ⟨_, buildMasterDiscSector_ok _ _ _ _ _ _ _ _ _ _ _ hok⟩
  have hlen := buildMasterDiscSector_length _ _ _ _ _ _ _ _ _ _ _ _ hrec
  rw [hrec]
  obtain ⟨a1, a2⟩ := writeCopy_ok E R (dt % 256) rec 0 f hlen hw
  have e : writeCopy E R (dt % 256) rec 0 (none, f) =
      (none, (writeCopy E R (dt % 256) rec 0 (none, f)).2) := Prod.ext a1 rfl
  have b1 : (writeCopy E R (dt % 256) rec 1 (writeCopy E R (dt % 256) rec 0 (none, f))).1 = none := by
    rw [e]
    exact (writeCopy_ok E R (dt % 256) rec 1 _ hlen a2).1
  simp only [b1]

/-- On a CD image of exactly 14 sectors, with the stream at the start of sector
14, both passes end on a short read and the image ends at byte 37072. -/
theorem written_twice_short_cd (E : Nat → Nat) (R : Nat → Nat → Nat) (d rec : List Nat)
    (hd : d.length = 14 * 2352) (hrec : rec.length = 2048) :
    (writeCopy E R DISC_CD rec 1
      (writeCopy E R DISC_CD rec 0 (none, ⟨d, 14 * 2352, true⟩))).2.data.length = 37072 := by
  have e1 : writeCopy E R DISC_CD rec 0 (none, ⟨d, 14 * 2352, true⟩) =
      (none, (fixMode2Form1Sector E R (fwrite ⟨d, 14 * 2352 + 24, true⟩ rec).2
        (14 + ((0 : Nat) : Int))).2) := writeCopy_cd E R rec 0 _ hrec rfl
  obtain ⟨-, p1, w1, l1, -⟩ := fwrite_ok ⟨d, 14 * 2352 + 24, true⟩ rec rfl
  simp only [hrec, hd] at p1 l1
  have s1 := fix_start (fwrite ⟨d, 14 * 2352 + 24, true⟩ rec).2 0
  have x1 := fixMode2Form1Sector_short E R (fwrite ⟨d, 14 * 2352 + 24, true⟩ rec).2
    (14 + ((0 : Nat) : Int)) (by rw [s1, l1]; omega) (by rw [s1, l1]; omega)
  rw [e1, x1]
  dsimp only
  generalize (fwrite ⟨d, 14 * 2352 + 24, true⟩ rec).2 = g at p1 w1 l1
  obtain ⟨gd, gp, gw⟩ := g
  simp only at p1 w1 l1 ⊢
  subst w1
  have e2 : writeCopy E R DISC_CD rec 1 (none, ⟨gd, gd.length, true⟩) =
      (none, (fixMode2Form1Sector E R (fwrite ⟨gd, gd.length + 24, true⟩ rec).2
        (14 + ((1 : Nat) : Int))).2) := writeCopy_cd E R rec 1 _ hrec rfl
  obtain ⟨-, -, -, l2, -⟩ := fwrite_ok ⟨gd, gd.length + 24, true⟩ rec rfl
  simp only [hrec] at l2
  have s2 := fix_start (fwrite ⟨gd, gd.length + 24, true⟩ rec).2 1
  have x2 := fixMode2Form1Sector_short E R (fwrite ⟨gd, gd.length + 24, true⟩ rec).2
    (14 + ((1 : Nat) : Int)) (by rw [s2, l2]; omega) (by rw [s2, l2]; omega)
  rw [e2, x2]
  dsimp only
  rw [l2]
  omega

/-- The second component of the result, once the record is built and the loop
did not return. -/
theorem write_master_stream (E : Nat → Nat) (R : Nat → Nat → Nat) (f : FILE)
    (dn : List Nat) (id : Int) (pn ch : List Nat) (y mo d : Int) (rg dt n : Nat)
    (ver rec : List Nat)
    (hb : buildMasterDiscSector dn id pn ch y mo d (rg % 256) (dt % 256) (n % 4294967296) ver =
      some rec) :
    (write_master_disc_sector E R (some f) dn id pn ch y mo d rg dt n ver).2 =
      some (writeCopy E R (dt % 256) rec 1 (writeCopy E R (dt % 256) rec 0 (none, f))).2 := by
  rw [write_master_disc_sector_eq, hb]
  dsimp only
  split <;> rfl

/-- C10, as stated, fails on a CD image that ends before sector 15: on an
image of exactly 14 sectors with the stream at the start of sector 14 the
function returns 0, yet no record is found in both slots (the image ends at
byte 37072, inside the user-data area of slot 15). -/
theorem master_copy_misplaced_on_short_cd_image :
    (write_master_disc_sector (fun _ => 0) (fun _ _ => 0)
      (some ⟨List.replicate (14 * 2352) 0, 14 * 2352, true⟩)
      [83, 76, 69, 83] 12345 [80, 83, 50] [83, 67, 69] 2009 10 3 2 1 14 [50, 46, 48, 48]).1 = 0 ∧
    ¬ ∃ rec out,
      buildMasterDiscSector [83, 76, 69, 83] 12345 [80, 83, 50] [83, 67, 69] 2009 10 3
        (2 % 256) (1 % 256) (14 % 4294967296) [50, 46, 48, 48] = some rec ∧
      (write_master_disc_sector (fun _ => 0) (fun _ _ => 0)
        (some ⟨List.replicate (14 * 2352) 0, 14 * 2352, true⟩)
        [83, 76, 69, 83] 12345 [80, 83, 50] [83, 67, 69] 2009 10 3 2 1 14 [50, 46, 48, 48]).2 =
        some out ∧
      (out.data.drop (14 * 2352 + 24)).take 2048 = rec ∧
      (out.data.drop (15 * 2352 + 24)).take 2048 = rec := by
  refine ⟨write_master_returns_zero _ _ _ _ _ _ _ _ _ _ _ _ _ _ (by decide) rfl, ?_⟩
  rintro ⟨rec, out, hb, ho, -, h15⟩
  have hlen := buildMasterDiscSector_length _ _ _ _ _ _ _ _ _ _ _ _ hb
  rw [write_master_stream _ _ _ _ _ _ _ _ _ _ _ _ _ _ rec hb] at ho
  injection ho with ho
  have hcd : (1 % 256 : Nat) = DISC_CD := rfl
  rw [hcd] at ho
  have hl := written_twice_short_cd (fun _ => 0) (fun _ _ => 0) (List.replicate (14 * 2352) 0) rec
    (List.length_replicate _ _) hlen
  rw [ho] at hl
  have h := congrArg List.length h15
  rw [List.length_take, List.length_drop, hl, hlen] at h
  omega

/-- C10 (amended): entered with the stream at the start of sector 14 and
returning 0, the function leaves the same 2048-byte record in slot 14 and slot
15: for DVD at byte offsets 14*2048 and 15*2048 of any image, for CD in the
user-data areas at 14*2352+24 and 15*2352+24 provided the image holds at least
15 complete sectors.  The record is 2048 bytes in both layouts. -/
theorem master_sector_in_both_slots (E : Nat → Nat) (R : Nat → Nat → Nat) (f : FILE)
    (dn : List Nat) (id : Int) (pn ch : List Nat) (y mo d : Int) (rg dt n : Nat) (ver : List Nat)
    (h0 : (write_master_disc_sector E R (some f) dn id pn ch y mo d rg dt n ver).1 = 0) :
    layoutSize MasterDiscSector_layout = 2048 ∧ layoutSize JapanMasterDiscSector_layout = 2048 ∧
    ∃ rec out,
      buildMasterDiscSector dn id pn ch y mo d (rg % 256) (dt % 256) (n % 4294967296) ver =
        some rec ∧
      (write_master_disc_sector E R (some f) dn id pn ch y mo d rg dt n ver).2 = some out ∧
      rec.length = 2048 ∧
      (dt % 256 = DISC_DVD → f.pos = 14 * 2048 →
        (out.data.drop (14 * 2048)).take 2048 = rec ∧
        (out.data.drop (15 * 2048)).take 2048 = rec) ∧
      (dt % 256 = DISC_CD → f.pos = 14 * 2352 → 15 * 2352 ≤ f.data.length →
        (out.data.drop (14 * 2352 + 24)).take 2048 = rec ∧
        (out.data.drop (15 * 2352 + 24)).take 2048 = rec) := by
  obtain ⟨hw, rec, hb⟩ := write_master_zero E R f dn id pn ch y mo d rg dt n ver h0
  have hlen := buildMasterDiscSector_length _ _ _ _ _ _ _ _ _ _ _ _ hb
  refine ⟨by decide, by decide, rec, _, hb,
    write_master_stream E R f dn id pn ch y mo d rg dt n ver rec hb, hlen, ?_, ?_⟩
  · intro hdt hp
    have h := written_twice_plain E R f rec (dt % 256) (by rw [hdt]; decide) hlen hw
    rw [hp] at h
    exact ⟨h.2.1, h.2.2⟩
  · intro hdt hp hl
    rw [hdt]
    have h := written_twice_cd E R f rec hlen hw hp hl
    exact ⟨h.2.1, h.2.2⟩

theorem master_sector_in_both_slots_witness :
    layoutSize MasterDiscSector_layout = 2048 ∧ layoutSize JapanMasterDiscSector_layout = 2048 ∧
    ∃ rec out,
      buildMasterDiscSector [83, 76, 69, 83] 12345 [80, 83, 50] [83, 67, 69] 2009 10 3
        (2 % 256) (1 % 256) (17 % 4294967296) [50, 46, 48, 48] = some rec ∧
      (write_master_disc_sector (fun _ => 0) (fun _ _ => 0)
        (some ⟨List.replicate (17 * 2352) 0, 14 * 2352, true⟩)
        [83, 76, 69, 83] 12345 [80, 83, 50] [83, 67, 69] 2009 10 3 2 1 17 [50, 46, 48, 48]).2 =
        some out ∧
      rec.length = 2048 ∧
      (1 % 256 = DISC_DVD →
        (⟨List.replicate (17 * 2352) 0, 14 * 2352, true⟩ : FILE).pos = 14 * 2048 →
        (out.data.drop (14 * 2048)).take 2048 = rec ∧
        (out.data.drop (15 * 2048)).take 2048 = rec) ∧
      (1 % 256 = DISC_CD →
        (⟨List.replicate (17 * 2352) 0, 14 * 2352, true⟩ : FILE).pos = 14 * 2352 →
        15 * 2352 ≤ (⟨List.replicate (17 * 2352) 0, 14 * 2352, true⟩ : FILE).data.length →
        (out.data.drop (14 * 2352 + 24)).take 2048 = rec ∧
        (out.data.drop (15 * 2352 + 24)).take 2048 = rec) :=
  master_sector_in_both_slots (fun _ => 0) (fun _ _ => 0)
    ⟨List.replicate (17 * 2352) 0, 14 * 2352, true⟩
    [83, 76, 69, 83] 12345 [80, 83, 50] [83, 67, 69] 2009 10 3 2 1 17 [50, 46, 48, 48]
    (write_master_returns_zero _ _ _ _ _ _ _ _ _ _ _ _ _ _ (by decide) rfl)

/-! ## The magic numbers in the record -/

theorem loadLE_storeLE_out (b : List Nat) (off w v o n : Nat) (h : o + n ≤ off ∨ off + w ≤ o) :
    loadLE (storeLE b off w v) o n = loadLE b o n :=
  loadLE_congr _ _ _ _ (fun i hi => storeLE_getD_out _ _ _ _ _ (by omega))

theorem loadLE_four_of_bytes (a : List Nat) (off v : Nat)
    (h : ∀ i, i < 4 → a.getD (off + i) 0 = (v >>> (8 * i)) % 256) :
    loadLE a off 4 = v % 4294967296 := by
  have h0 := h 0 (by omega)
  have h1 := h 1 (by omega)
  have h2 := h 2 (by omega)
  have h3 := h 3 (by omega)
  rw [loadLE_four, ← Nat.add_zero off, h0, h1, h2, h3]
  simp only [Nat.shiftRight_eq_div_pow]
  norm_num
  omega

theorem loadLE_one_of_byte (a : List Nat) (off v : Nat)
    (h : a.getD off 0 = (v >>> (8 * 0)) % 256) : loadLE a off 1 = v % 256 := by
  rw [loadLE_one, h]
  simp

theorem calcMagicNums_bounds (l : List Nat) (n : Int) (out : MagicSlots)
    (h : (calcMagicNums l n out).1 = true) :
    (calcMagicNums l n out).2.magic1 < 256 ∧ (calcMagicNums l n out).2.magic2 < 4294967296 ∧
    (calcMagicNums l n out).2.magic3 < 256 := by
  unfold calcMagicNums at h ⊢
  split_ifs at h ⊢ with c1 c2
  dsimp only
  exact ⟨Nat.mod_lt _ (by norm_num), Nat.mod_lt _ (by norm_num), Nat.mod_lt _ (by norm_num)⟩

/-- The five magic fields as `fillMagic` leaves them. -/
theorem fillMagic_fields (s : List Nat) (m : MagicSlots) (hs : s.length = 2048) :
    loadLE (fillMagic s m) 265 4 = m.magic2 % 4294967296 ∧
    loadLE (fillMagic s m) 281 4 = m.magic2 % 4294967296 ∧
    loadLE (fillMagic s m) 269 1 = m.magic1 % 256 ∧
    loadLE (fillMagic s m) 285 1 = m.magic1 % 256 ∧
    loadLE (fillMagic s m) 301 1 = m.magic3 % 256 := by
  unfold fillMagic
  simp only [mds, fieldOffset, MasterDiscSector_layout, String.reduceEq, reduceIte,
    Nat.reduceAdd]
  have e1 : loadLE (storeLE s 269 1 m.magic1) 269 1 = m.magic1 % 256 :=
    loadLE_one_of_byte _ _ _ (by
      rw [storeLE_getD_in _ _ _ _ _ (by omega) (by omega) (by omega)])
  have e2 : loadLE (storeLE (storeLE s 269 1 m.magic1) 265 4 m.magic2) 265 4 =
      m.magic2 % 4294967296 :=
    loadLE_storeLE_four _ _ _ (by simp only [storeLE_length]; omega)
  simp (disch := omega) only [loadLE_storeLE_out, e1, e2]
  refine ⟨trivial, ?_, trivial, ?_, ?_⟩
  · rw [loadLE_storeLE_four _ _ _ (by simp only [storeLE_length]; omega), Nat.mod_mod]
  · exact (loadLE_one_of_byte _ _ _ (by
      rw [storeLE_getD_in _ _ _ _ _ (by omega) (by omega)
        (by simp only [storeLE_length]; omega)])).trans (Nat.mod_mod _ _)
  · exact loadLE_one_of_byte _ _ _ (by
      rw [storeLE_getD_in _ _ _ _ _ (by omega) (by omega)
        (by simp only [storeLE_length]; omega)])

/-- The region-1 block copies the three magic numbers to the offsets of the
`JapanMasterDiscSector` layout and keeps the first copies. -/
theorem fillJapan_magic (s : List Nat) (hs : s.length = 2048) :
    loadLE (fillJapan s) 265 4 = loadLE s 265 4 ∧
    loadLE (fillJapan s) 269 1 = loadLE s 269 1 ∧
    loadLE (fillJapan s) 297 4 = loadLE s 265 4 % 4294967296 ∧
    loadLE (fillJapan s) 301 1 = loadLE s 269 1 % 256 ∧
    loadLE (fillJapan s) 317 1 = loadLE s 301 1 % 256 := by
  refine ⟨loadLE_congr _ _ _ _ (fun i hi => fillJapan_getD_out _ _ (by omega)),
    loadLE_congr _ _ _ _ (fun i hi => fillJapan_getD_out _ _ (by omega)), ?_, ?_, ?_⟩
  · apply loadLE_four_of_bytes
    intro i hi
    unfold fillJapan
    simp only [mds, jmds, fieldOffset, MasterDiscSector_layout, JapanMasterDiscSector_layout,
      String.reduceEq, reduceIte, Nat.reduceAdd]
    simp (disch := omega) only [storeLE_getD_out, loadLE_storeLE_out]
    rw [storeLE_getD_in _ _ _ _ _ (by omega) (by omega) (by simp only [storeLE_length]; omega),
      Nat.add_sub_cancel_left]
  · apply loadLE_one_of_byte
    unfold fillJapan
    simp only [mds, jmds, fieldOffset, MasterDiscSector_layout, JapanMasterDiscSector_layout,
      String.reduceEq, reduceIte, Nat.reduceAdd]
    simp (disch := omega) only [storeLE_getD_out, loadLE_storeLE_out]
    rw [storeLE_getD_in _ _ _ _ _ (by omega) (by omega) (by simp only [storeLE_length]; omega)]
  · apply loadLE_one_of_byte
    unfold fillJapan
    simp only [mds, jmds, fieldOffset, MasterDiscSector_layout, JapanMasterDiscSector_layout,
      String.reduceEq, reduceIte, Nat.reduceAdd]
    simp (disch := omega) only [storeLE_getD_out, loadLE_storeLE_out]
    rw [storeLE_getD_in _ _ _ _ _ (by omega) (by omega) (by omega)]

/-- The magic fields of the record before the region-1 block are the ones
`fillMagic` stored. -/
theorem common_magic_fields (s dn : List Nat) (id : Int) (pn ch : List Nat) (y mo d : Int)
    (rg dt n : Nat) (ver : List Nat) (m : MagicSlots) (o w : Nat)
    (h : (265 ≤ o ∧ o + w ≤ 270) ∨ (281 ≤ o ∧ o + w ≤ 286) ∨ (o = 301 ∧ w = 1)) :
    loadLE (fillCommon (fillMedia (fillBasic (fillMagic s m) dn id pn ch y mo d rg dt) dt n) ver) o w
      = loadLE (fillMagic s m) o w := by
  apply loadLE_congr
  intro i hi
  rw [fillCommon_getD_out _ _ _ (by omega), fillMedia_getD_out _ _ _ _ (by omega),
    fillBasic_getD_out _ _ _ _ _ _ _ _ _ _ _ (by omega)]

/-- C11: both record layouts carry the triple `calcMagicNums` derives, with
equal copies of magic1 and magic2: outside region 1 magic2 (little-endian) at
265 and 281, magic1 at 269 and 285, magic3 at 301; for region 1 magic2 at 265
and 297, magic1 at 269 and 301, magic3 at 317. -/
theorem record_carries_magic_triple (dn : List Nat) (id : Int) (pn ch : List Nat) (y mo d : Int)
    (rg dt n : Nat) (ver : List Nat) (hok : (calcMagicNums dn id ⟨0, 0, 0⟩).1 = true) :
    (rg ≠ 1 →
      (buildMasterDiscSector dn id pn ch y mo d rg dt n ver).map
        (fun rec => (loadLE rec 265 4, loadLE rec 281 4, loadLE rec 269 1, loadLE rec 285 1,
          loadLE rec 301 1)) =
      some ((calcMagicNums dn id ⟨0, 0, 0⟩).2.magic2, (calcMagicNums dn id ⟨0, 0, 0⟩).2.magic2,
        (calcMagicNums dn id ⟨0, 0, 0⟩).2.magic1, (calcMagicNums dn id ⟨0, 0, 0⟩).2.magic1,
        (calcMagicNums dn id ⟨0, 0, 0⟩).2.magic3)) ∧
    (rg = 1 →
      (buildMasterDiscSector dn id pn ch y mo d rg dt n ver).map
        (fun rec => (loadLE rec 265 4, loadLE rec 297 4, loadLE rec 269 1, loadLE rec 301 1,
          loadLE rec 317 1)) =
      some ((calcMagicNums dn id ⟨0, 0, 0⟩).2.magic2, (calcMagicNums dn id ⟨0, 0, 0⟩).2.magic2,
        (calcMagicNums dn id ⟨0, 0, 0⟩).2.magic1, (calcMagicNums dn id ⟨0, 0, 0⟩).2.magic1,
        (calcMagicNums dn id ⟨0, 0, 0⟩).2.magic3)) ∧
    mds "magic2_first" = 265 ∧ mds "magic2_second" = 281 ∧ mds "magic1_first" = 269 ∧
    mds "magic1_second" = 285 ∧ mds "magic3" = 301 ∧ jmds "magic2_first" = 265 ∧
    jmds "magic2_second" = 297 ∧ jmds "magic1_first" = 269 ∧ jmds "magic1_second" = 301 ∧
    jmds "magic3" = 317 := by
  obtain ⟨b1, b2, b3⟩ := calcMagicNums_bounds dn id ⟨0, 0, 0⟩ hok
  obtain ⟨f1, f2, f3, f4, f5⟩ := fillMagic_fields (List.replicate 2048 0)
    (calcMagicNums dn id ⟨0, 0, 0⟩).2 (List.length_replicate _ _)
  rw [Nat.mod_eq_of_lt b2] at f1 f2
  rw [Nat.mod_eq_of_lt b1] at f3 f4
  rw [Nat.mod_eq_of_lt b3] at f5
  have g := fun o w h => common_magic_fields (List.replicate 2048 0) dn id pn ch y mo d rg dt n ver
    (calcMagicNums dn id ⟨0, 0, 0⟩).2 o w h
  have hX : (fillCommon (fillMedia (fillBasic (fillMagic (List.replicate 2048 0)
      (calcMagicNums dn id ⟨0, 0, 0⟩).2) dn id pn ch y mo d rg dt) dt n) ver).length = 2048 := by
    simp only [fillCommon_length, fillMedia_length, fillBasic_length, fillMagic_length,
      List.length_replicate]
  refine ⟨fun hrg => ?_, fun hrg => ?_, by decide, by decide, by decide, by decide, by decide,
    by decide, by decide, by decide, by decide, by decide⟩
  · rw [buildMasterDiscSector_ok _ _ _ _ _ _ _ _ _ _ _ hok, if_neg hrg, Option.map_some',
      g 265 4 (by omega), g 281 4 (by omega), g 269 1 (by omega), g 285 1 (by omega),
      g 301 1 (by omega), f1, f2, f3, f4, f5]
  · obtain ⟨j1, j2, j3, j4, j5⟩ := fillJapan_magic _ hX
    rw [buildMasterDiscSector_ok _ _ _ _ _ _ _ _ _ _ _ hok, if_pos hrg, Option.map_some',
      j1, j2, j3, j4, j5, g 265 4 (by omega), g 269 1 (by omega), g 301 1 (by omega), f1, f3, f5,
      Nat.mod_eq_of_lt b1, Nat.mod_eq_of_lt b2, Nat.mod_eq_of_lt b3]

theorem record_carries_magic_triple_witness :
    (buildMasterDiscSector [83, 76, 69, 83] 12345 [80, 83, 50] [83, 67, 69] 2009 10 3 1 1 1000
        [50, 46, 48, 48]).map
        (fun rec => (loadLE rec 265 4, loadLE rec 297 4, loadLE rec 269 1, loadLE rec 301 1,
          loadLE rec 317 1)) =
      some ((calcMagicNums [83, 76, 69, 83] 12345 ⟨0, 0, 0⟩).2.magic2,
        (calcMagicNums [83, 76, 69, 83] 12345 ⟨0, 0, 0⟩).2.magic2,
        (calcMagicNums [83, 76, 69, 83] 12345 ⟨0, 0, 0⟩).2.magic1,
        (calcMagicNums [83, 76, 69, 83] 12345 ⟨0, 0, 0⟩).2.magic1,
        (calcMagicNums [83, 76, 69, 83] 12345 ⟨0, 0, 0⟩).2.magic3) :=
  (record_carries_magic_triple [83, 76, 69, 83] 12345 [80, 83, 50] [83, 67, 69] 2009 10 3 1 1 1000
    [50, 46, 48, 48] (by decide)).2.1 rfl

/-! ## Failure results of `write_master_disc_sector` -/

theorem calcMagicNums_invalid (letters : List Nat) (id : Int) (out : MagicSlots)
    (h : (∃ i, i < 4 ∧ (letters.getD i 0 < 65 ∨ letters.getD i 0 > 90)) ∨ id < 0 ∨ id > 99999) :
    (calcMagicNums letters id out).1 = false := by
  unfold calcMagicNums
  by_cases h1 : (List.range 4).any
      (fun i => decide (letters.getD i 0 < 65) || decide (letters.getD i 0 > 90)) = true
  · rw [if_pos h1]
  · rw [if_neg h1]
    by_cases h2 : id < 0 ∨ id > 99999
    · rw [if_pos h2]
    · exfalso
      rcases h with ⟨i, hi, hb⟩ | h
      · apply h1
        rw [List.any_eq_true]
        exact ⟨i, List.mem_range.mpr hi, by simpa using hb⟩
      · exact h2 h

/-- C12: when the derivation fails for the disc name and id (a letter outside
`'A'..'Z'` or an id outside 0..99999) `write_master_disc_sector` returns -1 and
the stream, with every byte of the image, is as it was. -/
theorem write_master_fails_before_any_write (E : Nat → Nat) (R : Nat → Nat → Nat) (f : FILE)
    (dn : List Nat) (id : Int) (pn ch : List Nat) (y mo d : Int) (rg dt n : Nat) (ver : List Nat)
    (h : (∃ i, i < 4 ∧ (dn.getD i 0 < 65 ∨ dn.getD i 0 > 90)) ∨ id < 0 ∨ id > 99999) :
    write_master_disc_sector E R (some f) dn id pn ch y mo d rg dt n ver = (-1, some f) := by
  rw [write_master_disc_sector_eq,
    buildMasterDiscSector_fail _ _ _ _ _ _ _ _ _ _ _ (calcMagicNums_invalid dn id _ h)]

theorem write_master_fails_before_any_write_witness :
    write_master_disc_sector (fun _ => 0) (fun _ _ => 0) (some sampleSectorFile)
      [83, 76, 101, 83] 12345 [80, 83, 50] [83, 67, 69] 2009 10 3 2 1 14 [50, 46, 48, 48] =
      (-1, some sampleSectorFile) :=
  write_master_fails_before_any_write (fun _ => 0) (fun _ _ => 0) sampleSectorFile
    [83, 76, 101, 83] 12345 [80, 83, 50] [83, 67, 69] 2009 10 3 2 1 14 [50, 46, 48, 48]
    (Or.inl ⟨2, by decide, by decide⟩)

/-- The value returned by `write_master_disc_sector` on an open stream: 0 when the
derivation succeeds and the stream accepts writes, -1 otherwise. -/
theorem write_master_result (E : Nat → Nat) (R : Nat → Nat → Nat) (f : FILE)
    (dn : List Nat) (id : Int) (pn ch : List Nat) (y mo d : Int) (rg dt n : Nat) (ver : List Nat) :
    (write_master_disc_sector E R (some f) dn id pn ch y mo d rg dt n ver).1 =
      if (calcMagicNums dn id ⟨0, 0, 0⟩).1 = true ∧ f.writable = true then 0 else -1 := by
  by_cases hok : (calcMagicNums dn id ⟨0, 0, 0⟩).1 = true
  · by_cases hw : f.writable = true
    · rw [if_pos ⟨hok, hw⟩]
      exact write_master_returns_zero E R f dn id pn ch y mo d rg dt n ver hok hw
    · rw [if_neg (fun h => hw h.2)]
      have hw' : f.writable = false := by simpa using hw
      rw [write_master_disc_sector_eq, buildMasterDiscSector_ok _ _ _ _ _ _ _ _ _ _ _ hok]
      dsimp only
      generalize (if rg % 256 = 1 then _ else _ : List Nat) = rec
      have h0 := writeCopy_unwritable E R (dt % 256) rec 0 f hw'
      have e : writeCopy E R (dt % 256) rec 0 (none, f) =
          (some (-1), (writeCopy E R (dt % 256) rec 0 (none, f)).2) := Prod.ext h0 rfl
      have h1 : (writeCopy E R (dt % 256) rec 1 (writeCopy E R (dt % 256) rec 0 (none, f))).1 =
          some (-1) := by
        rw [e, writeCopy_returned]
      simp only [h1]
  · rw [if_neg (fun h => hok h.1), write_master_disc_sector_eq,
      buildMasterDiscSector_fail _ _ _ _ _ _ _ _ _ _ _ (by simpa using hok)]

theorem getD_replicate_zero (n k : Nat) : (List.replicate n 0).getD k 0 = 0 := by
  simp only [List.getD_eq_getElem?_getD, List.getElem?_replicate]
  split <;> rfl

/-- A sector whose stored mode byte is not 2 makes the codec return false. -/
theorem codec_rejects_mode (E : Nat → Nat) (R : Nat → Nat → Nat) (f : FILE) (idx : Int)
    (h : f.data.getD ((fseek f (idx * 2352) Whence.SEEK_SET).pos + 15) 0 ≠ 2) :
    (fixMode2Form1Sector E R f idx).1 = false := by
  rw [fixMode2Form1Sector_eq]
  split_ifs <;> rfl

/-- C13, as stated, fails: on a 17-sector CD image of zero bytes (mode byte 0)
the codec call for slot 14 reports an error, and `write_master_disc_sector`
still returns 0, not a negative result. -/
theorem codec_error_does_not_fail_write_master :
    ∃ rec,
      buildMasterDiscSector [83, 76, 69, 83] 12345 [80, 83, 50] [83, 67, 69] 2009 10 3
        (2 % 256) (1 % 256) (17 % 4294967296) [50, 46, 48, 48] = some rec ∧
      (fixMode2Form1Sector (fun _ => 0) (fun _ _ => 0)
        (fwrite ⟨List.replicate (17 * 2352) 0, 14 * 2352 + 24, true⟩ rec).2 14).1 = false ∧
      ¬ (write_master_disc_sector (fun _ => 0) (fun _ _ => 0)
        (some ⟨List.replicate (17 * 2352) 0, 14 * 2352, true⟩)
        [83, 76, 69, 83] 12345 [80, 83, 50] [83, 67, 69] 2009 10 3 2 1 17 [50, 46, 48, 48]).1 < 0 := by
  refine ⟨_, buildMasterDiscSector_ok _ _ _ _ _ _ _ _ _ _ _ (by decide), ?_, ?_⟩
  · apply codec_rejects_mode
    have e : ((14 : Int) * 2352) = ((32928 : Nat) : Int) := by norm_num
    rw [e, fseek_set_nat]
    dsimp only
    rw [(fwrite_ok _ _ rfl).2.2.2.2, if_pos (by norm_num), getD_replicate_zero]
    decide
  · rw [write_master_returns_zero _ _ _ _ _ _ _ _ _ _ _ _ _ _ (by decide) rfl]
    decide

/-- C13 (amended): the codec's result is not propagated.  On an open stream
`write_master_disc_sector` returns 0 exactly when the derivation succeeds and
the stream accepts the record writes, whatever `fixMode2Form1Sector` reports
for slots 14 and 15 and for any lookup tables, and -1 otherwise. -/
theorem write_master_ignores_codec_result (E : Nat → Nat) (R : Nat → Nat → Nat) (f : FILE)
    (dn : List Nat) (id : Int) (pn ch : List Nat) (y mo d : Int) (rg dt n : Nat) (ver : List Nat) :
    (write_master_disc_sector E R (some f) dn id pn ch y mo d rg dt n ver).1 =
      if (calcMagicNums dn id ⟨0, 0, 0⟩).1 = true ∧ f.writable = true then 0 else -1 :=
  write_master_result E R f dn id pn ch y mo d rg dt n ver

/-! ## The logo cipher, byte by byte -/

theorem calcMagicNums_fst_true (letters : List Nat) (id : Int) (out : MagicSlots)
    (h : ¬ ((∃ i, i < 4 ∧ (letters.getD i 0 < 65 ∨ letters.getD i 0 > 90)) ∨ id < 0 ∨ id > 99999)) :
    (calcMagicNums letters id out).1 = true := by
  unfold calcMagicNums
  by_cases h1 : (List.range 4).any
      (fun i => decide (letters.getD i 0 < 65) || decide (letters.getD i 0 > 90)) = true
  · exfalso
    apply h
    rw [List.any_eq_true] at h1
    obtain ⟨i, hi, hb⟩ := h1
    exact Or.inl ⟨i, List.mem_range.mp hi, by simpa using hb⟩
  · rw [if_neg h1]
    by_cases h2 : id < 0 ∨ id > 99999
    · exact absurd (Or.inr h2) h
    · rw [if_neg h2]

/-- A loop that rewrites every byte of a buffer through `f` is the map of `f`. -/
theorem forLoop_set_eq_map (f : Nat → Nat) (n : Nat) (b : List Nat) (h : b.length ≤ n) :
    forLoop 0 n (fun i l => l.set i (f (l.getD i 0))) b = b.map f := by
  obtain ⟨hl, hg⟩ := forLoop_set_getD f n 0 b
  apply ext_getD (by rw [hl, List.length_map])
  intro k hk
  rw [hl] at hk
  rw [hg, if_pos ⟨Nat.zero_le _, by omega, hk⟩]
  simp only [List.getD_eq_getElem?_getD, List.getElem?_map, List.getElem?_eq_getElem hk,
    Option.map_some', Option.getD_some]

theorem rol5_code : ∀ x, x < 256 → ((x <<< 5) ||| (x >>> 3)) % 256 = ROL5 x := by
  set_option maxRecDepth 100000 in decide

theorem ror5_code : ∀ c, c < 256 → ((c >>> 5) ||| (c <<< 3)) % 256 = ROR5 c := by
  set_option maxRecDepth 100000 in decide

theorem encrypt_byte_spec (x m : Nat) (hx : x < 256) (hm : m < 256) :
    (((x <<< 5) ||| (x >>> 3)) ^^^ m) % 256 = ROL5 x ^^^ m := by
  have e : (256 : Nat) = 2 ^ 8 := by norm_num
  rw [e, xor_mod_two_pow, ← e, rol5_code x hx, Nat.mod_eq_of_lt hm]

theorem decrypt_byte_spec (x m : Nat) (hx : x < 256) (hm : m < 256) :
    (((x ^^^ m) >>> 5) ||| ((x ^^^ m) <<< 3)) % 256 = ROR5 (x ^^^ m) :=
  ror5_code _ (Nat.xor_lt_two_pow (n := 8) hx hm)

/-- The two cipher loops as maps over the buffer. -/
theorem cipher_loops_map (n m : Nat) (b : List Nat) (hn : b.length ≤ n) (hm : m < 256)
    (hbytes : ∀ x ∈ b, x < 256) :
    forLoop 0 n (fun i logo =>
      logo.set i ((((logo.getD i 0 <<< 5) ||| (logo.getD i 0 >>> 3)) ^^^ m) % 256)) b =
      b.map (fun x => ROL5 x ^^^ m) ∧
    forLoop 0 n (fun i logo => logo.set i ((((logo.getD i 0 ^^^ m) >>> 5) |||
      ((logo.getD i 0 ^^^ m) <<< 3)) % 256)) b = b.map (fun x => ROR5 (x ^^^ m)) := by
  constructor
  · rw [forLoop_set_eq_map (fun v => (((v <<< 5) ||| (v >>> 3)) ^^^ m) % 256) n b hn]
    exact List.map_congr_left (fun x hx => encrypt_byte_spec x m (hbytes x hx) hm)
  · rw [forLoop_set_eq_map (fun v => (((v ^^^ m) >>> 5) ||| ((v ^^^ m) <<< 3)) % 256) n b hn]
    exact List.map_congr_left (fun x hx => decrypt_byte_spec x m (hbytes x hx) hm)

/-- With a valid code both cipher functions return true and map the buffer. -/
theorem logo_cipher_valid (b letters : List Nat) (id : Int) (hlen : b.length = 24576)
    (hbytes : ∀ x ∈ b, x < 256)
    (h : ¬ ((∃ i, i < 4 ∧ (letters.getD i 0 < 65 ∨ letters.getD i 0 > 90)) ∨ id < 0 ∨
      id > 99999)) :
    EncryptLogo b letters id =
      (true, b.map (fun x => ROL5 x ^^^ (calcMagicNums letters id ⟨0, 0, 0⟩).2.magic1)) ∧
    DecryptLogo b letters id =
      (true, b.map (fun x => ROR5 (x ^^^ (calcMagicNums letters id ⟨0, 0, 0⟩).2.magic1))) := by
  have ht := calcMagicNums_fst_true letters id ⟨0, 0, 0⟩ h
  have hm := (calcMagicNums_bounds letters id ⟨0, 0, 0⟩ ht).1
  obtain ⟨c1, c2⟩ := cipher_loops_map LOGO_SIZE (calcMagicNums letters id ⟨0, 0, 0⟩).2.magic1 b
    (by rw [hlen]; decide) hm hbytes
  unfold EncryptLogo DecryptLogo
  simp only [ht, Bool.not_true, Bool.false_eq_true, if_false]
  rw [c1, c2]
  exact ⟨rfl, rfl⟩

/-- C14: `EncryptLogo` and `DecryptLogo` return false exactly when the product
code is invalid, and then leave the buffer unchanged; otherwise they return
true and transform each of the 24576 bytes with the key magic1 alone
(`ROL5(in) XOR magic1` for encryption, `ROR5(in XOR magic1)` for decryption),
so two valid codes with the same magic1 give the same result. -/
theorem logo_cipher_bytewise (b letters : List Nat) (id : Int) (hlen : b.length = 24576)
    (hbytes : ∀ x ∈ b, x < 256) :
    ((EncryptLogo b letters id).1 = false ↔
      ((∃ i, i < 4 ∧ (letters.getD i 0 < 65 ∨ letters.getD i 0 > 90)) ∨ id < 0 ∨ id > 99999)) ∧
    ((DecryptLogo b letters id).1 = false ↔
      ((∃ i, i < 4 ∧ (letters.getD i 0 < 65 ∨ letters.getD i 0 > 90)) ∨ id < 0 ∨ id > 99999)) ∧
    (((∃ i, i < 4 ∧ (letters.getD i 0 < 65 ∨ letters.getD i 0 > 90)) ∨ id < 0 ∨ id > 99999) →
      EncryptLogo b letters id = (false, b) ∧ DecryptLogo b letters id = (false, b)) ∧
    (¬ ((∃ i, i < 4 ∧ (letters.getD i 0 < 65 ∨ letters.getD i 0 > 90)) ∨ id < 0 ∨ id > 99999) →
      EncryptLogo b letters id =
        (true, b.map (fun x => ROL5 x ^^^ (calcMagicNums letters id ⟨0, 0, 0⟩).2.magic1)) ∧
      DecryptLogo b letters id =
        (true, b.map (fun x => ROR5 (x ^^^ (calcMagicNums letters id ⟨0, 0, 0⟩).2.magic1))) ∧
      ∀ (letters2 : List Nat) (id2 : Int),
        ¬ ((∃ i, i < 4 ∧ (letters2.getD i 0 < 65 ∨ letters2.getD i 0 > 90)) ∨ id2 < 0 ∨
          id2 > 99999) →
        (calcMagicNums letters2 id2 ⟨0, 0, 0⟩).2.magic1 =
          (calcMagicNums letters id ⟨0, 0, 0⟩).2.magic1 →
        EncryptLogo b letters2 id2 = EncryptLogo b letters id ∧
        DecryptLogo b letters2 id2 = DecryptLogo b letters id) := by
  have hbad : ((∃ i, i < 4 ∧ (letters.getD i 0 < 65 ∨ letters.getD i 0 > 90)) ∨ id < 0 ∨ id > 99999) →
      EncryptLogo b letters id = (false, b) ∧ DecryptLogo b letters id = (false, b) := by
    intro h
    have hf := calcMagicNums_invalid letters id ⟨0, 0, 0⟩ h
    unfold EncryptLogo DecryptLogo
    simp only [hf, Bool.not_false, if_true, and_self]
  have hgood := logo_cipher_valid b letters id hlen hbytes
  refine ⟨?_, ?_, hbad, fun hv => ⟨(hgood hv).1, (hgood hv).2, fun l2 id2 hv2 hm => ?_⟩⟩
  · constructor
    · intro h
      by_contra hn
      rw [(hgood hn).1] at h
      simp at h
    · intro h
      rw [(hbad h).1]
  · constructor
    · intro h
      by_contra hn
      rw [(hgood hn).2] at h
      simp at h
    · intro h
      rw [(hbad h).2]
  · have h2 := logo_cipher_valid b l2 id2 hlen hbytes hv2
    rw [h2.1, h2.2, (hgood hv).1, (hgood hv).2, hm]
    exact ⟨rfl, rfl⟩

theorem logo_cipher_bytewise_witness :
    EncryptLogo (List.replicate 24576 7) [83, 76, 69, 83] 12345 =
        (true, (List.replicate 24576 7).map
          (fun x => ROL5 x ^^^ (calcMagicNums [83, 76, 69, 83] 12345 ⟨0, 0, 0⟩).2.magic1)) ∧
      DecryptLogo (List.replicate 24576 7) [83, 76, 69, 83] 12345 =
        (true, (List.replicate 24576 7).map
          (fun x => ROR5 (x ^^^ (calcMagicNums [83, 76, 69, 83] 12345 ⟨0, 0, 0⟩).2.magic1))) :=
  have h := (logo_cipher_bytewise (List.replicate 24576 7) [83, 76, 69, 83] 12345
    (List.length_replicate _ _)
    (by intro x hx; rw [List.eq_of_mem_replicate hx]; decide)).2.2.2 (by decide)
  ⟨h.1, h.2.1⟩

/-! ## The checksum verifier -/

theorem crcStep_lt (c : Nat) (h : c < 4294967296) : crcStep c < 4294967296 := by
  unfold crcStep
  split
  · exact Nat.xor_lt_two_pow (n := 32) (by omega) (by norm_num)
  · omega

/-- The masked form of the step is the conditional XOR. -/
theorem crc_mask_step (c : Nat) (h : c < 4294967296) :
    ((c >>> 1) ^^^ (0xEDB88320 &&& ((4294967296 - (c &&& 1)) % 4294967296))) % 4294967296 =
      crcStep c := by
  have hlt := crcStep_lt c h
  unfold crcStep at hlt ⊢
  rw [Nat.and_one_is_mod, Nat.shiftRight_eq_div_pow, Nat.pow_one]
  by_cases c1 : c % 2 = 1
  · rw [if_pos c1] at hlt ⊢
    rw [c1]
    have e : (0xEDB88320 &&& ((4294967296 - 1) % 4294967296)) = 0xEDB88320 := by decide
    rw [e, Nat.mod_eq_of_lt hlt]
  · rw [if_neg c1] at hlt ⊢
    have c0 : c % 2 = 0 := by omega
    rw [c0]
    have e : (0xEDB88320 &&& ((4294967296 - 0) % 4294967296)) = 0 := by decide
    rw [e, Nat.xor_zero, Nat.mod_eq_of_lt hlt]

theorem crc_inner_loop (c : Nat) (h : c < 4294967296) :
    forLoop 0 8
      (fun _ crc =>
        ((crc >>> 1) ^^^ (0xEDB88320 &&& ((4294967296 - (crc &&& 1)) % 4294967296)))
          % 4294967296) c = crcStep^[8] c ∧ crcStep^[8] c < 4294967296 := by
  have := forLoop_inv (fun j (x : Nat) => x = crcStep^[j] c ∧ x < 4294967296)
    (fun _ crc =>
      ((crc >>> 1) ^^^ (0xEDB88320 &&& ((4294967296 - (crc &&& 1)) % 4294967296)))
        % 4294967296) 8 0 c ⟨rfl, h⟩
    (fun j x _ _ hx => by
      obtain ⟨e, hlt⟩ := hx
      dsimp only
      rw [crc_mask_step x hlt, Function.iterate_succ_apply', ← e]
      exact ⟨rfl, crcStep_lt x hlt⟩)
  exact ⟨this.1, this.1 ▸ this.2⟩

theorem take_succ_getD (data : List Nat) (i : Nat) (h : i < data.length) :
    data.take (i + 1) = data.take i ++ [data.getD i 0] := by
  rw [List.take_succ, List.getD_eq_getElem?_getD, List.getElem?_eq_getElem h]
  rfl

/-- C15: for every byte sequence `crc32b` is the standard reflected CRC-32 (the
masked step equals the conditional XOR); the empty input gives 0 and
"123456789" gives `0xCBF43926`. -/
theorem crc32b_is_crc32 (data : List Nat) (hbytes : ∀ x ∈ data, x < 256) :
    crc32b data data.length = crc32 data ∧
    (∀ c, c < 4294967296 →
      0xEDB88320 &&& ((4294967296 - (c &&& 1)) % 4294967296) =
        if c % 2 = 1 then 0xEDB88320 else 0) ∧
    crc32b [] 0 = 0 ∧
    crc32b [49, 50, 51, 52, 53, 54, 55, 56, 57] 9 = 0xCBF43926 := by
  refine ⟨?_, ?_, by decide, by set_option maxRecDepth 100000 in decide⟩
  · have key := forLoop_inv
      (fun i (c : Nat) => c = (data.take i).foldl (fun c b => crcStep^[8] (c ^^^ b)) 0xFFFFFFFF ∧
        c < 4294967296)
      (fun i crc =>
        forLoop 0 8
          (fun _ crc =>
            ((crc >>> 1) ^^^ (0xEDB88320 &&& ((4294967296 - (crc &&& 1)) % 4294967296)))
              % 4294967296)
          ((crc ^^^ data.getD i 0) % 4294967296))
      data.length 0 0xFFFFFFFF ⟨rfl, by norm_num⟩
      (fun i c _ hi hc => by
        obtain ⟨e, hlt⟩ := hc
        have hi' : i < data.length := by omega
        have hb : data.getD i 0 < 256 := by
          apply hbytes
          rw [List.getD_eq_getElem?_getD, List.getElem?_eq_getElem hi']
          exact List.getElem_mem hi'
        have hx : c ^^^ data.getD i 0 < 4294967296 :=
          Nat.xor_lt_two_pow (n := 32) hlt (by omega)
        dsimp only
        rw [Nat.mod_eq_of_lt hx, (crc_inner_loop _ hx).1, take_succ_getD data i hi',
          List.foldl_append, ← e]
        exact ⟨rfl, (crc_inner_loop _ hx).2⟩)
    rw [Nat.zero_add, List.take_length] at key
    unfold crc32b crc32
    dsimp only
    rw [← key.1]
    exact Nat.mod_eq_of_lt (Nat.xor_lt_two_pow (n := 32) key.2 (by norm_num))
  · intro c _
    rw [Nat.and_one_is_mod]
    by_cases c1 : c % 2 = 1
    · rw [if_pos c1, c1]; decide
    · have c0 : c % 2 = 0 := by omega
      rw [if_neg c1, c0]; decide

theorem crc32b_is_crc32_witness :
    crc32b [0, 255, 18] [0, 255, 18].length = crc32 [0, 255, 18] :=
  (crc32b_is_crc32 [0, 255, 18] (by decide)).1

/-! ## The checksum field -/

theorem and_mask_shift (E k : Nat) : ((E &&& (255 <<< k)) >>> k) % 256 = (E >>> k) % 256 := by
  have e8 : (256 : Nat) = 2 ^ 8 := by norm_num
  have e255 : (255 : Nat) = 2 ^ 8 - 1 := by norm_num
  rw [e8, e255]
  apply Nat.eq_of_testBit_eq
  intro j
  simp only [Nat.testBit_mod_two_pow, Nat.testBit_shiftRight, Nat.testBit_and,
    Nat.testBit_shiftLeft, Nat.testBit_two_pow_sub_one, Nat.add_sub_cancel_left]
  by_cases hj : j < 8
  · simp [hj]
  · simp [hj]

/-- The four stores of "Write EDC" are the little-endian bytes of the accumulator. -/
theorem writeEDC_bytes (s : List Nat) (EDC i : Nat) (hs : s.length = 2352) (hi : i < 4) :
    (writeEDC s EDC).getD (2072 + i) 0 = (EDC >>> (8 * i)) % 256 := by
  have m0 : (0x000000FF : Nat) = 255 <<< 0 := by decide
  have m1 : (0x0000FF00 : Nat) = 255 <<< 8 := by decide
  have m2 : (0x00FF0000 : Nat) = 255 <<< 16 := by decide
  have m3 : (0xFF000000 : Nat) = 255 <<< 24 := by decide
  unfold writeEDC
  simp only [CDROMXA_FORM1_EDC_OFFSET, getD_set, List.length_set, hs]
  rw [m0, m1, m2, m3, and_mask_shift, and_mask_shift, and_mask_shift, and_mask_shift]
  have : i = 0 ∨ i = 1 ∨ i = 2 ∨ i = 3 := by omega
  rcases this with e | e | e | e <;> subst e <;> simp

theorem xor_byte_shift (a b : Nat) (hb : b < 256) : (a ^^^ b) >>> 8 = a >>> 8 := by
  apply Nat.eq_of_testBit_eq
  intro j
  simp only [Nat.testBit_shiftRight, Nat.testBit_xor]
  have : b.testBit (8 + j) = false :=
    Nat.testBit_lt_two_pow (lt_of_lt_of_le hb (by
      have : (256 : Nat) = 2 ^ 8 := by norm_num
      rw [this]
      exact Nat.pow_le_pow_right (by norm_num) (by omega)))
  rw [this, Bool.xor_false]

/-- The checksum loop computes the fold of the specification over the 2056
bytes at offsets 16..2071. -/
theorem computeEDC_eq_fold (T : Nat → Nat) (s : List Nat) (hs : s.length = 2352)
    (hbytes : ∀ k, 16 ≤ k → k < 2072 → s.getD k 0 < 256) :
    computeEDC T s = edcFold T ((s.drop 16).take 2056) := by
  unfold computeEDC edcFold
  have key := forLoop_inv
    (fun i (c : Nat) => c = ((s.drop 16).take (i - 16)).foldl
      (fun acc b => ((acc >>> 8) ^^^ T ((acc ^^^ b) &&& 0xFF)) % 4294967296) 0 ∧ c < 4294967296)
    (fun i EDC =>
      ((((EDC ^^^ s.getD i 0) % 4294967296) >>> 8) ^^^
        T (((EDC ^^^ s.getD i 0) % 4294967296) &&& 0x000000FF)) % 4294967296)
    (CDROMXA_FORM1_EDC_OFFSET - CDROMXA_SUBHEADER_OFFSET) CDROMXA_SUBHEADER_OFFSET 0
    ⟨by simp [CDROMXA_SUBHEADER_OFFSET], by norm_num⟩
    (fun i c h1 h2 hc => by
      obtain ⟨e, hlt⟩ := hc
      simp only [CDROMXA_SUBHEADER_OFFSET, CDROMXA_FORM1_EDC_OFFSET] at h1 h2
      have hb := hbytes i h1 (by omega)
      have hx : c ^^^ s.getD i 0 < 4294967296 := Nat.xor_lt_two_pow (n := 32) hlt (by omega)
      have hd : (s.drop 16).getD (i - 16) 0 = s.getD i 0 := by
        simp only [List.getD_eq_getElem?_getD, List.getElem?_drop]
        congr 2
        omega
      have ht : (s.drop 16).take (i + 1 - 16) = (s.drop 16).take (i - 16) ++ [s.getD i 0] := by
        have : i + 1 - 16 = (i - 16) + 1 := by omega
        rw [this, take_succ_getD _ _ (by rw [List.length_drop]; omega), hd]
      dsimp only
      rw [Nat.mod_eq_of_lt hx, xor_byte_shift _ _ hb, ht, List.foldl_append, ← e]
      exact ⟨rfl, Nat.mod_lt _ (by norm_num)⟩)
  simp only [CDROMXA_SUBHEADER_OFFSET, CDROMXA_FORM1_EDC_OFFSET] at key ⊢
  exact key.1

/-- The checksum bytes of the recomputed sector. -/
theorem recomputeSector_edc (E : Nat → Nat) (R : Nat → Nat → Nat) (s : List Nat)
    (m0 m1 m2 m3 i : Nat) (hs : s.length = 2352) (hi : i < 4) :
    (recomputeSector E R s m0 m1 m2 m3).getD (2072 + i) 0 = (computeEDC E s >>> (8 * i)) % 256 := by
  unfold recomputeSector
  simp only [HEADER_OFFSET, getD_set, List.length_set, (parityQ_frame _ _).1, (parityP_frame _ _).1,
    (memset_spec _ _ _ _).1, (writeEDC_spec _ _).1, hs]
  rw [if_neg (by omega), if_neg (by omega), if_neg (by omega), if_neg (by omega),
    (parityQ_frame _ _).2 _ (by omega), (parityP_frame _ _).2 _ (by omega),
    (memset_spec _ _ _ _).2, if_neg (by omega), writeEDC_bytes _ _ _ hs hi]

theorem take_drop_take_drop (d : List Nat) (p a n m : Nat) (h : a + n ≤ m) :
    (((d.drop p).take m).drop a).take n = (d.drop (p + a)).take n := by
  apply ext_getD
  · simp only [List.length_take, List.length_drop]; omega
  · intro k hk
    have hk' : k < n := by
      simp only [List.length_take, List.length_drop] at hk; omega
    rw [getD_take_drop _ _ _ _ hk', getD_take_drop _ _ _ _ hk', getD_take_drop _ _ _ _ (by omega),
      Nat.add_assoc]

/-- The checksum bytes a successful call leaves in the file. -/
theorem accepted_sector_edc (E : Nat → Nat) (R : Nat → Nat → Nat) (f : FILE) (idx : Int)
    (h : (fixMode2Form1Sector E R f idx).1 = true) (hbytes : ∀ x ∈ f.data, x < 256) (i : Nat)
    (hi : i < 4) :
    (fixMode2Form1Sector E R f idx).2.data.getD
        ((fseek f (idx * 2352) Whence.SEEK_SET).pos + 2072 + i) 0 =
      (edcFold E ((f.data.drop ((fseek f (idx * 2352) Whence.SEEK_SET).pos + 16)).take 2056)
        >>> (8 * i)) % 256 := by
  rw [fixMode2Form1Sector_eq] at h ⊢
  generalize (fseek f (idx * 2352) Whence.SEEK_SET).pos = p at h ⊢
  split_ifs at h ⊢ with c1 c2 c3 c4
  have hl : ((f.data.drop p).take 2352).length = 2352 := not_not.mp c1
  have hin : p + 2352 ≤ f.data.length := by
    rw [List.length_take, List.length_drop] at hl; omega
  have hml : (memcpy ((f.data.drop p).take 2352) 0 sync).length = 2352 := by
    rw [(memcpy_spec _ _ _).1, hl]
  have hE : computeEDC E (memcpy ((f.data.drop p).take 2352) 0 sync) =
      edcFold E ((f.data.drop (p + 16)).take 2056) := by
    rw [computeEDC_agree E _ ((f.data.drop p).take 2352) (fun k h1 h2 => by
        rw [(memcpy_spec _ _ _).2, if_neg (by simp [sync]; omega)]),
      computeEDC_eq_fold E _ hl (fun k h1 h2 => by
        rw [getD_take_drop _ _ _ _ (by omega)]
        apply hbytes
        rw [List.getD_eq_getElem?_getD, List.getElem?_eq_getElem (by omega)]
        exact List.getElem_mem _),
      take_drop_take_drop _ _ _ _ _ (by omega)]
  have ho := recomputeSector_edc E R (memcpy ((f.data.drop p).take 2352) 0 sync)
    (f.data.getD (p + 12) 0) (f.data.getD (p + 13) 0) (f.data.getD (p + 14) 0)
    (f.data.getD (p + 15) 0) i hml hi
  have hol := recomputeSector_length E R (memcpy ((f.data.drop p).take 2352) 0 sync)
    (f.data.getD (p + 12) 0) (f.data.getD (p + 13) 0) (f.data.getD (p + 14) 0)
    (f.data.getD (p + 15) 0)
  rw [hml] at hol
  generalize recomputeSector E R (memcpy ((f.data.drop p).take 2352) 0 sync)
    (f.data.getD (p + 12) 0) (f.data.getD (p + 13) 0) (f.data.getD (p + 14) 0)
    (f.data.getD (p + 15) 0) = o at ho hol ⊢
  have hsp := getD_splice f.data o p (p + (2072 + i)) (by omega)
  rw [hol] at hsp
  dsimp only
  rw [Nat.add_assoc, hsp, if_neg (by omega), if_pos (by omega), Nat.add_sub_cancel_left, ho, hE]

/-- C16: after a successful call the four bytes at sector offsets 2072..2075 are
the little-endian encoding of the 32-bit accumulator obtained from 0 by folding
`acc = (acc >> 8) XOR T[(acc XOR byte) & 0xFF]` over the 2056 bytes at offsets
16..2071 in increasing order, for every table `T`. -/
theorem checksum_is_table_fold (T : Nat → Nat) (R : Nat → Nat → Nat) (f : FILE) (idx : Int)
    (h : (fixMode2Form1Sector T R f idx).1 = true) (hbytes : ∀ x ∈ f.data, x < 256) :
    ((fixMode2Form1Sector T R f idx).2.data.drop
        ((fseek f (idx * 2352) Whence.SEEK_SET).pos + 2072)).take 4 =
      leBytes 4
        (edcFold T ((f.data.drop ((fseek f (idx * 2352) Whence.SEEK_SET).pos + 16)).take 2056)) := by
  have hlen := (accepted_sector_frame T R f idx h).1
  have hin : (fseek f (idx * 2352) Whence.SEEK_SET).pos + 2352 ≤ f.data.length := by
    rw [fixMode2Form1Sector_eq] at h
    split_ifs at h with c1
    have hl := not_not.mp c1
    rw [List.length_take, List.length_drop] at hl
    omega
  have := take_drop_eq_of_getD (fixMode2Form1Sector T R f idx).2.data
    (leBytes 4 (edcFold T
      ((f.data.drop ((fseek f (idx * 2352) Whence.SEEK_SET).pos + 16)).take 2056)))
    ((fseek f (idx * 2352) Whence.SEEK_SET).pos + 2072)
    (by rw [hlen, leBytes_length]; omega)
    (fun i hi => by
      rw [leBytes_length] at hi
      rw [accepted_sector_edc T R f idx h hbytes i hi, leBytes_getD _ _ _ hi])
  rw [leBytes_length] at this
  exact this

theorem sampleSectorFile_bytes : ∀ x ∈ sampleSectorFile.data, x < 256 := by
  intro x hx
  unfold sampleSectorFile at hx
  simp only [List.mem_append, List.mem_cons] at hx
  rcases hx with hx | hx | hx
  · rw [List.eq_of_mem_replicate hx]; decide
  · rw [hx]; decide
  · rw [List.eq_of_mem_replicate hx]; decide

theorem checksum_is_table_fold_witness :
    ((fixMode2Form1Sector (fun i => i * 3 + 1) (fun _ _ => 0) sampleSectorFile 0).2.data.drop
        ((fseek sampleSectorFile (0 * 2352) Whence.SEEK_SET).pos + 2072)).take 4 =
      leBytes 4
        (edcFold (fun i => i * 3 + 1)
          ((sampleSectorFile.data.drop
            ((fseek sampleSectorFile (0 * 2352) Whence.SEEK_SET).pos + 16)).take 2056)) :=
  checksum_is_table_fold (fun i => i * 3 + 1) (fun _ _ => 0) sampleSectorFile 0
    (sampleSectorFile_accepted _ _) sampleSectorFile_bytes


/-! ## The parity loops, iteration by iteration -/

theorem parityPInner_eq_steps (R : Nat → Nat → Nat) (s : List Nat) (src : Nat) :
    parityPInner R s src = forLoop 19 (43 - 19) (parityPInnerStep R s) (0x0000, 0x0000, src) := rfl

theorem parityQInner_eq_steps (R : Nat → Nat → Nat) (s : List Nat) (src e : Nat) :
    parityQInner R s src e = forLoop 0 43 (parityQInnerStep R s e) (0x0000, 0x0000, src) := rfl

theorem parityP_eq_state (R : Nat → Nat → Nat) (s : List Nat) :
    parityP R s = (parityPState R s 43).1 := rfl

theorem parityQ_eq_state (R : Nat → Nat → Nat) (s : List Nat) :
    parityQ R s = (parityQState R s 26).1 := rfl

theorem parityPInner_column (R : Nat → Nat → Nat) (s : List Nat) (i : Nat) :
    parityPInner R (parityPState R s i).1 (parityPState R s i).2.1 = parityPInnerState R s i 43 :=
  rfl

theorem parityQInner_diagonal (R : Nat → Nat → Nat) (s : List Nat) (i : Nat) :
    parityQInner R (parityQState R s i).1 (parityQState R s i).2.1 CDROMXA_FORM1_PARITY_Q_OFFSET =
      parityQInnerState R s i 43 := rfl

/-- The pointers of the outer P loop, and what it has left of the sector. -/
theorem parityPState_spec (R : Nat → Nat → Nat) (s : List Nat) (i : Nat) :
    (parityPState R s i).2.1 = 12 + 2 * i ∧ (parityPState R s i).2.2 = 2076 + 2 * i ∧
    (parityPState R s i).1.length = s.length := by
  unfold parityPState
  have := forLoop_inv
    (fun i (a : List Nat × Nat × Nat) => a.2.1 = 12 + 2 * i ∧ a.2.2 = 2076 + 2 * i ∧
      a.1.length = s.length)
    (fun _ st => parityPStep R st) i 0
    (s, HEADER_OFFSET, CDROMXA_FORM1_PARITY_P_OFFSET) ⟨rfl, rfl, rfl⟩
    (fun i a _ _ hp => by
      obtain ⟨h1, h2, h3⟩ := hp
      dsimp only
      rw [parityPStep_eq]
      exact ⟨by show a.2.1 + 2 = _; omega, by show a.2.2 + 2 = _; omega, by simp [h3]⟩)
  simpa using this

/-- The pointers of the outer Q loop. -/
theorem parityQState_spec (R : Nat → Nat → Nat) (s : List Nat) (i : Nat) :
    (parityQState R s i).2.1 = 12 + 86 * i ∧ (parityQState R s i).2.2 = 2248 + 2 * i ∧
    (parityQState R s i).1.length = s.length := by
  unfold parityQState
  have := forLoop_inv
    (fun i (a : List Nat × Nat × Nat) => a.2.1 = 12 + 86 * i ∧ a.2.2 = 2248 + 2 * i ∧
      a.1.length = s.length)
    (fun _ st => parityQStep R CDROMXA_FORM1_PARITY_Q_OFFSET st) i 0
    (s, HEADER_OFFSET, CDROMXA_FORM1_PARITY_Q_OFFSET) ⟨rfl, rfl, rfl⟩
    (fun i a _ _ hp => by
      obtain ⟨h1, h2, h3⟩ := hp
      dsimp only
      rw [parityQStep_eq]
      exact ⟨by show a.2.1 + 86 = _; omega, by show a.2.2 + 2 = _; omega, by simp [h3]⟩)
  simpa using this

/-- The read pointer of the inner P loop: column `i`, term `j`. -/
theorem parityPInnerState_src (R : Nat → Nat → Nat) (s : List Nat) (i j : Nat) (hj : 19 ≤ j) :
    (parityPInnerState R s i j).2.2 = 12 + 2 * i + 86 * (j - 19) := by
  unfold parityPInnerState
  have key := forLoop_inv
    (fun j (acc : Nat × Nat × Nat) => acc.2.2 + 86 * 19 = 12 + 2 * i + 86 * j)
    (parityPInnerStep R (parityPState R s i).1) (j - 19) 19
    (0x0000, 0x0000, (parityPState R s i).2.1)
    (by show (parityPState R s i).2.1 + 86 * 19 = _; rw [(parityPState_spec R s i).1])
    (fun j a _ _ hp => by
      show a.2.2 + 2 * 43 + 86 * 19 = 12 + 2 * i + 86 * (j + 1)
      omega)
  rw [Nat.add_sub_cancel' hj] at key
  omega

/-- The read pointer of the inner Q loop: diagonal `i`, term `j`. -/
theorem parityQInnerState_src (R : Nat → Nat → Nat) (s : List Nat) (i j : Nat) (hi : i < 26) :
    (parityQInnerState R s i j).2.2 = 12 + (86 * i + 88 * j) % 2236 := by
  unfold parityQInnerState
  have key := forLoop_inv
    (fun j (acc : Nat × Nat × Nat) => acc.2.2 = 12 + (86 * i + 88 * j) % 2236)
    (parityQInnerStep R (parityQState R s i).1 CDROMXA_FORM1_PARITY_Q_OFFSET) j 0
    (0x0000, 0x0000, (parityQState R s i).2.1)
    (by show (parityQState R s i).2.1 = _; rw [(parityQState_spec R s i).1]; omega)
    (fun j a _ _ hp => by
      show (if a.2.2 + 2 * 44 ≥ CDROMXA_FORM1_PARITY_Q_OFFSET then
        a.2.2 + 2 * 44 - (HEADER_SIZE + CDROMXA_SUBHEADER_SIZE + CDROMXA_FORM1_USER_DATA_SIZE +
          EDC_SIZE + CDROMXA_FORM1_PARITY_P_SIZE) else a.2.2 + 2 * 44) = _
      simp only [CDROMXA_FORM1_PARITY_Q_OFFSET, HEADER_SIZE, CDROMXA_SUBHEADER_SIZE,
        CDROMXA_FORM1_USER_DATA_SIZE, EDC_SIZE, CDROMXA_FORM1_PARITY_P_SIZE]
      split <;> omega)
  simpa using key

/-- The last iteration of a loop is applied to the state the shorter loop leaves. -/
theorem forLoop_succ_end {σ : Type} (body : Nat → σ → σ) :
    ∀ (n start : Nat) (s : σ),
      forLoop start (n + 1) body s = body (start + n) (forLoop start n body s)
  | 0, start, s => by simp [forLoop]
  | n + 1, start, s => by
    have := forLoop_succ_end body n (start + 1) (body start s)
    rw [forLoop, this]
    have e : start + 1 + n = start + (n + 1) := by omega
    rw [e]
    rfl

/-- Iteration `i` of the outer loops and iteration `j` of the inner loops run on
the states named after them. -/
theorem parity_states_step (R : Nat → Nat → Nat) (s : List Nat) (i j : Nat) :
    parityPState R s (i + 1) = parityPStep R (parityPState R s i) ∧
    parityQState R s (i + 1) =
      parityQStep R CDROMXA_FORM1_PARITY_Q_OFFSET (parityQState R s i) ∧
    (19 ≤ j → parityPInnerState R s i (j + 1) =
      parityPInnerStep R (parityPState R s i).1 j (parityPInnerState R s i j)) ∧
    parityQInnerState R s i (j + 1) =
      parityQInnerStep R (parityQState R s i).1 CDROMXA_FORM1_PARITY_Q_OFFSET j
        (parityQInnerState R s i j) := by
  refine ⟨?_, ?_, fun hj => ?_, ?_⟩
  · unfold parityPState
    rw [forLoop_succ_end]
  · unfold parityQState
    rw [forLoop_succ_end]
  · unfold parityPInnerState
    have e : j + 1 - 19 = (j - 19) + 1 := by omega
    rw [e, forLoop_succ_end, Nat.add_sub_cancel' hj]
  · unfold parityQInnerState
    rw [forLoop_succ_end, Nat.zero_add]

/-! ## Where the P parity bytes go -/

/-- The P loop after `n` columns: the pointers, the length, the bytes outside the
P field, the slots of the columns still to come, and the four bytes of every
finished column. -/
theorem parityPState_columns (R : Nat → Nat → Nat) (s : List Nat) (hs : s.length = 2352)
    (n : Nat) (hn : n ≤ 43) :
    (parityPState R s n).1.length = 2352 ∧
    (∀ k, k < 2076 ∨ 2248 ≤ k → (parityPState R s n).1.getD k 0 = s.getD k 0) ∧
    ∀ i, i < n →
      (parityPState R s n).1.getD (2076 + 2 * i) 0 =
        ((parityPInner R s (12 + 2 * i)).1 >>> 8) % 256 ∧
      (parityPState R s n).1.getD (2076 + 2 * i + 1) 0 =
        ((parityPInner R s (12 + 2 * i)).2.1 >>> 8) % 256 ∧
      (parityPState R s n).1.getD (2076 + 2 * i + 86) 0 =
        ((parityPInner R s (12 + 2 * i)).1 &&& 0xFF) % 256 ∧
      (parityPState R s n).1.getD (2076 + 2 * i + 87) 0 =
        ((parityPInner R s (12 + 2 * i)).2.1 &&& 0xFF) % 256 := by
  unfold parityPState
  have key := forLoop_inv
    (fun n (a : List Nat × Nat × Nat) =>
      a.2.1 = 12 + 2 * n ∧ a.2.2 = 2076 + 2 * n ∧ a.1.length = 2352 ∧
      (∀ k, k < 2076 ∨ 2248 ≤ k → a.1.getD k 0 = s.getD k 0) ∧
      ∀ i, i < n →
        a.1.getD (2076 + 2 * i) 0 = ((parityPInner R s (12 + 2 * i)).1 >>> 8) % 256 ∧
        a.1.getD (2076 + 2 * i + 1) 0 = ((parityPInner R s (12 + 2 * i)).2.1 >>> 8) % 256 ∧
        a.1.getD (2076 + 2 * i + 86) 0 = ((parityPInner R s (12 + 2 * i)).1 &&& 0xFF) % 256 ∧
        a.1.getD (2076 + 2 * i + 87) 0 = ((parityPInner R s (12 + 2 * i)).2.1 &&& 0xFF) % 256)
    (fun _ st => parityPStep R st) n 0
    (s, HEADER_OFFSET, CDROMXA_FORM1_PARITY_P_OFFSET)
    ⟨rfl, rfl, hs, fun _ _ => rfl, fun i hi => absurd hi (Nat.not_lt_zero _)⟩
    (fun m a _ hlt hp => by
      obtain ⟨hsrc, hdst, hlen, hfr, hcols⟩ := hp
      have hin : parityPInner R a.1 a.2.1 = parityPInner R s (12 + 2 * m) := by
        rw [hsrc]
        exact parityPInner_agree R a.1 s (12 + 2 * m) 12 2076 (by omega) (by omega)
          (fun k _ hk => hfr k (Or.inl hk))
      dsimp only
      rw [parityPStep_eq, hin]
      refine ⟨by show a.2.1 + 2 = _; omega, by show a.2.2 + 2 = _; omega, by simp [hlen],
        fun k hk => ?_, fun i hi => ?_⟩
      · simp only [getD_set, List.length_set]
        rw [if_neg (by omega), if_neg (by omega), if_neg (by omega), if_neg (by omega)]
        exact hfr k hk
      · simp only [getD_set, List.length_set]
        by_cases him : i = m
        · subst him
          refine ⟨?_, ?_, ?_, ?_⟩
          · rw [if_neg (by omega), if_neg (by omega), if_neg (by omega), if_pos (by omega)]
          · rw [if_neg (by omega), if_pos (by omega)]
          · rw [if_neg (by omega), if_neg (by omega), if_pos (by omega)]
          · rw [if_pos (by omega)]
        · have hlt2 : i < m := by omega
          obtain ⟨c0, c1, c2, c3⟩ := hcols i hlt2
          refine ⟨?_, ?_, ?_, ?_⟩
          · rw [if_neg (by omega), if_neg (by omega), if_neg (by omega), if_neg (by omega)]
            exact c0
          · rw [if_neg (by omega), if_neg (by omega), if_neg (by omega), if_neg (by omega)]
            exact c1
          · rw [if_neg (by omega), if_neg (by omega), if_neg (by omega), if_neg (by omega)]
            exact c2
          · rw [if_neg (by omega), if_neg (by omega), if_neg (by omega), if_neg (by omega)]
            exact c3)
  rw [Nat.zero_add] at key
  exact ⟨key.2.2.1, key.2.2.2.1, key.2.2.2.2⟩

/-- The totals the inner loop of column `i` computes inside the P loop are the
totals of that column of the sector the loop started from. -/
theorem parityPState_totals (R : Nat → Nat → Nat) (s : List Nat) (hs : s.length = 2352)
    (i : Nat) (hi : i < 43) :
    parityPInner R (parityPState R s i).1 (parityPState R s i).2.1 =
      parityPInner R s (12 + 2 * i) := by
  rw [(parityPState_spec R s i).1]
  exact parityPInner_agree R _ s (12 + 2 * i) 12 2076 (by omega) (by omega)
    (fun k _ hk => (parityPState_columns R s hs i (by omega)).2.1 k (Or.inl hk))

/-- The bytes of the P and Q fields of a recomputed sector are the ones the two
parity loops leave. -/
theorem recomputeSector_parity_fields (E : Nat → Nat) (R : Nat → Nat → Nat) (s : List Nat)
    (m0 m1 m2 m3 k : Nat) :
    (2076 ≤ k → k < 2248 → (recomputeSector E R s m0 m1 m2 m3).getD k 0 =
      (parityP R (memset (writeEDC s (computeEDC E s)) HEADER_OFFSET 0 4)).getD k 0) ∧
    (2248 ≤ k → (recomputeSector E R s m0 m1 m2 m3).getD k 0 =
      (parityQ R (parityP R (memset (writeEDC s (computeEDC E s)) HEADER_OFFSET 0 4))).getD k 0) := by
  unfold recomputeSector
  simp only [getD_set, HEADER_OFFSET]
  refine ⟨fun h1 h2 => ?_, fun h1 => ?_⟩
  · rw [if_neg (by omega), if_neg (by omega), if_neg (by omega), if_neg (by omega)]
    exact (parityQ_frame R _).2 k (Or.inl h2)
  · rw [if_neg (by omega), if_neg (by omega), if_neg (by omega), if_neg (by omega)]

/-- The totals of column 0 of an all-zero sector under the table whose row 19 is
constantly 1 and whose other rows are 0. -/
theorem parityPInner_row19 :
    parityPInner (fun j _ => if j = 19 then 1 else 0) (List.replicate 2352 0) 12 =
      (1, 1, 12 + 2064) := by
  have key := forLoop_inv
    (fun j (a : Nat × Nat × Nat) =>
      a.1 = (if j = 19 then 0 else 1) ∧ a.2.1 = (if j = 19 then 0 else 1) ∧
      a.2.2 + 86 * 19 = 12 + 86 * j)
    (fun j (acc : Nat × Nat × Nat) =>
      ((acc.1 ^^^ (fun j (_ : Nat) => if j = 19 then 1 else 0) j
          ((List.replicate 2352 0).getD (acc.2.2 + 0) 0)) % 65536,
        (acc.2.1 ^^^ (fun j (_ : Nat) => if j = 19 then 1 else 0) j
          ((List.replicate 2352 0).getD (acc.2.2 + 1) 0)) % 65536, acc.2.2 + 2 * 43))
    (43 - 19) 19 (0x0000, 0x0000, 12) ⟨rfl, rfl, rfl⟩
    (fun j a hj _ hp => by
      obtain ⟨h1, h2, h3⟩ := hp
      dsimp only
      rw [h1, h2]
      by_cases c : j = 19
      · subst c
        exact ⟨by decide, by decide, by omega⟩
      · have c2 : ¬ j + 1 = 19 := by omega
        simp only [if_neg c, if_neg c2]
        exact ⟨by decide, by decide, by omega⟩)
  obtain ⟨k1, k2, k3⟩ := key
  exact Prod.ext (k1.trans (by decide)) (Prod.ext (k2.trans (by decide))
    (Nat.add_right_cancel (k3.trans (by decide : 12 + 86 * (19 + (43 - 19)) = 12 + 2064 + 86 * 19))))

/-- C17, counterexample: with the table whose row 19 is constantly 1, the first
total of column 0 of an all-zero sector has low byte 1, yet after the P loop
the byte at `dst[172]` (offset 2076 + 172) is still 0; the low byte is at
`dst[86]`. -/
theorem p_low_byte_not_at_dst_172 :
    ((parityPInner (fun j _ => if j = 19 then 1 else 0) (List.replicate 2352 0) 12).1
        &&& 0xFF) % 256 = 1 ∧
    (parityP (fun j _ => if j = 19 then 1 else 0) (List.replicate 2352 0)).getD
        (CDROMXA_FORM1_PARITY_P_OFFSET + 172) 0 = 0 ∧
    (parityP (fun j _ => if j = 19 then 1 else 0) (List.replicate 2352 0)).getD
        (CDROMXA_FORM1_PARITY_P_OFFSET + 86) 0 = 1 := by
  refine ⟨?_, ?_, ?_⟩
  · rw [parityPInner_row19]
    decide
  · rw [(parityP_frame _ _).2 _ (Or.inr (by decide))]
    exact getD_replicate_zero _ _
  · have h := (parityPState_columns (fun j _ => if j = 19 then 1 else 0)
      (List.replicate 2352 0) (List.length_replicate _ _) 43 (le_refl _)).2.2 0 (by decide)
    rw [parityP_eq_state]
    have h3 := h.2.2.1
    rw [parityPInner_row19] at h3
    exact h3

/-- C17 (amended): for each of the 43 columns `i` of a 2352-byte sector, with
`dst` the column's slot `2076 + 2 * i` in the P field, the inner loop of
iteration `i` computes the two totals of column `i` of the sector, and the P
loop leaves their high bytes at `dst[0]` and `dst[1]` and their low bytes at
`dst[86]` and `dst[87]`; the bytes at `dst[172]` and `dst[173]` lie in the Q
field and are not written.  The same four bytes are in the recomputed sector. -/
theorem p_column_bytes (E : Nat → Nat) (R : Nat → Nat → Nat) (s : List Nat)
    (hs : s.length = 2352) (i : Nat) (hi : i < 43) :
    (parityPState R s i).2.2 = CDROMXA_FORM1_PARITY_P_OFFSET + 2 * i ∧
    parityPInner R (parityPState R s i).1 (parityPState R s i).2.1 =
      parityPInner R s (HEADER_OFFSET + 2 * i) ∧
    (parityP R s).getD (CDROMXA_FORM1_PARITY_P_OFFSET + 2 * i + 0) 0 =
      ((parityPInner R s (HEADER_OFFSET + 2 * i)).1 >>> 8) % 256 ∧
    (parityP R s).getD (CDROMXA_FORM1_PARITY_P_OFFSET + 2 * i + 1) 0 =
      ((parityPInner R s (HEADER_OFFSET + 2 * i)).2.1 >>> 8) % 256 ∧
    (parityP R s).getD (CDROMXA_FORM1_PARITY_P_OFFSET + 2 * i + 86) 0 =
      ((parityPInner R s (HEADER_OFFSET + 2 * i)).1 &&& 0xFF) % 256 ∧
    (parityP R s).getD (CDROMXA_FORM1_PARITY_P_OFFSET + 2 * i + 87) 0 =
      ((parityPInner R s (HEADER_OFFSET + 2 * i)).2.1 &&& 0xFF) % 256 ∧
    (parityP R s).getD (CDROMXA_FORM1_PARITY_P_OFFSET + 2 * i + 172) 0 =
      s.getD (CDROMXA_FORM1_PARITY_P_OFFSET + 2 * i + 172) 0 ∧
    (parityP R s).getD (CDROMXA_FORM1_PARITY_P_OFFSET + 2 * i + 173) 0 =
      s.getD (CDROMXA_FORM1_PARITY_P_OFFSET + 2 * i + 173) 0 ∧
    ∀ m0 m1 m2 m3 k, CDROMXA_FORM1_PARITY_P_OFFSET ≤ k → k < CDROMXA_FORM1_PARITY_Q_OFFSET →
      (recomputeSector E R s m0 m1 m2 m3).getD k 0 =
        (parityP R (memset (writeEDC s (computeEDC E s)) HEADER_OFFSET 0 4)).getD k 0 := by
  have hc := (parityPState_columns R s hs 43 (le_refl _)).2.2 i hi
  rw [parityP_eq_state]
  have hfr := (parityPState_columns R s hs 43 (le_refl _)).2.1
  simp only [CDROMXA_FORM1_PARITY_P_OFFSET, CDROMXA_FORM1_PARITY_Q_OFFSET, HEADER_OFFSET,
    Nat.add_zero]
  exact ⟨(parityPState_spec R s i).2.1, parityPState_totals R s hs i hi, hc.1, hc.2.1,
    hc.2.2.1, hc.2.2.2, hfr _ (Or.inr (by omega)), hfr _ (Or.inr (by omega)),
    fun m0 m1 m2 m3 k h1 h2 => (recomputeSector_parity_fields E R s m0 m1 m2 m3 k).1 h1 h2⟩

theorem p_column_bytes_witness :
    (List.replicate 2352 0).length = 2352 ∧ 0 < 43 ∧
    (parityP (fun j _ => if j = 19 then 1 else 0) (List.replicate 2352 0)).getD
      (CDROMXA_FORM1_PARITY_P_OFFSET + 2 * 0 + 86) 0 =
      ((parityPInner (fun j _ => if j = 19 then 1 else 0) (List.replicate 2352 0)
        (HEADER_OFFSET + 2 * 0)).1 &&& 0xFF) % 256 :=
  ⟨List.length_replicate _ _, by decide,
    (p_column_bytes (fun _ => 0) (fun j _ => if j = 19 then 1 else 0) (List.replicate 2352 0)
      (List.length_replicate _ _) 0 (by decide)).2.2.2.2.1⟩

/-! ## The Q diagonals -/

set_option maxRecDepth 100000 in
/-- The pair index `(43 * i + 44 * j) % 1118` determines the diagonal `i` and the
term `j`. -/
theorem q_pair_index_inverse :
    ∀ i, i < 26 → ∀ j, j < 43 →
      ((43 * i + 44 * j) % 1118) % 43 = j ∧
      (23 * ((43 * i + 44 * j) % 1118 + 8 * (((43 * i + 44 * j) % 1118) % 43))) % 26 = i := by
  decide

set_option maxRecDepth 100000 in
/-- The pair index `43 * a + b` is the index of some diagonal and term. -/
theorem q_pair_index_onto_digits :
    ∀ a, a < 26 → ∀ b, b < 43 →
      (43 * ((23 * (43 * a + b + 8 * ((43 * a + b) % 43))) % 26) + 44 * ((43 * a + b) % 43)) % 1118
        = 43 * a + b := by
  decide

/-- Every pair index below 1118 is the index of some diagonal and term. -/
theorem q_pair_index_onto :
    ∀ v, v < 1118 →
      (43 * ((23 * (v + 8 * (v % 43))) % 26) + 44 * (v % 43)) % 1118 = v := by
  intro v hv
  have h := q_pair_index_onto_digits (v / 43) (by omega) (v % 43) (Nat.mod_lt _ (by decide))
  have e : 43 * (v / 43) + v % 43 = v := Nat.div_add_mod v 43
  rw [e] at h
  exact h

/-- The offset of term `j` of diagonal `i` is even and inside `[12, 2248)`. -/
theorem q_offset_bounds (i j : Nat) :
    12 ≤ 12 + (86 * i + 88 * j) % 2236 ∧ 12 + (86 * i + 88 * j) % 2236 + 1 < 2248 ∧
    (12 + (86 * i + 88 * j) % 2236) % 2 = 0 := by
  omega

/-- Two terms with the same offset are the same term of the same diagonal. -/
theorem q_offset_injective (i j i2 j2 : Nat) (hi : i < 26) (hj : j < 43) (hi2 : i2 < 26)
    (hj2 : j2 < 43)
    (h : 12 + (86 * i + 88 * j) % 2236 = 12 + (86 * i2 + 88 * j2) % 2236) :
    i = i2 ∧ j = j2 := by
  have hv : (43 * i + 44 * j) % 1118 = (43 * i2 + 44 * j2) % 1118 := by omega
  obtain ⟨a1, a2⟩ := q_pair_index_inverse i hi j hj
  obtain ⟨b1, b2⟩ := q_pair_index_inverse i2 hi2 j2 hj2
  rw [hv] at a1 a2
  exact ⟨a2.symm.trans b2, a1.symm.trans b1⟩

/-- Every even offset in `[12, 2248)` is the offset of some term of some diagonal. -/
theorem q_offset_onto (p : Nat) (h1 : 12 ≤ p) (h2 : p < 2248) (h3 : p % 2 = 0) :
    ∃ i j, i < 26 ∧ j < 43 ∧ 12 + (86 * i + 88 * j) % 2236 = p := by
  refine ⟨(23 * ((p - 12) / 2 + 8 * (((p - 12) / 2) % 43))) % 26, ((p - 12) / 2) % 43,
    Nat.mod_lt _ (by decide), Nat.mod_lt _ (by decide), ?_⟩
  have h := q_pair_index_onto ((p - 12) / 2) (by omega)
  generalize (23 * ((p - 12) / 2 + 8 * (((p - 12) / 2) % 43))) % 26 = a at h ⊢
  generalize ((p - 12) / 2) % 43 = b at h ⊢
  omega

/-- Two loops over the same range whose bodies agree on that range agree. -/
theorem forLoop_congr {σ : Type} (f g : Nat → σ → σ) (count start : Nat) (s : σ)
    (h : ∀ i a, start ≤ i → i < start + count → f i a = g i a) :
    forLoop start count f s = forLoop start count g s :=
  forLoop_rel (fun _ a b => a = b) f g count start s s rfl
    (fun i a b h1 h2 hab => by subst hab; exact h i a h1 h2)

/-- The P loop uses rows 19 to 42 of the table only. -/
theorem parityP_table_rows (R R2 : Nat → Nat → Nat)
    (h : ∀ j b, 19 ≤ j → j < 43 → R2 j b = R j b) (s : List Nat) :
    parityP R2 s = parityP R s := by
  have hin : ∀ t src, parityPInner R2 t src = parityPInner R t src := by
    intro t src
    unfold parityPInner
    exact forLoop_congr _ _ _ _ _ (fun j a h1 h2 => by
      dsimp only
      rw [h j _ h1 (by omega), h j _ h1 (by omega)])
  have hst : ∀ st, parityPStep R2 st = parityPStep R st := by
    intro st
    rw [parityPStep_eq, parityPStep_eq, hin]
  unfold parityP
  exact congrArg Prod.fst (forLoop_congr _ _ _ _ _ (fun _ a _ _ => hst a))

/-- The Q loop uses rows 0 to 42 of the table only. -/
theorem parityQ_table_rows (R R2 : Nat → Nat → Nat)
    (h : ∀ j b, j < 43 → R2 j b = R j b) (s : List Nat) :
    parityQ R2 s = parityQ R s := by
  have hin : ∀ t src e, parityQInner R2 t src e = parityQInner R t src e := by
    intro t src e
    unfold parityQInner
    exact forLoop_congr _ _ _ _ _ (fun j a h1 h2 => by
      dsimp only
      rw [h j _ (by omega), h j _ (by omega)])
  have hst : ∀ e st, parityQStep R2 e st = parityQStep R e st := by
    intro e st
    rw [parityQStep_eq, parityQStep_eq, hin]
  unfold parityQ
  exact congrArg Prod.fst (forLoop_congr _ _ _ _ _ (fun _ a _ _ => hst _ a))

/-- C18: in iteration `jq` of diagonal `iq` of the Q loop the two bytes read, at
the pointer and one above it, lie in `[12, 2248)`, the pointer then advances by
88 and is wrapped back by 2236 when it reaches the start of the Q field, and the
four stores of the diagonal lie in the Q field `[2248, 2352)`; in iteration `jp`
of column `ip` of the P loop the two bytes read lie in `[12, 2076)` and the four
stores of the column lie in the P field `[2076, 2248)`; the Q loop depends on
rows 0 to 42 of the table only and the P loop on rows 19 to 42. -/
theorem parity_accesses_in_bounds (R : Nat → Nat → Nat) (s : List Nat) (iq jq ip jp : Nat)
    (hiq : iq < 26) (_hjq : jq < 43) (hip : ip < 43) (hjp : 19 ≤ jp) (hjp2 : jp < 43) :
    (parityQInnerState R s iq (jq + 1) =
        parityQInnerStep R (parityQState R s iq).1 CDROMXA_FORM1_PARITY_Q_OFFSET jq
          (parityQInnerState R s iq jq) ∧
      HEADER_OFFSET ≤ (parityQInnerState R s iq jq).2.2 ∧
      (parityQInnerState R s iq jq).2.2 + 1 < CDROMXA_FORM1_PARITY_Q_OFFSET ∧
      (parityQInnerState R s iq (jq + 1)).2.2 =
        (if (parityQInnerState R s iq jq).2.2 + 88 ≥ CDROMXA_FORM1_PARITY_Q_OFFSET then
          (parityQInnerState R s iq jq).2.2 + 88 - 2236
        else (parityQInnerState R s iq jq).2.2 + 88)) ∧
    (parityQState R s (iq + 1) =
        parityQStep R CDROMXA_FORM1_PARITY_Q_OFFSET (parityQState R s iq) ∧
      CDROMXA_FORM1_PARITY_Q_OFFSET ≤ (parityQState R s iq).2.2 ∧
      (parityQState R s iq).2.2 + (2 * 26 + 1) < SECTOR_SIZE) ∧
    (parityPInnerState R s ip (jp + 1) =
        parityPInnerStep R (parityPState R s ip).1 jp (parityPInnerState R s ip jp) ∧
      HEADER_OFFSET ≤ (parityPInnerState R s ip jp).2.2 ∧
      (parityPInnerState R s ip jp).2.2 + 1 < CDROMXA_FORM1_PARITY_P_OFFSET) ∧
    (parityPState R s (ip + 1) = parityPStep R (parityPState R s ip) ∧
      CDROMXA_FORM1_PARITY_P_OFFSET ≤ (parityPState R s ip).2.2 ∧
      (parityPState R s ip).2.2 + (2 * 43 + 1) < CDROMXA_FORM1_PARITY_Q_OFFSET) ∧
    (∀ R2 : Nat → Nat → Nat, (∀ j b, j < 43 → R2 j b = R j b) → parityQ R2 s = parityQ R s) ∧
    (∀ R2 : Nat → Nat → Nat, (∀ j b, 19 ≤ j → j < 43 → R2 j b = R j b) →
      parityP R2 s = parityP R s) := by
  have hq := parityQInnerState_src R s iq jq hiq
  have hqs := (parityQState_spec R s iq).2.1
  have hp := parityPInnerState_src R s ip jp hjp
  have hps := (parityPState_spec R s ip).2.1
  have hb := q_offset_bounds iq jq
  have stq := parity_states_step R s iq jq
  have stp := parity_states_step R s ip jp
  simp only [HEADER_OFFSET, CDROMXA_FORM1_PARITY_P_OFFSET, CDROMXA_FORM1_PARITY_Q_OFFSET,
    SECTOR_SIZE]
  refine ⟨⟨stq.2.2.2, by omega, by omega, ?_⟩, ⟨stq.2.1, by omega, by omega⟩,
    ⟨stp.2.2.1 hjp, by omega, by omega⟩, ⟨stp.1, by omega, by omega⟩,
    fun R2 h => parityQ_table_rows R R2 h s, fun R2 h => parityP_table_rows R R2 h s⟩
  rw [stq.2.2.2]
  rfl

theorem parity_accesses_in_bounds_witness :
    (25 < 26 ∧ 42 < 43 ∧ 42 < 43 ∧ 19 ≤ 42 ∧ 42 < 43) ∧
    CDROMXA_FORM1_PARITY_Q_OFFSET ≤ (parityQState (fun _ _ => 0) (List.replicate 2352 0) 25).2.2 ∧
    (parityQState (fun _ _ => 0) (List.replicate 2352 0) 25).2.2 + (2 * 26 + 1) < SECTOR_SIZE :=
  ⟨by decide,
    (parity_accesses_in_bounds (fun _ _ => 0) (List.replicate 2352 0) 25 42 42 42
      (by decide) (by decide) (by decide) (by decide) (by decide)).2.1.2⟩

/-- C20: term `j` of diagonal `i` of the Q loop reads the byte pair at offset
`12 + (86 * i + 88 * j) % 2236`; over the 26 diagonals and 43 terms these
offsets are pairwise distinct, even and inside `[12, 2248)`, every even offset
in that range is visited, there are `26 * 43 = 1118 = (2248 - 12) / 2` of them, and
every byte offset in `[12, 2248)` is read in exactly one term of one diagonal. -/
theorem q_diagonals_partition (R : Nat → Nat → Nat) (s : List Nat) :
    (∀ i j, i < 26 → j < 43 →
      (parityQInnerState R s i j).2.2 = HEADER_OFFSET + (86 * i + 88 * j) % 2236 ∧
      HEADER_OFFSET ≤ (parityQInnerState R s i j).2.2 ∧
      (parityQInnerState R s i j).2.2 + 1 < CDROMXA_FORM1_PARITY_Q_OFFSET ∧
      (parityQInnerState R s i j).2.2 % 2 = 0) ∧
    (∀ i j i2 j2, i < 26 → j < 43 → i2 < 26 → j2 < 43 →
      (parityQInnerState R s i j).2.2 = (parityQInnerState R s i2 j2).2.2 → i = i2 ∧ j = j2) ∧
    (∀ p, HEADER_OFFSET ≤ p → p < CDROMXA_FORM1_PARITY_Q_OFFSET → p % 2 = 0 →
      ∃ i j, i < 26 ∧ j < 43 ∧ (parityQInnerState R s i j).2.2 = p) ∧
    26 * 43 = 1118 ∧ (CDROMXA_FORM1_PARITY_Q_OFFSET - HEADER_OFFSET) / 2 = 1118 ∧
    (∀ k, HEADER_OFFSET ≤ k → k < CDROMXA_FORM1_PARITY_Q_OFFSET →
      ∃! ij : Nat × Nat, ij.1 < 26 ∧ ij.2 < 43 ∧
        ((parityQInnerState R s ij.1 ij.2).2.2 + 0 = k ∨
          (parityQInnerState R s ij.1 ij.2).2.2 + 1 = k)) := by
  simp only [HEADER_OFFSET, CDROMXA_FORM1_PARITY_Q_OFFSET]
  refine ⟨fun i j hi hj => ?_, fun i j i2 j2 hi hj hi2 hj2 h => ?_, fun p h1 h2 h3 => ?_,
    by decide, by decide, fun k h1 h2 => ?_⟩
  · have hq := parityQInnerState_src R s i j hi
    have hb := q_offset_bounds i j
    exact ⟨hq, by omega, by omega, by omega⟩
  · rw [parityQInnerState_src R s i j hi, parityQInnerState_src R s i2 j2 hi2] at h
    exact q_offset_injective i j i2 j2 hi hj hi2 hj2 h
  · obtain ⟨i, j, hi, hj, h⟩ := q_offset_onto p h1 h2 h3
    exact ⟨i, j, hi, hj, (parityQInnerState_src R s i j hi).trans h⟩
  · obtain ⟨i, j, hi, hj, h⟩ := q_offset_onto (k - k % 2) (by omega) (by omega) (by omega)
    refine ⟨(i, j), ⟨hi, hj, ?_⟩, ?_⟩
    · show (parityQInnerState R s i j).2.2 + 0 = k ∨ (parityQInnerState R s i j).2.2 + 1 = k
      rw [parityQInnerState_src R s i j hi]
      omega
    · rintro ⟨i2, j2⟩ ⟨hi2, hj2, hk⟩
      have hk2 : (parityQInnerState R s i2 j2).2.2 + 0 = k ∨
          (parityQInnerState R s i2 j2).2.2 + 1 = k := hk
      have hi3 : i2 < 26 := hi2
      have hj3 : j2 < 43 := hj2
      rw [parityQInnerState_src R s i2 j2 hi3] at hk2
      have hb := q_offset_bounds i2 j2
      have := q_offset_injective i2 j2 i j hi3 hj3 hi hj (by omega)
      rw [this.1, this.2]

theorem q_diagonals_partition_witness :
    (parityQInnerState (fun _ _ => 0) (List.replicate 2352 0) 25 42).2.2 =
      HEADER_OFFSET + (86 * 25 + 88 * 42) % 2236 ∧
    ∃ i j, i < 26 ∧ j < 43 ∧
      (parityQInnerState (fun _ _ => 0) (List.replicate 2352 0) i j).2.2 = 2246 :=
  ⟨((q_diagonals_partition (fun _ _ => 0) (List.replicate 2352 0)).1 25 42
      (by decide) (by decide)).1,
    (q_diagonals_partition (fun _ _ => 0) (List.replicate 2352 0)).2.2.1 2246
      (by decide) (by decide) (by decide)⟩

/-! ## What the rewritten fields depend on -/

/-- The bytes a successful call leaves in the sector it rewrote. -/
theorem accepted_sector_bytes (E : Nat → Nat) (R : Nat → Nat → Nat) (f : FILE) (idx : Int)
    (h : (fixMode2Form1Sector E R f idx).1 = true) (k : Nat) (hk : k < 2352) :
    ((f.data.drop (fseek f (idx * 2352) Whence.SEEK_SET).pos).take 2352).length = 2352 ∧
    (fixMode2Form1Sector E R f idx).2.data.getD
        ((fseek f (idx * 2352) Whence.SEEK_SET).pos + k) 0 =
      (recomputeSector E R
        (memcpy ((f.data.drop (fseek f (idx * 2352) Whence.SEEK_SET).pos).take 2352) 0 sync)
        (f.data.getD ((fseek f (idx * 2352) Whence.SEEK_SET).pos + 12) 0)
        (f.data.getD ((fseek f (idx * 2352) Whence.SEEK_SET).pos + 13) 0)
        (f.data.getD ((fseek f (idx * 2352) Whence.SEEK_SET).pos + 14) 0)
        (f.data.getD ((fseek f (idx * 2352) Whence.SEEK_SET).pos + 15) 0)).getD k 0 := by
  rw [fixMode2Form1Sector_eq] at h ⊢
  generalize (fseek f (idx * 2352) Whence.SEEK_SET).pos = p at h ⊢
  split_ifs at h ⊢ with c1 c2 c3 c4
  have hl : ((f.data.drop p).take 2352).length = 2352 := not_not.mp c1
  have hin : p + 2352 ≤ f.data.length := by
    rw [List.length_take, List.length_drop] at hl; omega
  have hml : (memcpy ((f.data.drop p).take 2352) 0 sync).length = 2352 := by
    rw [(memcpy_spec _ _ _).1, hl]
  have hol := recomputeSector_length E R (memcpy ((f.data.drop p).take 2352) 0 sync)
    (f.data.getD (p + 12) 0) (f.data.getD (p + 13) 0) (f.data.getD (p + 14) 0)
    (f.data.getD (p + 15) 0)
  rw [hml] at hol
  generalize recomputeSector E R (memcpy ((f.data.drop p).take 2352) 0 sync)
    (f.data.getD (p + 12) 0) (f.data.getD (p + 13) 0) (f.data.getD (p + 14) 0)
    (f.data.getD (p + 15) 0) = o at hol ⊢
  have hsp := getD_splice f.data o p (p + k) (by omega)
  rw [hol] at hsp
  dsimp only
  rw [hsp, if_neg (by omega), if_pos (by omega), Nat.add_sub_cancel_left]
  exact ⟨hl, rfl⟩

/-- Outside the header a recomputed sector holds what the Q loop left. -/
theorem recomputeSector_getD_out_header (E : Nat → Nat) (R : Nat → Nat → Nat) (s : List Nat)
    (m0 m1 m2 m3 k : Nat) (hk : k < 12 ∨ 16 ≤ k) :
    (recomputeSector E R s m0 m1 m2 m3).getD k 0 =
      (parityQ R (parityP R (memset (writeEDC s (computeEDC E s)) HEADER_OFFSET 0 4))).getD k 0 := by
  unfold recomputeSector
  simp only [getD_set, HEADER_OFFSET]
  rw [if_neg (by omega), if_neg (by omega), if_neg (by omega), if_neg (by omega)]

/-- Outside the header a recomputed sector does not depend on the header bytes
that are restored at the end. -/
theorem recomputeSector_header_indep (E : Nat → Nat) (R : Nat → Nat → Nat) (s : List Nat)
    (m0 m1 m2 m3 n0 n1 n2 n3 k : Nat) (hk : k < 12 ∨ 16 ≤ k) :
    (recomputeSector E R s m0 m1 m2 m3).getD k 0 = (recomputeSector E R s n0 n1 n2 n3).getD k 0 :=
  (recomputeSector_getD_out_header E R s m0 m1 m2 m3 k hk).trans
    (recomputeSector_getD_out_header E R s n0 n1 n2 n3 k hk).symm

/-- Two accepted sectors with the same subheader and user data come out with the
same bytes everywhere outside the header. -/
theorem accepted_sectors_agree (E : Nat → Nat) (R : Nat → Nat → Nat) (f g : FILE) (i j : Int)
    (hf : (fixMode2Form1Sector E R f i).1 = true) (hg : (fixMode2Form1Sector E R g j).1 = true)
    (hagree : ∀ k, 16 ≤ k → k < 2072 →
      f.data.getD ((fseek f (i * 2352) Whence.SEEK_SET).pos + k) 0 =
        g.data.getD ((fseek g (j * 2352) Whence.SEEK_SET).pos + k) 0)
    (k : Nat) (hk : k < 12 ∨ (16 ≤ k ∧ k < 2352)) :
    (fixMode2Form1Sector E R f i).2.data.getD ((fseek f (i * 2352) Whence.SEEK_SET).pos + k) 0 =
      (fixMode2Form1Sector E R g j).2.data.getD
        ((fseek g (j * 2352) Whence.SEEK_SET).pos + k) 0 := by
  obtain ⟨lf, bf⟩ := accepted_sector_bytes E R f i hf k (by omega)
  obtain ⟨lg, bg⟩ := accepted_sector_bytes E R g j hg k (by omega)
  rw [bf, bg]
  generalize (fseek f (i * 2352) Whence.SEEK_SET).pos = p at *
  generalize (fseek g (j * 2352) Whence.SEEK_SET).pos = q at *
  have hmf : (memcpy ((f.data.drop p).take 2352) 0 sync).length = 2352 := by
    rw [(memcpy_spec _ _ _).1, lf]
  have hmg : (memcpy ((g.data.drop q).take 2352) 0 sync).length = 2352 := by
    rw [(memcpy_spec _ _ _).1, lg]
  have a1 : AgreeOn 0 12 (memcpy ((f.data.drop p).take 2352) 0 sync)
      (memcpy ((g.data.drop q).take 2352) 0 sync) := by
    intro k _ h2
    rw [(memcpy_spec _ _ _).2, (memcpy_spec _ _ _).2, lf, lg,
      if_pos ⟨Nat.zero_le _, by simp [sync]; omega, by omega⟩,
      if_pos ⟨Nat.zero_le _, by simp [sync]; omega, by omega⟩]
  have a2 : AgreeOn 16 2072 (memcpy ((f.data.drop p).take 2352) 0 sync)
      (memcpy ((g.data.drop q).take 2352) 0 sync) := by
    intro k h1 h2
    rw [(memcpy_spec _ _ _).2, (memcpy_spec _ _ _).2,
      if_neg (by simp [sync]; omega), if_neg (by simp [sync]; omega),
      getD_take_drop _ _ _ _ (by omega), getD_take_drop _ _ _ _ (by omega)]
    exact hagree k h1 h2
  rw [recomputeSector_agree E R _ _ _ _ _ _ hmf hmg a1 a2]
  exact recomputeSector_header_indep E R _ _ _ _ _ _ _ _ _ k (by omega)

theorem sampleSectorFile2_accepted (E : Nat → Nat) (R : Nat → Nat → Nat) :
    (fixMode2Form1Sector E R sampleSectorFile2 0).1 = true :=
  fixMode2Form1Sector_success E R sampleSectorFile2 0 rfl
    (by rw [show (fseek sampleSectorFile2 (0 * 2352) Whence.SEEK_SET).pos = 0 from rfl]
        simp only [sampleSectorFile2, List.length_append, List.length_cons, List.length_replicate,
          List.length_nil]
        decide)
    (by decide) (by decide)

/-- The two sample sectors hold the same subheader and user data. -/
theorem sampleSectorFiles_agree (k : Nat) (h1 : 16 ≤ k) (h2 : k < 2072) :
    sampleSectorFile.data.getD ((fseek sampleSectorFile (0 * 2352) Whence.SEEK_SET).pos + k) 0 =
      sampleSectorFile2.data.getD
        ((fseek sampleSectorFile2 (0 * 2352) Whence.SEEK_SET).pos + k) 0 := by
  rw [show (fseek sampleSectorFile (0 * 2352) Whence.SEEK_SET).pos = 0 from rfl,
    show (fseek sampleSectorFile2 (0 * 2352) Whence.SEEK_SET).pos = 0 from rfl, Nat.zero_add]
  have e1 : sampleSectorFile.data.getD k 0 = 0 := by
    simp only [sampleSectorFile, List.getD_eq_getElem?_getD]
    rw [List.getElem?_append_right (by rw [List.length_replicate]; omega)]
    simp only [List.length_replicate]
    obtain ⟨m, hm⟩ : ∃ m, k - 15 = m + 1 := ⟨k - 16, by omega⟩
    rw [hm, List.getElem?_cons_succ, List.getElem?_replicate]
    split <;> rfl
  have e2 : sampleSectorFile2.data.getD k 0 = 0 := by
    have l1 : (List.replicate 12 7).length ≤ k := by rw [List.length_replicate]; omega
    have l2 : [1, 2, 3, 2].length ≤ k - (List.replicate 12 7).length := by
      rw [List.length_replicate]
      show 4 ≤ k - 12
      omega
    have l3 : k - (List.replicate 12 7).length - [1, 2, 3, 2].length <
        (List.replicate 2056 0).length := by
      rw [List.length_replicate, List.length_replicate]
      show k - 12 - 4 < 2056
      omega
    simp only [sampleSectorFile2, List.getD_eq_getElem?_getD]
    rw [List.getElem?_append_right l1, List.getElem?_append_right l2,
      List.getElem?_append_left l3, List.getElem?_replicate]
    split <;> rfl
  rw [e1, e2]

/-- C19: for two accepted complete sectors, in the same or in different files,
that hold the same bytes at sector offsets 16..2071, whatever their headers and
their previous sync, checksum and parity bytes, the sectors the codec leaves
hold the same bytes in the sync field (0..11), the checksum (2072..2075), the
P field (2076..2247) and the Q field (2248..2351). -/
theorem rewritten_fields_depend_on_data_only (E : Nat → Nat) (R : Nat → Nat → Nat) (f g : FILE)
    (i j : Int)
    (hf : (fixMode2Form1Sector E R f i).1 = true) (hg : (fixMode2Form1Sector E R g j).1 = true)
    (hagree : ∀ k, CDROMXA_SUBHEADER_OFFSET ≤ k → k < CDROMXA_FORM1_EDC_OFFSET →
      f.data.getD ((fseek f (i * 2352) Whence.SEEK_SET).pos + k) 0 =
        g.data.getD ((fseek g (j * 2352) Whence.SEEK_SET).pos + k) 0) :
    (∀ k, k < HEADER_OFFSET →
      (fixMode2Form1Sector E R f i).2.data.getD ((fseek f (i * 2352) Whence.SEEK_SET).pos + k) 0 =
        (fixMode2Form1Sector E R g j).2.data.getD
          ((fseek g (j * 2352) Whence.SEEK_SET).pos + k) 0) ∧
    (∀ k, CDROMXA_FORM1_EDC_OFFSET ≤ k → k < CDROMXA_FORM1_PARITY_P_OFFSET →
      (fixMode2Form1Sector E R f i).2.data.getD ((fseek f (i * 2352) Whence.SEEK_SET).pos + k) 0 =
        (fixMode2Form1Sector E R g j).2.data.getD
          ((fseek g (j * 2352) Whence.SEEK_SET).pos + k) 0) ∧
    (∀ k, CDROMXA_FORM1_PARITY_P_OFFSET ≤ k → k < CDROMXA_FORM1_PARITY_Q_OFFSET →
      (fixMode2Form1Sector E R f i).2.data.getD ((fseek f (i * 2352) Whence.SEEK_SET).pos + k) 0 =
        (fixMode2Form1Sector E R g j).2.data.getD
          ((fseek g (j * 2352) Whence.SEEK_SET).pos + k) 0) ∧
    (∀ k, CDROMXA_FORM1_PARITY_Q_OFFSET ≤ k → k < SECTOR_SIZE →
      (fixMode2Form1Sector E R f i).2.data.getD ((fseek f (i * 2352) Whence.SEEK_SET).pos + k) 0 =
        (fixMode2Form1Sector E R g j).2.data.getD
          ((fseek g (j * 2352) Whence.SEEK_SET).pos + k) 0) := by
  simp only [CDROMXA_SUBHEADER_OFFSET, CDROMXA_FORM1_EDC_OFFSET, HEADER_OFFSET,
    CDROMXA_FORM1_PARITY_P_OFFSET, CDROMXA_FORM1_PARITY_Q_OFFSET, SECTOR_SIZE] at hagree ⊢
  exact ⟨fun k h => accepted_sectors_agree E R f g i j hf hg hagree k (Or.inl h),
    fun k h1 h2 => accepted_sectors_agree E R f g i j hf hg hagree k (Or.inr ⟨by omega, by omega⟩),
    fun k h1 h2 => accepted_sectors_agree E R f g i j hf hg hagree k (Or.inr ⟨by omega, by omega⟩),
    fun k h1 h2 => accepted_sectors_agree E R f g i j hf hg hagree k (Or.inr ⟨by omega, by omega⟩)⟩

theorem rewritten_fields_depend_on_data_only_witness :
    sampleSectorFile.data.getD 0 0 ≠ sampleSectorFile2.data.getD 0 0 ∧
    sampleSectorFile.data.getD 12 0 ≠ sampleSectorFile2.data.getD 12 0 ∧
    ∀ k, CDROMXA_FORM1_PARITY_Q_OFFSET ≤ k → k < SECTOR_SIZE →
      (fixMode2Form1Sector (fun i => i * 3 + 1) (fun j b => j + b) sampleSectorFile 0).2.data.getD
          ((fseek sampleSectorFile (0 * 2352) Whence.SEEK_SET).pos + k) 0 =
        (fixMode2Form1Sector (fun i => i * 3 + 1) (fun j b => j + b) sampleSectorFile2 0).2.data.getD
          ((fseek sampleSectorFile2 (0 * 2352) Whence.SEEK_SET).pos + k) 0 :=
  ⟨by decide, by decide,
    (rewritten_fields_depend_on_data_only (fun i => i * 3 + 1) (fun j b => j + b)
      sampleSectorFile sampleSectorFile2 0 0 (sampleSectorFile_accepted _ _)
      (sampleSectorFile2_accepted _ _) sampleSectorFiles_agree).2.2.2⟩

/-! ## The logo cipher as a bijection -/

/-- A valid code passes the two checks of `calcMagicNums`. -/
theorem validCode_passes {letters : List Nat} {id : Int} (h : ValidCode letters id) :
    ¬ ((∃ i, i < 4 ∧ (letters.getD i 0 < 65 ∨ letters.getD i 0 > 90)) ∨ id < 0 ∨ id > 99999) := by
  obtain ⟨hlen, hl, h0, hid⟩ := h
  rintro (⟨i, hi, hb⟩ | hb)
  · have hmem : letters.getD i 0 ∈ letters := by
      rw [List.getD_eq_getElem?_getD, List.getElem?_eq_getElem (by omega)]
      exact List.getElem_mem _
    have := hl _ hmem
    omega
  · omega

theorem rol5_of_ror5 : ∀ c, c < 256 → ROL5 (ROR5 c) = c := by
  set_option maxRecDepth 100000 in decide

theorem ror5_of_rol5 : ∀ c, c < 256 → ROR5 (ROL5 c) = c := by
  set_option maxRecDepth 100000 in decide

theorem ror5_lt (c : Nat) : ROR5 c < 256 := by
  unfold ROR5
  omega

theorem rol5_lt (c : Nat) : ROL5 c < 256 := by
  unfold ROL5
  omega

/-- For a valid code both directions of the cipher are maps that undo each
other and keep a buffer of bytes a buffer of bytes. -/
theorem logo_cipher_inverse_maps (letters : List Nat) (id : Int) (b : List Nat)
    (hcode : ValidCode letters id) (hlen : b.length = 24576) (hbytes : ∀ x ∈ b, x < 256) :
    (DecryptLogo b letters id).1 = true ∧
    (DecryptLogo b letters id).2.length = 24576 ∧
    (∀ x ∈ (DecryptLogo b letters id).2, x < 256) ∧
    EncryptLogo (DecryptLogo b letters id).2 letters id = (true, b) ∧
    (EncryptLogo b letters id).1 = true ∧
    (EncryptLogo b letters id).2.length = 24576 ∧
    (∀ x ∈ (EncryptLogo b letters id).2, x < 256) ∧
    DecryptLogo (EncryptLogo b letters id).2 letters id = (true, b) := by
  have hv := validCode_passes hcode
  have hm := (calcMagicNums_bounds letters id ⟨0, 0, 0⟩
    (calcMagicNums_fst_true letters id ⟨0, 0, 0⟩ hv)).1
  obtain ⟨hE, hD⟩ := logo_cipher_valid b letters id hlen hbytes hv
  have hDl : (b.map (fun x => ROR5 (x ^^^ (calcMagicNums letters id ⟨0, 0, 0⟩).2.magic1))).length
      = 24576 := by rw [List.length_map, hlen]
  have hDb : ∀ x ∈ b.map (fun x => ROR5 (x ^^^ (calcMagicNums letters id ⟨0, 0, 0⟩).2.magic1)),
      x < 256 := by
    intro x hx
    obtain ⟨y, -, rfl⟩ := List.mem_map.mp hx
    exact ror5_lt _
  have hEl : (b.map (fun x => ROL5 x ^^^ (calcMagicNums letters id ⟨0, 0, 0⟩).2.magic1)).length
      = 24576 := by rw [List.length_map, hlen]
  have hEb : ∀ x ∈ b.map (fun x => ROL5 x ^^^ (calcMagicNums letters id ⟨0, 0, 0⟩).2.magic1),
      x < 256 := by
    intro x hx
    obtain ⟨y, -, rfl⟩ := List.mem_map.mp hx
    exact Nat.xor_lt_two_pow (n := 8) (rol5_lt _) hm
  have hED := (logo_cipher_valid _ letters id hDl hDb hv).1
  have hDE := (logo_cipher_valid _ letters id hEl hEb hv).2
  generalize (calcMagicNums letters id ⟨0, 0, 0⟩).2.magic1 = m at *
  rw [hD, hE]
  refine ⟨rfl, hDl, hDb, ?_, rfl, hEl, hEb, ?_⟩
  · rw [hED, List.map_map]
    refine congrArg (Prod.mk true) ?_
    conv_rhs => rw [← List.map_id b]
    refine List.map_congr_left (fun x hx => ?_)
    show ROL5 (ROR5 (x ^^^ m)) ^^^ m = x
    rw [rol5_of_ror5 _ (Nat.xor_lt_two_pow (n := 8) (hbytes x hx) hm), Nat.xor_assoc,
      Nat.xor_self, Nat.xor_zero]
  · rw [hDE, List.map_map]
    refine congrArg (Prod.mk true) ?_
    conv_rhs => rw [← List.map_id b]
    refine List.map_congr_left (fun x hx => ?_)
    show ROR5 ((ROL5 x ^^^ m) ^^^ m) = x
    rw [Nat.xor_assoc, Nat.xor_self, Nat.xor_zero, ror5_of_rol5 _ (hbytes x hx)]

/-- C22: for every valid product code and every 24576-byte buffer `b`,
`DecryptLogo` returns true and a 24576-byte buffer, and `EncryptLogo` applied to
that buffer with the same code returns true and exactly `b`; with the round
trip in the other direction the two are inverse bijections on such buffers. -/
theorem encrypt_decrypt_roundtrip (letters : List Nat) (id : Int) (b : List Nat)
    (hcode : ValidCode letters id) (hlen : b.length = 24576) (hbytes : ∀ x ∈ b, x < 256) :
    ((DecryptLogo b letters id).1 = true ∧
      (DecryptLogo b letters id).2.length = 24576 ∧
      (∀ x ∈ (DecryptLogo b letters id).2, x < 256) ∧
      EncryptLogo (DecryptLogo b letters id).2 letters id = (true, b)) ∧
    ((EncryptLogo b letters id).1 = true ∧
      (EncryptLogo b letters id).2.length = 24576 ∧
      (∀ x ∈ (EncryptLogo b letters id).2, x < 256) ∧
      DecryptLogo (EncryptLogo b letters id).2 letters id = (true, b)) := by
  obtain ⟨h1, h2, h3, h4, h5, h6, h7, h8⟩ := logo_cipher_inverse_maps letters id b hcode hlen hbytes
  exact ⟨⟨h1, h2, h3, h4⟩, h5, h6, h7, h8⟩

theorem encrypt_decrypt_roundtrip_witness :
    (DecryptLogo (List.replicate 24576 7) [83, 76, 85, 83] 20062).1 = true ∧
    EncryptLogo (DecryptLogo (List.replicate 24576 7) [83, 76, 85, 83] 20062).2
      [83, 76, 85, 83] 20062 = (true, List.replicate 24576 7) :=
  ⟨(encrypt_decrypt_roundtrip [83, 76, 85, 83] 20062 (List.replicate 24576 7) (by decide)
      (List.length_replicate _ _)
      (by intro x hx; rw [List.eq_of_mem_replicate hx]; decide)).1.1,
    (encrypt_decrypt_roundtrip [83, 76, 85, 83] 20062 (List.replicate 24576 7) (by decide)
      (List.length_replicate _ _)
      (by intro x hx; rw [List.eq_of_mem_replicate hx]; decide)).1.2.2.2⟩

/-! ## The magic numbers determine the product code -/

theorem shl_or_eq_add (x y k : Nat) (hy : y < 2 ^ k) : (x <<< k) ||| y = x * 2 ^ k + y := by
  rw [Nat.shiftLeft_eq, Nat.mul_comm, ← Nat.mul_add_lt_is_or hy]

theorem or_shl_eq_add (x y k : Nat) (hy : y < 2 ^ k) : y ||| (x <<< k) = y + x * 2 ^ k := by
  rw [Nat.or_comm, shl_or_eq_add x y k hy, Nat.add_comm]

/-- Masking with `n` ones shifted up by `k` keeps bits `k` to `k + n - 1` in place. -/
theorem and_shifted_mask (x n k : Nat) :
    x &&& ((2 ^ n - 1) <<< k) = ((x >>> k) % 2 ^ n) <<< k := by
  apply Nat.eq_of_testBit_eq
  intro j
  simp only [Nat.testBit_and, Nat.testBit_shiftLeft, Nat.testBit_two_pow_sub_one,
    Nat.testBit_mod_two_pow, Nat.testBit_shiftRight]
  by_cases hj : k ≤ j
  · have e : k + (j - k) = j := by omega
    rw [e]
    cases decide (j - k < n) <;> simp [hj]
  · simp [hj]

/-- The packed letters as a number in base 128. -/
theorem letters_arith (a b c d : Nat) (hb : b < 128) (hc : c < 128)
    (hd : d < 128) :
    ((d <<< 0) ||| (c <<< 7) ||| (b <<< 14) ||| (a <<< 21)) =
      d + c * 128 + b * 16384 + a * 2097152 := by
  rw [Nat.shiftLeft_zero, or_shl_eq_add c d 7 (by norm_num; omega),
    or_shl_eq_add b _ 14 (by norm_num; omega), or_shl_eq_add a _ 21 (by norm_num; omega)]
  norm_num

theorem magic1_arith (id L : Nat) (hL : L < 2 ^ 28) :
    (((id &&& 0x1F) <<< 3) ||| ((0x0FFFFFFF &&& L) >>> 25)) % 256 =
      (id % 32) * 8 + L / 33554432 := by
  have e1 : (0x1F : Nat) = 2 ^ 5 - 1 := by norm_num
  have e2 : (0x0FFFFFFF : Nat) = 2 ^ 28 - 1 := by norm_num
  rw [Nat.and_comm 0x0FFFFFFF, e1, e2, Nat.and_pow_two_sub_one_eq_mod,
    Nat.and_pow_two_sub_one_eq_mod, Nat.mod_eq_of_lt hL, Nat.shiftRight_eq_div_pow,
    shl_or_eq_add _ _ 3 (by norm_num at hL ⊢; omega)]
  norm_num at hL ⊢
  omega

theorem magic2_arith (id L : Nat) (hid : id < 131072) (hL : L < 2 ^ 28) :
    ((id >>> 10) ||| (((0x0FFFFFFF &&& L) <<< 7) % 4294967296)) % 4294967296 =
      id / 1024 + (L % 33554432) * 128 := by
  have e2 : (0x0FFFFFFF : Nat) = 2 ^ 28 - 1 := by norm_num
  have e3 : (L <<< 7) % 4294967296 = (L % 33554432) <<< 7 := by
    rw [Nat.shiftLeft_eq, Nat.shiftLeft_eq]
    norm_num
    omega
  rw [Nat.and_comm 0x0FFFFFFF, e2, Nat.and_pow_two_sub_one_eq_mod, Nat.mod_eq_of_lt hL, e3,
    Nat.shiftRight_eq_div_pow, or_shl_eq_add _ _ 7 (by norm_num; omega)]
  norm_num
  omega

theorem magic3_arith (id : Nat) :
    (((id &&& 0x3E0) >>> 2) ||| 0x04) % 256 = (id / 32 % 32) * 8 + 4 := by
  have e1 : (0x3E0 : Nat) = (2 ^ 5 - 1) <<< 5 := by decide
  have e4 : (((id >>> 5) % 2 ^ 5) <<< 5) >>> 2 = ((id >>> 5) % 2 ^ 5) <<< 3 := by
    rw [Nat.shiftLeft_eq, Nat.shiftLeft_eq, Nat.shiftRight_eq_div_pow]
    norm_num
    omega
  rw [e1, and_shifted_mask, e4, shl_or_eq_add _ _ 3 (by norm_num), Nat.shiftRight_eq_div_pow]
  norm_num
  omega

/-- The triple of a valid code in plain arithmetic: magic1 holds the low five
bits of the id above the top three bits of the first letter, magic2 the packed
letters without those three bits above bits 10 and up of the id, and magic3
bits 5 to 9 of the id. -/
theorem calcMagicNums_arith (a b c d id : Nat) (out : MagicSlots)
    (h : ValidCode [a, b, c, d] (id : Int)) :
    calcMagicNums [a, b, c, d] (id : Int) out =
      (true, ⟨(id % 32) * 8 + a / 16,
        id / 1024 + ((d + c * 128 + b * 16384 + a * 2097152) % 33554432) * 128,
        (id / 32 % 32) * 8 + 4⟩) := by
  rw [calcMagicNums_valid h]
  obtain ⟨-, hl, -, hid⟩ := h
  have hid2 : id ≤ 99999 := by exact_mod_cast hid
  have ha := hl a (by simp)
  have hb := hl b (by simp)
  have hc := hl c (by simp)
  have hd := hl d (by simp)
  have hidm : (id : Int).toNat % 4294967296 = id := by
    rw [Int.toNat_ofNat]; omega
  have hL : d + c * 128 + b * 16384 + a * 2097152 < 2 ^ 28 := by norm_num; omega
  have hLm : (d + c * 128 + b * 16384 + a * 2097152) % 4294967296 =
      d + c * 128 + b * 16384 + a * 2097152 := Nat.mod_eq_of_lt (by norm_num at hL ⊢; omega)
  have hq : (d + c * 128 + b * 16384 + a * 2097152) / 33554432 = a / 16 := by omega
  simp only [List.getD_cons_zero, List.getD_cons_succ]
  rw [letters_arith a b c d (by omega) (by omega) (by omega), hidm, hLm, magic1_arith id _ hL,
    magic2_arith id _ (by omega) hL, magic3_arith, hq]

/-- C21: `calcMagicNums` is injective on valid product codes: two valid codes
whose calls return the same triple have the same four letters and the same id. -/
theorem calcMagicNums_injective (letters letters2 : List Nat) (id id2 : Int)
    (out out2 : MagicSlots) (h : ValidCode letters id) (h2 : ValidCode letters2 id2)
    (heq : (calcMagicNums letters id out).2 = (calcMagicNums letters2 id2 out2).2) :
    letters = letters2 ∧ id = id2 := by
  have hv := h
  have hv2 := h2
  obtain ⟨hlen, hl, h0, hid⟩ := h
  obtain ⟨hlen2, hl2, h02, hid2⟩ := h2
  obtain ⟨n, rfl⟩ := Int.eq_ofNat_of_zero_le h0
  obtain ⟨n2, rfl⟩ := Int.eq_ofNat_of_zero_le h02
  match letters, hlen, letters2, hlen2 with
  | [a, b, c, d], _, [a2, b2, c2, d2], _ =>
    rw [calcMagicNums_arith a b c d n out hv, calcMagicNums_arith a2 b2 c2 d2 n2 out2 hv2] at heq
    have e1 := congrArg MagicSlots.magic1 heq
    have e2 := congrArg MagicSlots.magic2 heq
    have e3 := congrArg MagicSlots.magic3 heq
    dsimp only at e1 e2 e3
    have ha := hl a (by simp)
    have hb := hl b (by simp)
    have hc := hl c (by simp)
    have hd := hl d (by simp)
    have ha2 := hl2 a2 (by simp)
    have hb2 := hl2 b2 (by simp)
    have hc2 := hl2 c2 (by simp)
    have hd2 := hl2 d2 (by simp)
    have hn : n ≤ 99999 := by exact_mod_cast hid
    have hn2 : n2 ≤ 99999 := by exact_mod_cast hid2
    have q1 : n % 32 = n2 % 32 ∧ a / 16 = a2 / 16 := by omega
    have q3 : n / 32 % 32 = n2 / 32 % 32 := by omega
    have q2 : n / 1024 = n2 / 1024 ∧
        (d + c * 128 + b * 16384 + a * 2097152) % 33554432 =
          (d2 + c2 * 128 + b2 * 16384 + a2 * 2097152) % 33554432 := by omega
    have en : n = n2 := by omega
    have eL : d + c * 128 + b * 16384 + a * 2097152 =
        d2 + c2 * 128 + b2 * 16384 + a2 * 2097152 := by
      have p1 : (d + c * 128 + b * 16384 + a * 2097152) / 33554432 = a / 16 := by omega
      have p2 : (d2 + c2 * 128 + b2 * 16384 + a2 * 2097152) / 33554432 = a2 / 16 := by omega
      have r1 := Nat.div_add_mod (d + c * 128 + b * 16384 + a * 2097152) 33554432
      have r2 := Nat.div_add_mod (d2 + c2 * 128 + b2 * 16384 + a2 * 2097152) 33554432
      rw [p1] at r1
      rw [p2] at r2
      rw [← r1, ← r2, q1.2, q2.2]
    have ea : a = a2 := by omega
    have eb : b = b2 := by omega
    have ec : c = c2 := by omega
    have ed : d = d2 := by omega
    rw [en, ea, eb, ec, ed]
    exact ⟨rfl, rfl⟩

theorem calcMagicNums_injective_witness :
    (calcMagicNums [83, 76, 69, 83] 12345 ⟨0, 0, 0⟩).2 = ⟨205, 965831052, 12⟩ ∧
    ([83, 76, 69, 83] = [83, 76, 69, 83] ∧ (12345 : Int) = 12345) :=
  ⟨by decide,
    calcMagicNums_injective [83, 76, 69, 83] [83, 76, 69, 83] 12345 12345 ⟨0, 0, 0⟩ ⟨1, 2, 3⟩
      (by decide) (by decide) (by decide)⟩

/-! ## The signature of an empty boot sector -/

/-- On a buffer whose first `n` bytes are zero `crc32b` is `8 * n` steps from
`0xFFFFFFFF`, complemented. -/
theorem crc32b_zero_bytes (data : List Nat) (n : Nat) (hz : ∀ i, i < n → data.getD i 0 = 0) :
    crc32b data n = (crcStep^[8 * n] 0xFFFFFFFF ^^^ 0xFFFFFFFF) % 4294967296 := by
  have key := forLoop_inv
    (fun i (c : Nat) => c = crcStep^[8 * i] 0xFFFFFFFF ∧ c < 4294967296)
    (fun i crc =>
      forLoop 0 8
        (fun _ crc =>
          ((crc >>> 1) ^^^ (0xEDB88320 &&& ((4294967296 - (crc &&& 1)) % 4294967296)))
            % 4294967296)
        ((crc ^^^ data.getD i 0) % 4294967296))
    n 0 0xFFFFFFFF ⟨rfl, by norm_num⟩
    (fun i c _ hi hc => by
      obtain ⟨e, hlt⟩ := hc
      dsimp only
      rw [hz i (by omega), Nat.xor_zero, Nat.mod_eq_of_lt hlt]
      obtain ⟨l1, l2⟩ := crc_inner_loop c hlt
      rw [l1]
      refine ⟨?_, l2⟩
      have e8 : 8 * (i + 1) = 8 + 8 * i := by omega
      rw [e8, Function.iterate_add_apply, ← e])
  rw [Nat.zero_add] at key
  unfold crc32b
  dsimp only
  rw [key.1]

theorem xor_cancel_both (x y p : Nat) : (x ^^^ p) ^^^ (y ^^^ p) = x ^^^ y := by
  apply Nat.eq_of_testBit_eq
  intro i
  simp only [Nat.testBit_xor]
  cases x.testBit i <;> cases y.testBit i <;> cases p.testBit i <;> rfl

theorem xor_right_swap (x y p : Nat) : (x ^^^ p) ^^^ y = (x ^^^ y) ^^^ p := by
  apply Nat.eq_of_testBit_eq
  intro i
  simp only [Nat.testBit_xor]
  cases x.testBit i <;> cases y.testBit i <;> cases p.testBit i <;> rfl

/-- A step of the CRC is linear over XOR. -/
theorem crcStep_xor (a b : Nat) : crcStep (a ^^^ b) = crcStep a ^^^ crcStep b := by
  have hm : (a ^^^ b) % 2 = (a % 2) ^^^ (b % 2) := by
    have := xor_mod_two_pow a b 1
    simpa using this
  unfold crcStep
  rw [hm, Nat.xor_div_two]
  rcases Nat.mod_two_eq_zero_or_one a with ha | ha <;>
    rcases Nat.mod_two_eq_zero_or_one b with hb | hb
  · rw [ha, hb]
    rfl
  · rw [ha, hb, if_pos (by decide), if_neg (by decide), if_pos rfl, Nat.xor_assoc]
  · rw [ha, hb, if_pos (by decide), if_pos rfl, if_neg (by decide), xor_right_swap]
  · rw [ha, hb, if_neg (by decide), if_pos rfl, if_pos rfl, xor_cancel_both]

/-- A map that is linear over XOR sends 0 to 0. -/
theorem lin_zero (g : Nat → Nat) (hg : ∀ a b, g (a ^^^ b) = g a ^^^ g b) : g 0 = 0 := by
  have := hg 0 0
  rw [Nat.xor_self, Nat.xor_self] at this
  exact this

theorem double_xor (a b : Nat) : 2 * (a ^^^ b) = 2 * a ^^^ 2 * b := by
  have e : ∀ x, 2 * x = x <<< 1 := by
    intro x
    rw [Nat.shiftLeft_eq]
    omega
  rw [e, e, e]
  apply Nat.eq_of_testBit_eq
  intro j
  simp only [Nat.testBit_shiftLeft, Nat.testBit_xor]
  cases decide (j ≥ 1) <;> simp

theorem iterate_xor (g : Nat → Nat) (hg : ∀ a b, g (a ^^^ b) = g a ^^^ g b) :
    ∀ (n a b : Nat), g^[n] (a ^^^ b) = g^[n] a ^^^ g^[n] b
  | 0, _, _ => rfl
  | n + 1, a, b => by
    rw [Function.iterate_succ_apply, Function.iterate_succ_apply, Function.iterate_succ_apply,
      hg, iterate_xor g hg n]

theorem iterate_lt (g : Nat → Nat) (m : Nat) (hg : ∀ c, c < m → g c < m) :
    ∀ (n c : Nat), c < m → g^[n] c < m
  | 0, _, h => h
  | n + 1, c, h => by
    rw [Function.iterate_succ_apply]
    exact iterate_lt g m hg n (g c) (hg c h)

/-- A map that is linear over XOR is determined below `2 ^ n` by its values on
the first `n` powers of two. -/
theorem xorSpan_linCols : ∀ (n : Nat) (g : Nat → Nat), (∀ a b, g (a ^^^ b) = g a ^^^ g b) →
    ∀ c, c < 2 ^ n → g c = xorSpan (linCols g n) c
  | 0, g, hg, c, hc => by
    have h0 : g 0 = 0 := lin_zero g hg
    have hc0 : c = 0 := by simpa using hc
    rw [hc0, h0]
    rfl
  | n + 1, g, hg, c, hc => by
    have h0 : g 0 = 0 := lin_zero g hg
    have hsplit : c = c % 2 ^^^ 2 * (c / 2) := by
      have h1 : c % 2 < 2 ^ 1 := by omega
      have := Nat.mul_add_lt_is_or h1 (c / 2)
      rw [Nat.pow_one] at this
      have hx : 2 * (c / 2) ||| c % 2 = c % 2 ^^^ 2 * (c / 2) := by
        apply Nat.eq_of_testBit_eq
        intro j
        rw [Nat.testBit_or, Nat.testBit_xor]
        cases j with
        | zero =>
          have : (2 * (c / 2)).testBit 0 = false := by
            rw [Nat.testBit_zero]; simp
          rw [this]; simp
        | succ j =>
          have : (c % 2).testBit (j + 1) = false := by
            apply Nat.testBit_lt_two_pow
            calc c % 2 < 2 := by omega
              _ ≤ 2 ^ (j + 1) := by
                have := Nat.one_le_two_pow (n := j)
                rw [Nat.pow_succ]; omega
          rw [this]; simp
      omega
    have hrest := xorSpan_linCols n (fun x => g (2 * x))
      (fun a b => by show g (2 * (a ^^^ b)) = _; rw [double_xor, hg]) (c / 2)
      (by rw [Nat.pow_succ] at hc; omega)
    have hcols : linCols g (n + 1) = g 1 :: linCols (fun x => g (2 * x)) n := by
      unfold linCols
      rw [List.range_succ_eq_map, List.map_cons, List.map_map]
      refine congrArg₂ List.cons (by norm_num) (List.map_congr_left (fun i _ => ?_))
      show g (2 ^ (i + 1)) = g (2 * 2 ^ i)
      rw [Nat.pow_succ, Nat.mul_comm]
    rw [hcols]
    show g c = (if c % 2 = 1 then g 1 else 0) ^^^ xorSpan (linCols (fun x => g (2 * x)) n) (c / 2)
    rw [← hrest]
    conv_lhs => rw [hsplit, hg]
    rcases Nat.mod_two_eq_zero_or_one c with h | h
    · rw [h, h0, if_neg (by decide)]
    · rw [h, if_pos rfl]

/-- The columns of the square of a linear map that keeps values below `2 ^ n`. -/
theorem matSq_linCols (g : Nat → Nat) (n : Nat) (hg : ∀ a b, g (a ^^^ b) = g a ^^^ g b)
    (hb : ∀ c, c < 2 ^ n → g c < 2 ^ n) : linCols (g^[2]) n = matSq (linCols g n) := by
  unfold matSq
  unfold linCols
  rw [List.map_map]
  refine List.map_congr_left (fun i hi => ?_)
  have hi2 : i < n := List.mem_range.mp hi
  show g (g (2 ^ i)) = xorSpan (linCols g n) (g (2 ^ i))
  exact xorSpan_linCols n g hg _ (hb _ (Nat.pow_lt_pow_right (by decide) hi2))

/-- Squaring `k` times gives the columns of the `2 ^ k`-fold iterate. -/
theorem linCols_iterate_pow (g : Nat → Nat) (n : Nat) (hg : ∀ a b, g (a ^^^ b) = g a ^^^ g b)
    (hb : ∀ c, c < 2 ^ n → g c < 2 ^ n) :
    ∀ k, linCols (g^[2 ^ k]) n = matSq^[k] (linCols g n)
  | 0 => rfl
  | k + 1 => by
    rw [Nat.pow_succ, Function.iterate_mul, Function.iterate_succ_apply',
      ← linCols_iterate_pow g n hg hb k]
    exact matSq_linCols (g^[2 ^ k]) n (fun a b => iterate_xor g hg _ a b)
      (fun c hc => iterate_lt g _ hb _ c hc)

set_option maxRecDepth 1000000 in
/-- The value of the linear map of `3 * 2 ^ 16` steps at `0xFFFFFFFF`, by 16
squarings of the map of three steps. -/
theorem crc_zero_logo_columns :
    xorSpan (matSq^[16] (linCols (crcStep^[3]) 32)) 0xFFFFFFFF = 0x91412D11 := by
  decide!

/-- The state after the `8 * 24576` steps over 24576 zero bytes. -/
theorem crcStep_zero_logo : crcStep^[196608] 0xFFFFFFFF = 0x91412D11 := by
  have e : (196608 : Nat) = 3 * 2 ^ 16 := by norm_num
  have e32 : (2 : Nat) ^ 32 = 4294967296 := by norm_num
  have hlin : ∀ a b, crcStep^[3] (a ^^^ b) = crcStep^[3] a ^^^ crcStep^[3] b :=
    fun a b => iterate_xor crcStep crcStep_xor 3 a b
  have hb : ∀ c, c < 2 ^ 32 → crcStep^[3] c < 2 ^ 32 := by
    intro c hc
    rw [e32] at hc ⊢
    exact iterate_lt crcStep _ crcStep_lt 3 c hc
  rw [e, Function.iterate_mul,
    xorSpan_linCols 32 ((crcStep^[3])^[2 ^ 16]) (fun a b => iterate_xor _ hlin _ a b)
      0xFFFFFFFF (by norm_num),
    linCols_iterate_pow (crcStep^[3]) 32 hlin hb 16]
  exact crc_zero_logo_columns

/-- C23: `crc32b` of the 24576-byte (12 x 2048) buffer of zero bytes is
`0x6EBED2EE`, the signature `main` takes for an empty boot sector. -/
theorem crc32b_empty_boot_sector :
    (List.replicate (12 * 2048) 0).length = LOGO_SIZE ∧
    crc32b (List.replicate (12 * 2048) 0) (12 * 2048) = 0x6EBED2EE ∧
    crc32b (List.replicate (12 * 2048) 0) (12 * 2048) = EMPTY_BOOT_SECTOR_CRC := by
  have e8 : 8 * (12 * 2048) = 196608 := by norm_num
  have h : crc32b (List.replicate (12 * 2048) 0) (12 * 2048) = 0x6EBED2EE := by
    rw [crc32b_zero_bytes _ _ (fun i _ => getD_replicate_zero _ i), e8, crcStep_zero_logo]
    decide
  exact ⟨List.length_replicate _ _, h, h⟩

/-! ## The layout of `JapanMasterDiscSector` -/

/-- C24, as stated, fails for the last field: the comment puts `spaces2` at 828,
and in the packed layout it starts at 832, right after the 16 bytes of
`cdvdgen_version` at 816. -/
theorem japan_spaces2_not_at_commented_offset :
    ("spaces2", 828) ∈ JapanMasterDiscSector_comments ∧
    jmds "spaces2" = 832 ∧
    ¬ (∀ p ∈ JapanMasterDiscSector_comments, jmds p.1 = p.2) := by
  decide

/-- C24 (amended): in the packed `JapanMasterDiscSector` layout every field other
than `spaces2` starts at the byte offset stated in its comment (`disc_name` at
0, `year_bcd` at 96, `common_byte1` at 256, `magic2_first` at 265,
`magic2_second` at 297, `magic1_second` at 301, `magic3` at 317, `zeros_large`
at 320, `spaces1` at 768, `cdvdgen_version` at 816, and the union members from
132 on); `spaces2` starts at 832, where `MasterDiscSector` has it, and the
structure is 2048 bytes long. -/
theorem japan_layout_offsets :
    JapanMasterDiscSector_comments.map (fun p => p.1) =
      (JapanMasterDiscSector_layout.map (fun p => p.1)).filter
        (fun n => decide (n ≠ "media_specific")) ∧
    (∀ p ∈ JapanMasterDiscSector_comments, p.1 ≠ "spaces2" → jmds p.1 = p.2) ∧
    JapanMasterDiscSector_comments.filter (fun p => decide (jmds p.1 ≠ p.2)) =
      [("spaces2", 828)] ∧
    (∀ p ∈ JapanMedia_comments.1, jmdsCd p.1 = p.2) ∧
    (∀ p ∈ JapanMedia_comments.2, jmdsDvd p.1 = p.2) ∧
    (jmds "disc_name" = 0 ∧ jmds "year_bcd" = 96 ∧ jmds "common_byte1" = 256 ∧
      jmds "magic2_first" = 265 ∧ jmds "magic2_second" = 297 ∧ jmds "magic1_second" = 301 ∧
      jmds "magic3" = 317 ∧ jmds "zeros_large" = 320 ∧ jmds "spaces1" = 768 ∧
      jmds "cdvdgen_version" = 816) ∧
    jmds "spaces2" = jmds "cdvdgen_version" + 16 ∧
    jmds "spaces2" = 832 ∧
    mds "spaces2" = 832 ∧
    jmds "spaces2" + 1216 = layoutSize JapanMasterDiscSector_layout ∧
    layoutSize JapanMasterDiscSector_layout = 2048 := by
  refine ⟨by decide, by decide, by decide, by decide, by decide, by decide, by decide, by decide,
    by decide, by decide, by decide⟩

theorem japan_layout_offsets_witness : jmds "magic3" = 317 ∧ jmdsDvd "sector_count_adjusted" = 134 :=
  ⟨japan_layout_offsets.2.1 ("magic3", 317) (by decide) (by decide),
    japan_layout_offsets.2.2.2.2.1 ("sector_count_adjusted", 134) (by decide)⟩

end PS2Patcher
